import Mathlib

/-!
# gvm runtime: call stacks, operand stacks and method dispatch

A shallow embedding of `src/gvm/runtime.go`.

Conventions of the embedding.

* Go pointers to frames are replaced by values: the frame a dispatcher obtains
  from `peekFrame` is threaded explicitly and written back as the last element
  of `vmStack` (`Thread.setTop`); the frames of one call stack are taken to be
  distinct objects, and so are the two frames of `passParameters` and of
  `passReturn` (`passReturnSelf` is `passReturn` of a frame to itself).
* A Go slice whose hidden backing slots matter (`operandStack`, where `pop`
  clears the vacated slot) is kept as backing array plus length (`Slice`).
  `vmStack` is kept as the list of its visible elements; its capacity is the
  constant `DEFAULT_VM_STACK_SIZE` given by `newThread`, the only place a
  `Thread` is built, and reslicing from index 0 never changes a capacity.
* Halting is explicit.  `fatal(...)` and Go run-time panics end the run; a
  thread-level operation returns an `Outcome` which keeps the machine state at
  the point where the run ended.
* Objects live in a heap (`List j_object`) and are referred to by address.
* Declarations which `runtime.go` uses but does not contain (`j_any`, `Method`,
  `Class`, the constant pool, `NativeFunctions`, `fatal`) are modelled from
  their uses in `runtime.go` and from the specification; each says so.
-/

namespace gvm

/-! ## Data model -/

/-- Capacity of a thread's call stack (`runtime.go`, line 8). -/
def DEFAULT_VM_STACK_SIZE : Nat := 512

/-- Modelled from the spec: the type `j_any` is declared outside `runtime.go`.
A runtime value is null (Go `nil`), a primitive scalar, or a reference to a heap
object (`*j_object`, here an address). -/
inductive j_any where
  | null : j_any
  | prim (v : Int) : j_any
  | ref (addr : Nat) : j_any
  deriving DecidableEq, Repr, Inhabited

/-- Modelled from the spec: the declared types of a method (`method.Type`) are
declared outside `runtime.go`, which only compares a return type with
`VOID_TYPE` and counts parameter types. -/
inductive JavaType where
  | VOID_TYPE : JavaType
  | other (descriptor : String) : JavaType
  deriving DecidableEq, Repr, Inhabited

/-- Modelled from the spec: `method.Type`, with the two fields `runtime.go` reads. -/
structure MethodType where
  parameterTypes : List JavaType
  returnType : JavaType
  deriving DecidableEq, Repr, Inhabited

/-- Modelled from the spec: method metadata, declared outside `runtime.go`.  The
fields are those `runtime.go` reads; `classRef` is the back-reference
`method.class`, an index into the class table of the environment. -/
structure Method where
  name : String
  descriptor : String
  methodType : MethodType
  accStatic : Bool
  accNative : Bool
  maxLocals : Nat
  maxStack : Nat
  classRef : Nat
  deriving DecidableEq, Repr, Inhabited

/-- The predicate `method.isStatic()`. -/
def Method.isStatic (m : Method) : Bool := m.accStatic

/-- The predicate `method.isNative()`. -/
def Method.isNative (m : Method) : Bool := m.accNative

/-- Modelled from the spec: a resolved constant-pool entry.  `runtime.go` asserts
an entry to be a method reference (lines 56, 85, 119) or a field reference
(lines 190, 195); anything else makes the type assertion panic. -/
inductive RuntimeConstant where
  | methodref (method : Method) : RuntimeConstant
  | fieldref (index : Nat) : RuntimeConstant
  | other : RuntimeConstant
  deriving DecidableEq, Repr, Inhabited

/-- Modelled from the spec: class metadata, declared outside `runtime.go`:
the class name, the resolved constant pool, and the lookup by name+descriptor
along the inheritance chain (`findMethod`, followed by `resolve`), which is
taken as given. -/
structure Class where
  thisClassName : String
  constantPool : List RuntimeConstant
  findMethod : String → Option Method

/-- Modelled from the spec: a heap object with its runtime class (an index into
the class table) and its field storage. -/
structure j_object where
  classRef : Nat
  fields : List j_any
  deriving DecidableEq, Repr, Inhabited

/-- The heap: objects by address. -/
abbrev Heap := List j_object

/-- Ways a run ends.  The first five are the `fatal(...)` calls of `runtime.go`
(`fatal` is declared elsewhere and is modelled from the spec as halting); the
others are Go run-time panics and a failure inside a native callable. -/
inductive Failure where
  /-- Line 222, `fatal("Stack Overflow")`. -/
  | stackOverflow : Failure
  /-- Line 87, `fatal("Not an instance method")`. -/
  | notInstanceMethod : Failure
  /-- Line 144, `fatal("Not a native method")`. -/
  | notNativeMethod : Failure
  /-- Line 150, `fatal("%s does not exist.", name)`. -/
  | nativeMissing (symbol : String) : Failure
  /-- Line 153, `fatal("The number of params is not adapted.")`. -/
  | arityMismatch : Failure
  /-- Go panic: index out of range. -/
  | indexOutOfRange : Failure
  /-- Go panic: slice bounds out of range (reslicing beyond the capacity). -/
  | sliceBounds : Failure
  /-- Go panic: failed type assertion. -/
  | typeAssertion : Failure
  /-- Go panic: nil or dangling pointer dereference. -/
  | nilDereference : Failure
  /-- The native callable itself did not return normally. -/
  | nativeFailed : Failure
  /-- Go panic raised by `reflect.Value.Call` while it checks its arguments, before
  the callable is entered: a zero `Value` argument, or an argument which is not
  assignable to the parameter type. -/
  | reflectCall : Failure
  deriving DecidableEq, Repr, Inhabited

/-- The failures raised through `fatal(...)`. -/
def Failure.isFatal : Failure → Bool
  | .stackOverflow => true
  | .notInstanceMethod => true
  | .notNativeMethod => true
  | .nativeMissing _ => true
  | .arityMismatch => true
  | _ => false

/-- Modelled from the spec: a registered native callable (a `reflect.Value` of
function kind in `NativeFunctions`): its declared arity `Type().NumIn()`;
whether a value, by its dynamic type, is assignable to the type of the `k`-th
parameter (`assignable k v`); and the behaviour of the callable once entered,
which may read and update the heap and yields the list of results, or nothing
when the callable does not return normally. -/
structure NativeFunction where
  numIn : Nat
  assignable : Nat → j_any → Bool
  call : Heap → List j_any → Option (List j_any × Heap)

/-- The checks `reflect.Value.Call` makes on the arguments built at lines 155-158,
from the `k`-th on, before the callable is entered: no argument is the zero
`reflect.Value`, which is what `reflect.ValueOf` yields for nil, and each
argument is assignable to the type of its parameter. -/
def callAccepts (fn : NativeFunction) : Nat → List j_any → Bool
  | _, [] => true
  | k, v :: rest =>
    if v = j_any.null then false
    else fn.assignable k v && callAccepts fn (k + 1) rest

/-- Modelled from the spec: the read-only surroundings of the engine: the class
table (target of the `class` back-references) and the native registry
`NativeFunctions`. -/
structure Env where
  classes : List Class
  NativeFunctions : String → Option NativeFunction

/-- A Go slice starting at the beginning of its backing array: `arr` is the
backing array (its length is the capacity), `len` the slice length. -/
structure Slice where
  arr : List j_any
  len : Nat
  deriving DecidableEq, Repr, Inhabited

/-- The visible elements of a slice. -/
def Slice.toList (s : Slice) : List j_any := s.arr.take s.len

/-- The capacity of a slice. -/
def Slice.cap (s : Slice) : Nat := s.arr.length

/-- Go keeps `len ≤ cap` for every slice. -/
def Slice.wf (s : Slice) : Prop := s.len ≤ s.arr.length

instance (s : Slice) : Decidable s.wf := by
  unfold Slice.wf
  infer_instance

/-- The struct `StackFrame` (lines 23-31). -/
structure StackFrame where
  method : Method
  pc : Nat
  localVariables : List j_any
  operandStack : Slice
  deriving DecidableEq, Repr, Inhabited

/-- The struct `Thread` (lines 10-14). -/
structure Thread where
  id : Nat
  name : String
  vmStack : List StackFrame
  deriving DecidableEq, Repr, Inhabited

/-- The machine state a dispatcher acts on: the thread, the heap, and a ghost
record of the bridge invocations made so far (symbol and arguments of every
`Call` at line 159, oldest first). -/
structure VMState where
  thread : Thread
  heap : Heap
  nativeCalls : List (String × List j_any)
  deriving DecidableEq, Repr, Inhabited

/-- Result of a thread-level operation: it returned in state `s`, or the run
ended with failure `e` in state `s`. -/
inductive Outcome where
  | returned (s : VMState) : Outcome
  | failed (e : Failure) (s : VMState) : Outcome
  deriving DecidableEq, Repr, Inhabited

/-- The state in which an operation returned or ended. -/
def Outcome.state : Outcome → VMState
  | .returned s => s
  | .failed _ s => s

/-! ## Threads and frames -/

/-- The function `newThread` (lines 16-20); `id` is left at its zero value. -/
def newThread (name : String) : Thread :=
  { id := 0, name := name, vmStack := [] }

/-- The function `NewStackFrame` (lines 33-40): `pc` 0, `maxLocals` locals without
values, an empty operand stack of capacity `maxStack`. -/
def NewStackFrame (method : Method) : StackFrame :=
  { method := method
    pc := 0
    localVariables := List.replicate method.maxLocals j_any.null
    operandStack := { arr := List.replicate method.maxStack j_any.null, len := 0 } }

/-- The method `StackFrame.loadVar` (lines 42-45). -/
def StackFrame.loadVar (this : StackFrame) (index : Nat) : Except Failure j_any :=
  match this.localVariables[index]? with
  | none => .error .indexOutOfRange
  | some value => .ok value

/-- The method `StackFrame.storeVar` (lines 47-49). -/
def StackFrame.storeVar (this : StackFrame) (index : Nat) (value : j_any) :
    Except Failure StackFrame :=
  if index < this.localVariables.length then
    .ok { this with localVariables := this.localVariables.set index value }
  else .error .indexOutOfRange

/-- The method `StackFrame.push` (lines 199-203): reslice to one more element
(a panic beyond the capacity), then write the new last slot. -/
def StackFrame.push (this : StackFrame) (jany : j_any) : Except Failure StackFrame :=
  let operandStackSize := this.operandStack.len
  if operandStackSize + 1 ≤ this.operandStack.arr.length then
    .ok { this with
      operandStack :=
        { arr := this.operandStack.arr.set operandStackSize jany
          len := operandStackSize + 1 } }
  else .error .sliceBounds

/-- The method `StackFrame.pop` (lines 205-211): read the last slot (a panic on an
empty stack, where the index is -1), clear it, reslice to one element less. -/
def StackFrame.pop (this : StackFrame) : Except Failure (j_any × StackFrame) :=
  let operandStackSize := this.operandStack.len
  if operandStackSize = 0 then .error .indexOutOfRange
  else
    match this.operandStack.arr[operandStackSize - 1]? with
    | none => .error .indexOutOfRange
    | some jany =>
      .ok (jany,
        { this with
          operandStack :=
            { arr := this.operandStack.arr.set (operandStackSize - 1) j_any.null
              len := operandStackSize - 1 } })

/-- The method `StackFrame.peek` (lines 213-217). -/
def StackFrame.peek (this : StackFrame) : Except Failure j_any :=
  let operandStackSize := this.operandStack.len
  if operandStackSize = 0 then .error .indexOutOfRange
  else
    match this.operandStack.arr[operandStackSize - 1]? with
    | none => .error .indexOutOfRange
    | some jany => .ok jany

/-- The method `StackFrame.passReturn` (lines 185-187), for two distinct frames:
`caller.push(this.pop())`.  Yields the callee and the caller afterwards. -/
def StackFrame.passReturn (this caller : StackFrame) :
    Except Failure (StackFrame × StackFrame) :=
  match this.pop with
  | .error e => .error e
  | .ok (v, this1) =>
    match caller.push v with
    | .error e => .error e
    | .ok caller1 => .ok (this1, caller1)

/-- The method `StackFrame.passReturn` when callee and caller are the same frame. -/
def StackFrame.passReturnSelf (this : StackFrame) : Except Failure StackFrame :=
  match this.pop with
  | .error e => .error e
  | .ok (v, this1) => this1.push v

/-- The method `Thread.pushFrame` (lines 219-226).  The reslice at line 224 stays
within the capacity `DEFAULT_VM_STACK_SIZE` exactly when `size` is below it. -/
def Thread.pushFrame (this : Thread) (stackFrame : StackFrame) : Except Failure Thread :=
  let size := this.vmStack.length
  if size = DEFAULT_VM_STACK_SIZE then .error .stackOverflow
  else if size + 1 ≤ DEFAULT_VM_STACK_SIZE then
    .ok { this with vmStack := this.vmStack ++ [stackFrame] }
  else .error .sliceBounds

/-- The method `Thread.popFrame` (lines 228-234). -/
def Thread.popFrame (this : Thread) : Thread :=
  let size := this.vmStack.length
  if size = 0 then this
  else { this with vmStack := this.vmStack.take (size - 1) }

/-- The method `Thread.peekFrame` (lines 236-239). -/
def Thread.peekFrame (this : Thread) : Except Failure StackFrame :=
  let size := this.vmStack.length
  match this.vmStack[size - 1]? with
  | none => .error .indexOutOfRange
  | some f => .ok f

/-- Writes back the frame obtained from `peekFrame`: the pointer `f` of a
dispatcher denotes the last element of `vmStack`. -/
def Thread.setTop (this : Thread) (f : StackFrame) : Thread :=
  { this with vmStack := this.vmStack.set (this.vmStack.length - 1) f }

/-- Replaces the caller frame of a state: the effect, seen from the thread, of
the dispatcher mutating the frame `f` it holds. -/
def VMState.withTop (s : VMState) (f : StackFrame) : VMState :=
  { s with thread := s.thread.setTop f }

/-! ## Method resolution -/

/-- The expression
`c.constantPool[index].resolve().(*RuntimeConstantMethodrefInfo).method.resolve()`
with `c := f.method.class` (lines 53-56, 83-85, 117-119). -/
def resolveMethod (env : Env) (m : Method) (index : Nat) : Except Failure Method :=
  match env.classes[m.classRef]? with
  | none => .error .nilDereference
  | some c =>
    match c.constantPool[index]? with
    | none => .error .indexOutOfRange
    | some (.methodref method) => .ok method
    | some _ => .error .typeAssertion

/-- The expression `strings.Replace(s, "/", "_", -1)`: every `/` becomes `_`. -/
def replaceSlash (s : String) : String :=
  String.mk (s.data.map (fun ch => if ch = '/' then '_' else ch))

/-- The symbol computed at line 147. -/
def nativeSymbol (thisClassName methodName : String) : String :=
  "Java_" ++ replaceSlash (thisClassName ++ "_" ++ methodName)

/-- The method `Thread.invokeNativeMethod` (lines 142-164).  Yields the result
(or the failure) and the state afterwards.  `Call` (line 159) panics on arguments
it does not accept before the callable is entered; once the callable is
entered the invocation is recorded.  A callable without results gives
`j_any(nil)` (line 161); otherwise the first result is asserted to be a `j_any`
(line 163), and this assertion panics on a nil result. -/
def invokeNativeMethod (env : Env) (s : VMState) (method : Method) (params : List j_any) :
    Except Failure j_any × VMState :=
  if !method.isNative then (.error .notNativeMethod, s)
  else
    match env.classes[method.classRef]? with
    | none => (.error .nilDereference, s)
    | some c =>
      let name := nativeSymbol c.thisClassName method.name
      match env.NativeFunctions name with
      | none => (.error (.nativeMissing name), s)
      | some fn =>
        if params.length ≠ fn.numIn then (.error .arityMismatch, s)
        else if callAccepts fn 0 params = false then (.error .reflectCall, s)
        else
          let s1 := { s with nativeCalls := s.nativeCalls ++ [(name, params)] }
          match fn.call s.heap params with
          | none => (.error .nativeFailed, s1)
          | some ([], heap1) => (.ok j_any.null, { s1 with heap := heap1 })
          | some (r :: _, heap1) =>
            if r = j_any.null then (.error .typeAssertion, { s1 with heap := heap1 })
            else (.ok r, { s1 with heap := heap1 })

/-! ## Argument passing -/

/-- Result of the loop which reads the parameters off the caller. -/
inductive PopResult where
  | done (f : StackFrame) (params : List j_any) : PopResult
  | failed (e : Failure) (f : StackFrame) : PopResult
  deriving DecidableEq, Repr, Inhabited

/-- The loop `for i := parameterCount-1; i >= 0; i-- { params[i] = f.pop() }`
(lines 60-62, 91-93, 122-124); the first argument is `i + 1`. -/
def popParams : Nat → StackFrame → List j_any → PopResult
  | 0, f, params => .done f params
  | i + 1, f, params =>
    match f.pop with
    | .error e => .failed e f
    | .ok (v, f1) => popParams i f1 (params.set i v)

/-- The loop `for j := parameterCount-1; j >= 0; j-- { frame.storeVar(uint(j), params[j]) }`
of static dispatch (lines 72-74); the first argument is `j + 1`. -/
def storeParamsDown : Nat → StackFrame → List j_any → Except Failure StackFrame
  | 0, frame, _ => .ok frame
  | j + 1, frame, params =>
    match params[j]? with
    | none => .error .indexOutOfRange
    | some v =>
      match frame.storeVar j v with
      | .error e => .error e
      | .ok frame1 => storeParamsDown j frame1 params

/-- The loop `for j := 0; j < parameterCount; j++ { frame.storeVar(uint(j), params[j]) }`
of virtual and special dispatch (lines 106-108, 134-136); the first argument is
the number of iterations left, `parameterCount - j`. -/
def storeParamsUp : Nat → Nat → StackFrame → List j_any → Except Failure StackFrame
  | 0, _, frame, _ => .ok frame
  | n + 1, j, frame, params =>
    match params[j]? with
    | none => .error .indexOutOfRange
    | some v =>
      match frame.storeVar j v with
      | .error e => .error e
      | .ok frame1 => storeParamsUp n (j + 1) frame1 params

/-! ## The three dispatchers -/

/-- Lines 64-68, 98-102, 126-130: bridge to the native implementation of `target`
and push its result on the caller `f` unless the return type is void. -/
def bridgeAndPush (env : Env) (s : VMState) (f : StackFrame) (target : Method)
    (params : List j_any) : Outcome :=
  match invokeNativeMethod env (s.withTop f) target params with
  | (.error e, s1) => .failed e s1
  | (.ok result, s1) =>
    if target.methodType.returnType ≠ JavaType.VOID_TYPE then
      match f.push result with
      | .error e => .failed e s1
      | .ok f1 => .returned (s1.withTop f1)
    else .returned s1

/-- The method `Thread.invokeStaticMethod` (lines 51-79). -/
def invokeStaticMethod (env : Env) (index : Nat) (s : VMState) : Outcome :=
  match s.thread.peekFrame with
  | .error e => .failed e s
  | .ok f =>
    match resolveMethod env f.method index with
    | .error e => .failed e s
    | .ok method =>
      let parameterCount := method.methodType.parameterTypes.length
      match popParams parameterCount f (List.replicate parameterCount j_any.null) with
      | .failed e f1 => .failed e (s.withTop f1)
      | .done f1 params =>
        if method.isNative then bridgeAndPush env s f1 method params
        else
          match storeParamsDown parameterCount (NewStackFrame method) params with
          | .error e => .failed e (s.withTop f1)
          | .ok frame =>
            match (s.thread.setTop f1).pushFrame frame with
            | .error e => .failed e (s.withTop f1)
            | .ok t => .returned { s with thread := t }

/-- Lines 95-96: `params[0].(*j_object)` and
`objectref.class.findMethod(method.name + method.descriptor).resolve()`. -/
def findOverride (env : Env) (heap : Heap) (method : Method) (params : List j_any) :
    Except Failure Method :=
  match params[0]? with
  | none => .error .indexOutOfRange
  | some (j_any.ref addr) =>
    match heap[addr]? with
    | none => .error .nilDereference
    | some objectref =>
      match env.classes[objectref.classRef]? with
      | none => .error .nilDereference
      | some c =>
        match c.findMethod (method.name ++ method.descriptor) with
        | none => .error .nilDereference
        | some overridenMethod => .ok overridenMethod
  | some _ => .error .typeAssertion

/-- The method `Thread.invokeVitrualMethod` (lines 81-112). -/
def invokeVitrualMethod (env : Env) (index : Nat) (s : VMState) : Outcome :=
  match s.thread.peekFrame with
  | .error e => .failed e s
  | .ok f =>
    match resolveMethod env f.method index with
    | .error e => .failed e s
    | .ok method =>
      if method.isStatic then .failed .notInstanceMethod s
      else
        let parameterCount := method.methodType.parameterTypes.length + 1
        match popParams parameterCount f (List.replicate parameterCount j_any.null) with
        | .failed e f1 => .failed e (s.withTop f1)
        | .done f1 params =>
          match findOverride env s.heap method params with
          | .error e => .failed e (s.withTop f1)
          | .ok overridenMethod =>
            if method.isNative then bridgeAndPush env s f1 overridenMethod params
            else
              match storeParamsUp parameterCount 0 (NewStackFrame overridenMethod) params with
              | .error e => .failed e (s.withTop f1)
              | .ok frame =>
                match (s.thread.setTop f1).pushFrame frame with
                | .error e => .failed e (s.withTop f1)
                | .ok t => .returned { s with thread := t }

/-- The method `Thread.invokeSpecialMethod` (lines 114-140). -/
def invokeSpecialMethod (env : Env) (index : Nat) (s : VMState) : Outcome :=
  match s.thread.peekFrame with
  | .error e => .failed e s
  | .ok f =>
    match resolveMethod env f.method index with
    | .error e => .failed e s
    | .ok method =>
      let parameterCount := method.methodType.parameterTypes.length + 1
      match popParams parameterCount f (List.replicate parameterCount j_any.null) with
      | .failed e f1 => .failed e (s.withTop f1)
      | .done f1 params =>
        if method.isNative then bridgeAndPush env s f1 method params
        else
          match storeParamsUp parameterCount 0 (NewStackFrame method) params with
          | .error e => .failed e (s.withTop f1)
          | .ok frame =>
            match (s.thread.setTop f1).pushFrame frame with
            | .error e => .failed e (s.withTop f1)
            | .ok t => .returned { s with thread := t }

/-! ## Parameter passing between frames -/

/-- The loop `for i := start; i >= end; i-- { callee.storeVar(uint(i), this.pop()) }`
of `passParameters` (lines 177-179).  The first argument is the number of
iterations left, `i - end + 1`, the second is `end`; the argument `this.pop()` is
evaluated before `storeVar` is entered.  Yields the caller and the callee
afterwards. -/
def passLoop : Nat → Nat → StackFrame → StackFrame → Except Failure (StackFrame × StackFrame)
  | 0, _, this, callee => .ok (this, callee)
  | n + 1, last, this, callee =>
    match this.pop with
    | .error e => .error e
    | .ok (v, this1) =>
      match callee.storeVar (last + n) v with
      | .error e => .error e
      | .ok callee1 => passLoop n last this1 callee1

/-- The method `StackFrame.passParameters` (lines 169-183), for two distinct
frames.  `start` is the parameter count minus one and `end` is 0, both one more
for an instance method, so the loop makes as many iterations as there are
declared parameters; an instance method then receives one more popped value,
the receiver, in slot 0.  Yields the caller and the callee afterwards. -/
def StackFrame.passParameters (this callee : StackFrame) :
    Except Failure (StackFrame × StackFrame) :=
  let method := callee.method
  let count := method.methodType.parameterTypes.length
  if method.isStatic then passLoop count 0 this callee
  else
    match passLoop count 1 this callee with
    | .error e => .error e
    | .ok (this1, callee1) =>
      match this1.pop with
      | .error e => .error e
      | .ok (v, this2) =>
        match callee1.storeVar 0 v with
        | .error e => .error e
        | .ok callee2 => .ok (this2, callee2)

/-- Lines 57-62 and 70-74 of `invokeStaticMethod`: the parameters are read off the
caller `f` into a buffer, back to front, and copied into a new frame of
`method`.  Yields the caller and the new frame. -/
def bufferPassStatic (f : StackFrame) (method : Method) :
    Except Failure (StackFrame × StackFrame) :=
  let parameterCount := method.methodType.parameterTypes.length
  match popParams parameterCount f (List.replicate parameterCount j_any.null) with
  | .failed e _ => .error e
  | .done f1 params =>
    match storeParamsDown parameterCount (NewStackFrame method) params with
    | .error e => .error e
    | .ok frame => .ok (f1, frame)

/-- Lines 120-124 and 132-136 of `invokeSpecialMethod`: receiver and parameters
are read off the caller `f` into a buffer, back to front, and copied into a new
frame of `method`.  Yields the caller and the new frame. -/
def bufferPassSpecial (f : StackFrame) (method : Method) :
    Except Failure (StackFrame × StackFrame) :=
  let parameterCount := method.methodType.parameterTypes.length + 1
  match popParams parameterCount f (List.replicate parameterCount j_any.null) with
  | .failed e _ => .error e
  | .done f1 params =>
    match storeParamsUp parameterCount 0 (NewStackFrame method) params with
    | .error e => .error e
    | .ok frame => .ok (f1, frame)

/-! ## Field access -/

/-- The expression
`this.method.class.constantPool[index].resolve().(*RuntimeConstantFieldrefInfo).field.index`
(lines 190 and 195). -/
def resolveFieldIndex (env : Env) (m : Method) (index : Nat) : Except Failure Nat :=
  match env.classes[m.classRef]? with
  | none => .error .nilDereference
  | some c =>
    match c.constantPool[index]? with
    | none => .error .indexOutOfRange
    | some (.fieldref i) => .ok i
    | some _ => .error .typeAssertion

/-- The method `StackFrame.getField` (lines 189-192); `objectref` is the address of
the object.  Yields the value read, and the frame and the heap afterwards. -/
def StackFrame.getField (this : StackFrame) (env : Env) (heap : Heap) (objectref : Nat)
    (index : Nat) : Except Failure (j_any × StackFrame × Heap) :=
  match resolveFieldIndex env this.method index with
  | .error e => .error e
  | .ok i =>
    match heap[objectref]? with
    | none => .error .nilDereference
    | some o =>
      match o.fields[i]? with
      | none => .error .indexOutOfRange
      | some value => .ok (value, this, heap)

/-- The method `StackFrame.putField` (lines 194-197); `objectref` is the address of
the object.  Yields the frame and the heap afterwards. -/
def StackFrame.putField (this : StackFrame) (env : Env) (heap : Heap) (objectref : Nat)
    (index : Nat) (value : j_any) : Except Failure (StackFrame × Heap) :=
  match resolveFieldIndex env this.method index with
  | .error e => .error e
  | .ok i =>
    match heap[objectref]? with
    | none => .error .nilDereference
    | some o =>
      if i < o.fields.length then
        .ok (this, heap.set objectref { o with fields := o.fields.set i value })
      else .error .indexOutOfRange

/-! ## Frames before and after a call -/

/-- The caller frame once its `n` topmost operands have been popped: the vacated
slots are cleared and the length is `n` less; everything else is as before. -/
def StackFrame.afterPops (f : StackFrame) (n : Nat) : StackFrame :=
  { f with
    operandStack :=
      { arr := f.operandStack.arr.take (f.operandStack.len - n) ++
          List.replicate n j_any.null ++ f.operandStack.arr.drop f.operandStack.len
        len := f.operandStack.len - n } }

/-- A new frame for `method` whose first local slots hold `args`, in order. -/
def calleeFrame (method : Method) (args : List j_any) : StackFrame :=
  { NewStackFrame method with
    localVariables :=
      args ++ List.replicate (method.maxLocals - args.length) j_any.null }

/-- The caller `caller1` after a native call made from frame `f` which consumed
`args` above `stack` and produced `result`: it differs from `f` only in its
operand stack, which is `stack`, followed by `result` unless the return type is
void; its depth is the old depth minus `args.length`, plus one unless void. -/
def NativeCallEffect (f caller1 : StackFrame) (stack args : List j_any)
    (returnType : JavaType) (result : j_any) : Prop :=
  caller1.method = f.method ∧ caller1.pc = f.pc ∧
    caller1.localVariables = f.localVariables ∧
    caller1.operandStack.toList =
      (if returnType = .VOID_TYPE then stack else stack ++ [result]) ∧
    caller1.operandStack.len + args.length =
      f.operandStack.len + (if returnType = .VOID_TYPE then 0 else 1)

/-- Pushes the frames of a list one after the other, first element first, and
stops at the first push that fails. -/
def pushFrames : Thread → List StackFrame → Except Failure Thread
  | t, [] => .ok t
  | t, f :: fs =>
    match t.pushFrame f with
    | .error e => .error e
    | .ok t1 => pushFrames t1 fs

/-- The states a thread reaches from `newThread` (with any heap) by finitely many
`pushFrame`, `popFrame`, `invokeStaticMethod`, `invokeVitrualMethod` and
`invokeSpecialMethod` operations, none of which failed. -/
inductive Reachable (env : Env) : VMState → Prop where
  | init (name : String) (heap : Heap) :
    Reachable env { thread := newThread name, heap := heap, nativeCalls := [] }
  | pushFrame (s : VMState) (f : StackFrame) (t1 : Thread) :
    Reachable env s → s.thread.pushFrame f = .ok t1 → Reachable env { s with thread := t1 }
  | popFrame (s : VMState) :
    Reachable env s → Reachable env { s with thread := s.thread.popFrame }
  | invokeStatic (s s1 : VMState) (index : Nat) :
    Reachable env s → invokeStaticMethod env index s = .returned s1 → Reachable env s1
  | invokeVirtual (s s1 : VMState) (index : Nat) :
    Reachable env s → invokeVitrualMethod env index s = .returned s1 → Reachable env s1
  | invokeSpecial (s s1 : VMState) (index : Nat) :
    Reachable env s → invokeSpecialMethod env index s = .returned s1 → Reachable env s1

/-- The frames obtained from `NewStackFrame(method)` by finitely many `push`,
`pop`, `peek` and `passReturn` operations, none of which failed; in a
`passReturn` the frame may be the callee, the caller, or both. -/
inductive FrameReachable (method : Method) : StackFrame → Prop where
  | init : FrameReachable method (NewStackFrame method)
  | push (f f1 : StackFrame) (v : j_any) :
    FrameReachable method f → f.push v = .ok f1 → FrameReachable method f1
  | pop (f f1 : StackFrame) (v : j_any) :
    FrameReachable method f → f.pop = .ok (v, f1) → FrameReachable method f1
  | peek (f : StackFrame) (v : j_any) :
    FrameReachable method f → f.peek = .ok v → FrameReachable method f
  | passReturnCallee (f f1 caller caller1 : StackFrame) :
    FrameReachable method f → f.passReturn caller = .ok (f1, caller1) →
    FrameReachable method f1
  | passReturnCaller (f f1 callee callee1 : StackFrame) :
    FrameReachable method f → callee.passReturn f = .ok (callee1, f1) →
    FrameReachable method f1
  | passReturnSelf (f f1 : StackFrame) :
    FrameReachable method f → f.passReturnSelf = .ok f1 → FrameReachable method f1

/-- The state with the call stack replaced by `frames`. -/
def VMState.withStack (s : VMState) (frames : List StackFrame) : VMState :=
  { s with thread := { s.thread with vmStack := frames } }

/-! ## A small configuration: base class `A`, subclass `B` overriding `foo` -/

namespace Demo

/-- Static `A.main`, the method of the running frame. -/
def mainMethod : Method :=
  { name := "main", descriptor := "()V"
    methodType := { parameterTypes := [], returnType := .VOID_TYPE }
    accStatic := true, accNative := false, maxLocals := 2, maxStack := 4, classRef := 0 }

/-- Static `A.add(II)I`, interpreted. -/
def addMethod : Method :=
  { name := "add", descriptor := "(II)I"
    methodType := { parameterTypes := [.other "I", .other "I"], returnType := .other "I" }
    accStatic := true, accNative := false, maxLocals := 3, maxStack := 2, classRef := 0 }

/-- Instance method `A.foo(I)V`, interpreted. -/
def fooA : Method :=
  { name := "foo", descriptor := "(I)V"
    methodType := { parameterTypes := [.other "I"], returnType := .VOID_TYPE }
    accStatic := false, accNative := false, maxLocals := 2, maxStack := 1, classRef := 0 }

/-- Instance method `B.foo(I)V`, the override of `A.foo`, interpreted. -/
def fooB : Method :=
  { name := "foo", descriptor := "(I)V"
    methodType := { parameterTypes := [.other "I"], returnType := .VOID_TYPE }
    accStatic := false, accNative := false, maxLocals := 3, maxStack := 2, classRef := 1 }

/-- Instance method `A.hash()I`, interpreted. -/
def hashA : Method :=
  { name := "hash", descriptor := "()I"
    methodType := { parameterTypes := [], returnType := .other "I" }
    accStatic := false, accNative := false, maxLocals := 1, maxStack := 1, classRef := 0 }

/-- Instance method `B.hash()I`, a native override of `A.hash`. -/
def hashB : Method :=
  { name := "hash", descriptor := "()I"
    methodType := { parameterTypes := [], returnType := .other "I" }
    accStatic := false, accNative := true, maxLocals := 1, maxStack := 0, classRef := 1 }

/-- Instance method `A.id()I`, native. -/
def idA : Method :=
  { name := "id", descriptor := "()I"
    methodType := { parameterTypes := [], returnType := .other "I" }
    accStatic := false, accNative := true, maxLocals := 0, maxStack := 0, classRef := 0 }

/-- Instance method `B.id()I`, an interpreted override of `A.id`. -/
def idB : Method :=
  { name := "id", descriptor := "()I"
    methodType := { parameterTypes := [], returnType := .other "I" }
    accStatic := false, accNative := false, maxLocals := 1, maxStack := 1, classRef := 1 }

/-- Static native `A.log(I)V`. -/
def logMethod : Method :=
  { name := "log", descriptor := "(I)V"
    methodType := { parameterTypes := [.other "I"], returnType := .VOID_TYPE }
    accStatic := true, accNative := true, maxLocals := 0, maxStack := 0, classRef := 0 }

/-- Static native `A.time()J`, without parameters. -/
def timeMethod : Method :=
  { name := "time", descriptor := "()J"
    methodType := { parameterTypes := [], returnType := .other "J" }
    accStatic := true, accNative := true, maxLocals := 0, maxStack := 0, classRef := 0 }

/-- Instance native `A.size()I`, inherited by `B`. -/
def sizeMethod : Method :=
  { name := "size", descriptor := "()I"
    methodType := { parameterTypes := [], returnType := .other "I" }
    accStatic := false, accNative := true, maxLocals := 0, maxStack := 0, classRef := 0 }

/-- The method table of `A`. -/
def findMethodA (key : String) : Option Method :=
  if key = "foo(I)V" then some fooA
  else if key = "hash()I" then some hashA
  else if key = "id()I" then some idA
  else if key = "size()I" then some sizeMethod
  else none

/-- The method table of `B`: `foo`, `hash` and `id` are overridden, the rest is
inherited from `A`. -/
def findMethodB (key : String) : Option Method :=
  if key = "foo(I)V" then some fooB
  else if key = "hash()I" then some hashB
  else if key = "id()I" then some idB
  else findMethodA key

/-- Class `A` with its constant pool. -/
def classA : Class :=
  { thisClassName := "A"
    constantPool :=
      [.methodref addMethod, .methodref fooA, .methodref hashA, .methodref idA,
        .methodref logMethod, .methodref timeMethod, .methodref sizeMethod, .fieldref 1]
    findMethod := findMethodA }

/-- Class `B`, a subclass of `A`. -/
def classB : Class :=
  { thisClassName := "B"
    constantPool := []
    findMethod := findMethodB }

/-- A native callable which takes `n` arguments of any type and yields `results`. -/
def constantNative (n : Nat) (results : List j_any) : NativeFunction :=
  { numIn := n, assignable := fun _ _ => true, call := fun heap _ => some (results, heap) }

/-- A native callable which takes `n` arguments of a primitive type and yields
`results`. -/
def primitiveNative (n : Nat) (results : List j_any) : NativeFunction :=
  { numIn := n
    assignable := fun _ v => match v with
      | .prim _ => true
      | _ => false
    call := fun heap _ => some (results, heap) }

/-- The native registry. -/
def natives (symbol : String) : Option NativeFunction :=
  if symbol = "Java_A_log" then some (constantNative 1 [])
  else if symbol = "Java_A_time" then some (constantNative 0 [.prim 1000])
  else if symbol = "Java_A_size" then some (constantNative 1 [.prim 3])
  else if symbol = "Java_B_hash" then some (constantNative 1 [.prim 42])
  else none

/-- The class table and the native registry. -/
def env : Env :=
  { classes := [classA, classB], NativeFunctions := natives }

/-- A frame of `main` whose only operand is a reference to the object at address 0. -/
def receiverFrame : StackFrame :=
  { method := mainMethod, pc := 5
    localVariables := [.null, .null]
    operandStack := { arr := [.ref 0, .null, .null, .null], len := 1 } }

/-- A frame of `main` whose operand stack is full. -/
def fullFrame : StackFrame :=
  { method := mainMethod, pc := 5
    localVariables := [.null, .null]
    operandStack := { arr := [.prim 1, .prim 2, .prim 3, .prim 4], len := 4 } }

/-- A frame of `main` with operands 7, 8, 9 (9 pushed last) and one spare slot. -/
def mainFrame : StackFrame :=
  { method := mainMethod, pc := 5
    localVariables := [.null, .null]
    operandStack := { arr := [.prim 7, .prim 8, .prim 9, .null], len := 3 } }

/-- A frame of `main` whose operands are a reference to the object at address 0
and the number 9. -/
def callFrame : StackFrame :=
  { method := mainMethod, pc := 5
    localVariables := [.null, .null]
    operandStack := { arr := [.prim 7, .ref 0, .prim 9, .null], len := 3 } }

/-- A heap with one instance of `B`. -/
def heapB : Heap := [{ classRef := 1, fields := [] }]

/-- A thread running `main` about to call `add(8, 9)`. -/
def state : VMState :=
  { thread := { id := 0, name := "main", vmStack := [mainFrame] }
    heap := heapB, nativeCalls := [] }

/-- A thread running `main` about to call `foo(9)` on the instance of `B`. -/
def callState : VMState :=
  { thread := { id := 0, name := "main", vmStack := [callFrame] }
    heap := heapB, nativeCalls := [] }

/-- A thread running `main` about to call a method without arguments on the
instance of `B`. -/
def receiverState : VMState :=
  { thread := { id := 0, name := "main", vmStack := [receiverFrame] }
    heap := heapB, nativeCalls := [] }

/-- A thread running `main` on a full operand stack. -/
def fullState : VMState :=
  { thread := { id := 0, name := "main", vmStack := [fullFrame] }
    heap := heapB, nativeCalls := [] }

/-- The state after `log(9)` was bridged from `state`. -/
def loggedState : VMState :=
  { thread := { id := 0, name := "main", vmStack := [mainFrame.afterPops 1] }
    heap := heapB, nativeCalls := [("Java_A_log", [.prim 9])] }

/-- The state after `size()` was bridged from `receiverState`, before the result
is pushed. -/
def sizedState : VMState :=
  { thread := { id := 0, name := "main", vmStack := [receiverFrame.afterPops 1] }
    heap := heapB, nativeCalls := [("Java_A_size", [.ref 0])] }

/-- A thread of 512 frames, the topmost about to call `add(8, 9)`. -/
def deepState : VMState :=
  { thread := { id := 0, name := "main", vmStack := List.replicate 511 fullFrame ++ [mainFrame] }
    heap := heapB, nativeCalls := [] }

/-- A heap with one instance of `B` which has three fields. -/
def heapFields : Heap := [{ classRef := 1, fields := [.prim 10, .prim 20, .prim 30] }]

/-- Static native `c` of the class named `a/b`. -/
def slashMethod : Method :=
  { name := "c", descriptor := "()V"
    methodType := { parameterTypes := [], returnType := .VOID_TYPE }
    accStatic := true, accNative := true, maxLocals := 0, maxStack := 0, classRef := 0 }

/-- Static native `b_c` of the class named `a`. -/
def underscoreMethod : Method :=
  { name := "b_c", descriptor := "()V"
    methodType := { parameterTypes := [], returnType := .VOID_TYPE }
    accStatic := true, accNative := true, maxLocals := 0, maxStack := 0, classRef := 1 }

/-- A class table with the classes `a/b` and `a`, and a registry with the one
callable `Java_a_b_c`. -/
def slashEnv : Env :=
  { classes :=
      [{ thisClassName := "a/b", constantPool := [], findMethod := fun _ => none },
        { thisClassName := "a", constantPool := [], findMethod := fun _ => none }]
    NativeFunctions := fun symbol =>
      if symbol = "Java_a_b_c" then some (constantNative 0 [.prim 5]) else none }

/-- The class table of `env` with a registry in which `Java_A_log` takes one
argument of a primitive type. -/
def typedEnv : Env :=
  { classes := [classA, classB]
    NativeFunctions := fun symbol =>
      if symbol = "Java_A_log" then some (primitiveNative 1 []) else none }

/-- A thread of 512 frames, the topmost about to call a method without arguments
on the instance of `B`. -/
def deepReceiverState : VMState :=
  { thread :=
      { id := 0, name := "main", vmStack := List.replicate 511 fullFrame ++ [receiverFrame] }
    heap := heapB, nativeCalls := [] }

/-- A thread of 512 frames, the topmost about to call `foo(9)` on the instance of
`B`. -/
def deepCallState : VMState :=
  { thread :=
      { id := 0, name := "main", vmStack := List.replicate 511 fullFrame ++ [callFrame] }
    heap := heapB, nativeCalls := [] }

end Demo

/-! ## Operand-stack lemmas -/

theorem getElem?_append_cons_length (s rest : List j_any) (v : j_any) :
    (s ++ v :: rest)[s.length]? = some v := by
  induction s with
  | nil => simp
  | cons x xs ih => simpa using ih

theorem set_append_cons_length (s rest : List j_any) (w v : j_any) :
    (s ++ w :: rest).set s.length v = s ++ v :: rest := by
  induction s with
  | nil => simp
  | cons x xs ih => simp [ih]

theorem drop_set_same (params : List j_any) (v : j_any) :
    ∀ n, n < params.length → (params.set n v).drop n = v :: params.drop (n + 1) := by
  induction params with
  | nil => intro n h; simp at h
  | cons x xs ih =>
    intro n h
    cases n with
    | zero => rfl
    | succ k =>
      simp only [List.length_cons, Nat.add_lt_add_iff_right] at h
      simpa using ih k h

theorem StackFrame.pop_eq (f : StackFrame) (s rest : List j_any) (v : j_any)
    (harr : f.operandStack.arr = s ++ v :: rest)
    (hlen : f.operandStack.len = s.length + 1) :
    f.pop = .ok (v, { f with
      operandStack := { arr := s ++ j_any.null :: rest, len := s.length } }) := by
  unfold StackFrame.pop
  simp only [harr, hlen, Nat.add_one_ne_zero, if_false, Nat.add_sub_cancel,
    getElem?_append_cons_length, set_append_cons_length]

theorem StackFrame.push_eq (f : StackFrame) (s rest : List j_any) (w v : j_any)
    (harr : f.operandStack.arr = s ++ w :: rest)
    (hlen : f.operandStack.len = s.length) :
    f.push v = .ok { f with
      operandStack := { arr := s ++ v :: rest, len := s.length + 1 } } := by
  unfold StackFrame.push
  simp only [harr, hlen, set_append_cons_length]
  rw [if_pos]
  simp

theorem popParams_eq (a : List j_any) :
    ∀ (f : StackFrame) (s rest params : List j_any),
      f.operandStack.arr = s ++ a ++ rest →
      f.operandStack.len = s.length + a.length →
      a.length ≤ params.length →
      popParams a.length f params =
        .done { f with
          operandStack :=
            { arr := s ++ List.replicate a.length j_any.null ++ rest, len := s.length } }
          (a ++ params.drop a.length) := by
  induction a using List.reverseRecOn with
  | nil =>
    intro f s rest params harr hlen _
    obtain ⟨m, pc, lv, ⟨arr, len⟩⟩ := f
    simp only [List.append_nil] at harr
    simp only [List.length_nil, Nat.add_zero] at hlen
    subst harr hlen
    simp [popParams]
  | append_singleton a v ih =>
    intro f s rest params harr hlen hp
    simp only [List.length_append, List.length_singleton] at hlen hp ⊢
    have hpop := StackFrame.pop_eq f (s ++ a) rest v
      (by rw [harr]; simp) (by rw [hlen]; simp; omega)
    simp only [popParams, hpop]
    have := ih { f with operandStack :=
        { arr := s ++ a ++ j_any.null :: rest, len := (s ++ a).length } }
      s (j_any.null :: rest) (params.set a.length v) (by simp) (by simp) (by simp; omega)
    rw [this]
    congr 1
    · simp [List.replicate_succ', List.append_assoc]
    · rw [drop_set_same params v a.length (by omega)]
      simp

/-! ## Local-variable lemmas -/

theorem take_succ_append_drop (params l : List j_any) (v : j_any) :
    ∀ n, params[n]? = some v →
      params.take n ++ v :: l.drop (n + 1) = params.take (n + 1) ++ l.drop (n + 1) := by
  intro n h
  rw [List.take_succ, h]
  simp

theorem take_set_succ (l : List j_any) (v : j_any) :
    ∀ j, j < l.length → (l.set j v).take (j + 1) = l.take j ++ [v] := by
  induction l with
  | nil => intro j h; simp at h
  | cons x xs ih =>
    intro j h
    cases j with
    | zero => simp
    | succ k =>
      simp only [List.length_cons, Nat.add_lt_add_iff_right] at h
      simp [ih k h]

theorem drop_set_above (l : List j_any) (v : j_any) :
    ∀ j k, j < k → (l.set j v).drop k = l.drop k := by
  induction l with
  | nil => intro j k _; simp
  | cons x xs ih =>
    intro j k h
    cases k with
    | zero => omega
    | succ k1 =>
      cases j with
      | zero => simp
      | succ j1 => simp [ih j1 k1 (by omega)]

theorem storeParamsDown_eq (params : List j_any) :
    ∀ (n : Nat) (frame : StackFrame), n ≤ params.length →
      storeParamsDown n frame params =
        if n ≤ frame.localVariables.length then
          .ok { frame with
            localVariables := params.take n ++ frame.localVariables.drop n }
        else .error .indexOutOfRange := by
  intro n
  induction n with
  | zero => intro frame _; simp [storeParamsDown]
  | succ n ih =>
    intro frame hn
    obtain ⟨v, hv⟩ : ∃ v, params[n]? = some v :=
      ⟨params[n], List.getElem?_eq_getElem (by omega)⟩
    simp only [storeParamsDown, hv, StackFrame.storeVar]
    by_cases hlt : n < frame.localVariables.length
    · have h1 : n + 1 ≤ frame.localVariables.length := hlt
      have h2 : n ≤ frame.localVariables.length := by omega
      simp only [hlt, if_true, h1]
      rw [ih _ (by omega)]
      simp only [List.length_set, h2, if_true, drop_set_same _ v n hlt,
        take_succ_append_drop params frame.localVariables v n hv]
    · have h1 : ¬ (n + 1 ≤ frame.localVariables.length) := by omega
      simp only [hlt, if_false, h1]

theorem storeParamsUp_eq (params : List j_any) :
    ∀ (n j : Nat) (frame : StackFrame), j + n ≤ params.length →
      j ≤ frame.localVariables.length →
      storeParamsUp n j frame params =
        if j + n ≤ frame.localVariables.length then
          .ok { frame with
            localVariables :=
              frame.localVariables.take j ++ (params.drop j).take n ++
                frame.localVariables.drop (j + n) }
        else .error .indexOutOfRange := by
  intro n
  induction n with
  | zero =>
    intro j frame _ hj
    simp [storeParamsUp, hj]
  | succ n ih =>
    intro j frame hn hj
    have hjp : j < params.length := by omega
    obtain ⟨v, hv⟩ : ∃ v, params[j]? = some v :=
      ⟨params[j], List.getElem?_eq_getElem hjp⟩
    simp only [storeParamsUp, hv, StackFrame.storeVar]
    by_cases hlt : j < frame.localVariables.length
    · simp only [hlt, if_true]
      rw [ih (j + 1) _ (by omega) (by simp only [List.length_set]; omega)]
      simp only [List.length_set]
      have e : j + 1 + n = j + (n + 1) := by omega
      rw [e]
      by_cases hall : j + (n + 1) ≤ frame.localVariables.length
      · simp only [hall, if_true, take_set_succ _ v j hlt,
          drop_set_above _ v j (j + (n + 1)) (by omega)]
        have hd : params.drop j = v :: params.drop (j + 1) := by
          rw [List.drop_eq_getElem_cons hjp]
          have := List.getElem?_eq_getElem hjp
          rw [hv] at this
          injection this with this
          rw [this]
        rw [hd]
        simp
      · simp only [hall, if_false]
    · have h1 : ¬ (j + (n + 1) ≤ frame.localVariables.length) := by omega
      simp only [hlt, if_false, h1]

/-! ## Call-stack lemmas -/

theorem Slice.arr_eq_of_toList (os : Slice) (x : List j_any) (hwf : os.wf)
    (h : os.toList = x) : os.arr = x ++ os.arr.drop os.len ∧ os.len = x.length := by
  unfold Slice.wf at hwf
  unfold Slice.toList at h
  subst h
  constructor
  · exact (List.take_append_drop _ _).symm
  · simp [List.length_take, Nat.min_eq_left hwf]

theorem Thread.peekFrame_eq (t : Thread) (below : List StackFrame) (f : StackFrame)
    (h : t.vmStack = below ++ [f]) : t.peekFrame = .ok f := by
  unfold Thread.peekFrame
  simp [h]

theorem Thread.setTop_eq (t : Thread) (below : List StackFrame) (f f1 : StackFrame)
    (h : t.vmStack = below ++ [f]) :
    t.setTop f1 = { t with vmStack := below ++ [f1] } := by
  unfold Thread.setTop
  simp [h]

theorem Thread.pushFrame_eq (t : Thread) (frame : StackFrame) :
    t.pushFrame frame =
      if t.vmStack.length < DEFAULT_VM_STACK_SIZE then
        .ok { t with vmStack := t.vmStack ++ [frame] }
      else if t.vmStack.length = DEFAULT_VM_STACK_SIZE then .error .stackOverflow
      else .error .sliceBounds := by
  unfold Thread.pushFrame
  by_cases h1 : t.vmStack.length = DEFAULT_VM_STACK_SIZE
  · simp [h1]
  · by_cases h2 : t.vmStack.length < DEFAULT_VM_STACK_SIZE
    · have h3 : t.vmStack.length + 1 ≤ DEFAULT_VM_STACK_SIZE := h2
      simp [h1, h2, h3]
    · have h3 : ¬ (t.vmStack.length + 1 ≤ DEFAULT_VM_STACK_SIZE) := by omega
      simp [h1, h2, h3]

theorem resolveMethod_eq (env : Env) (m method : Method) (index : Nat) (c : Class)
    (hclass : env.classes[m.classRef]? = some c)
    (hpool : c.constantPool[index]? = some (.methodref method)) :
    resolveMethod env m index = .ok method := by
  unfold resolveMethod
  simp [hclass, hpool]

/-! ## Frames before and after a call -/

theorem StackFrame.afterPops_eq (f : StackFrame) (stack args spare : List j_any)
    (harr : f.operandStack.arr = stack ++ args ++ spare)
    (hlen : f.operandStack.len = stack.length + args.length) :
    f.afterPops args.length =
      { f with operandStack :=
        { arr := stack ++ List.replicate args.length j_any.null ++ spare
          len := stack.length } } := by
  unfold StackFrame.afterPops
  simp only [harr, hlen, Nat.add_sub_cancel]
  congr 2
  congr 1
  · congr 1
    rw [List.append_assoc, List.take_left]
  · rw [← List.length_append, List.drop_left]

theorem StackFrame.afterPops_toList (f : StackFrame) (stack args : List j_any)
    (hwf : f.operandStack.wf) (hops : f.operandStack.toList = stack ++ args) :
    (f.afterPops args.length).operandStack.toList = stack := by
  obtain ⟨harr, hlen⟩ := Slice.arr_eq_of_toList _ _ hwf hops
  rw [List.length_append] at hlen
  rw [StackFrame.afterPops_eq f stack args _ harr hlen]
  simp [Slice.toList, List.take_append_eq_append_take]

theorem StackFrame.afterPops_len (f : StackFrame) (stack args : List j_any)
    (hwf : f.operandStack.wf) (hops : f.operandStack.toList = stack ++ args) :
    (f.afterPops args.length).operandStack.len = stack.length ∧
      f.operandStack.len = stack.length + args.length := by
  obtain ⟨_, hlen⟩ := Slice.arr_eq_of_toList _ _ hwf hops
  rw [List.length_append] at hlen
  refine ⟨?_, hlen⟩
  simp only [StackFrame.afterPops, hlen, Nat.add_sub_cancel]

theorem calleeFrame_loadVar (method : Method) (args : List j_any) (j : Nat) (a : j_any)
    (h : args[j]? = some a) : (calleeFrame method args).loadVar j = .ok a := by
  have hj : j < args.length := by
    by_contra hc
    rw [List.getElem?_eq_none (by omega)] at h
    exact Option.noConfusion h
  unfold StackFrame.loadVar calleeFrame
  simp only [List.getElem?_append_left hj, h]

theorem calleeFrame_length (method : Method) (args : List j_any)
    (h : args.length ≤ method.maxLocals) :
    (calleeFrame method args).localVariables.length = method.maxLocals := by
  simp only [calleeFrame, List.length_append, List.length_replicate]
  omega

theorem VMState.withTop_eq (s : VMState) (below : List StackFrame) (f f1 : StackFrame)
    (h : s.thread.vmStack = below ++ [f]) : s.withTop f1 = s.withStack (below ++ [f1]) := by
  unfold VMState.withTop VMState.withStack
  rw [Thread.setTop_eq _ below f f1 h]

theorem Outcome.returned_inj (a b : VMState) (h : Outcome.returned a = Outcome.returned b) :
    a = b := by
  injection h

/-! ## The dispatchers after argument extraction -/

/-- Pushing `callee` above `caller`, as the last step of a dispatcher. -/
theorem pushFrame_step (s : VMState) (below : List StackFrame) (f caller callee : StackFrame)
    (hstack : s.thread.vmStack = below ++ [f]) :
    (match (s.thread.setTop caller).pushFrame callee with
      | .error e => Outcome.failed e (s.withTop caller)
      | .ok t => Outcome.returned { s with thread := t }) =
      if s.thread.vmStack.length < DEFAULT_VM_STACK_SIZE then
        .returned (s.withStack (below ++ [caller, callee]))
      else
        .failed
          (if s.thread.vmStack.length = DEFAULT_VM_STACK_SIZE then .stackOverflow
            else .sliceBounds)
          (s.withStack (below ++ [caller])) := by
  rw [VMState.withTop_eq s below f caller hstack, Thread.setTop_eq _ below f caller hstack,
    Thread.pushFrame_eq]
  have hl : s.thread.vmStack.length = below.length + 1 := by simp [hstack]
  simp only [List.length_append, List.length_singleton, hl]
  by_cases hd : below.length + 1 < DEFAULT_VM_STACK_SIZE
  · simp [hd, VMState.withStack]
  · by_cases he : below.length + 1 = DEFAULT_VM_STACK_SIZE
    · simp [hd, he]
    · simp [hd, he]

theorem invokeStaticMethod_eq (env : Env) (index : Nat) (s : VMState)
    (below : List StackFrame) (f : StackFrame) (c : Class) (method : Method)
    (stack args : List j_any)
    (hstack : s.thread.vmStack = below ++ [f])
    (hwf : f.operandStack.wf)
    (hops : f.operandStack.toList = stack ++ args)
    (hclass : env.classes[f.method.classRef]? = some c)
    (hpool : c.constantPool[index]? = some (.methodref method))
    (hcount : method.methodType.parameterTypes.length = args.length) :
    invokeStaticMethod env index s =
      if method.isNative then
        bridgeAndPush env s (f.afterPops args.length) method args
      else if args.length ≤ method.maxLocals then
        if s.thread.vmStack.length < DEFAULT_VM_STACK_SIZE then
          .returned (s.withStack (below ++ [f.afterPops args.length, calleeFrame method args]))
        else
          .failed
            (if s.thread.vmStack.length = DEFAULT_VM_STACK_SIZE then .stackOverflow
              else .sliceBounds)
            (s.withStack (below ++ [f.afterPops args.length]))
      else .failed .indexOutOfRange (s.withStack (below ++ [f.afterPops args.length])) := by
  obtain ⟨harr, hlen⟩ := Slice.arr_eq_of_toList _ _ hwf hops
  rw [List.length_append] at hlen
  unfold invokeStaticMethod
  simp only [Thread.peekFrame_eq _ below f hstack, resolveMethod_eq env _ method index c hclass hpool,
    hcount]
  rw [popParams_eq args f stack _ _ harr hlen (by simp)]
  simp only [List.length_replicate, List.drop_replicate, Nat.sub_self, List.replicate_zero,
    List.append_nil]
  rw [← StackFrame.afterPops_eq f stack args _ harr hlen]
  by_cases hn : method.isNative = true
  · simp only [hn, if_true]
  · simp only [hn, if_false]
    rw [storeParamsDown_eq args args.length _ (Nat.le_refl _)]
    simp only [NewStackFrame, List.length_replicate, List.take_length, List.drop_replicate]
    by_cases hl : args.length ≤ method.maxLocals
    · simp only [hl, if_true]
      exact pushFrame_step s below f _ _ hstack
    · simp only [hl, if_false]
      rw [VMState.withTop_eq s below f _ hstack]

theorem invokeVitrualMethod_eq (env : Env) (index : Nat) (s : VMState)
    (below : List StackFrame) (f : StackFrame) (c : Class) (method : Method)
    (stack args : List j_any)
    (hstack : s.thread.vmStack = below ++ [f])
    (hwf : f.operandStack.wf)
    (hops : f.operandStack.toList = stack ++ args)
    (hclass : env.classes[f.method.classRef]? = some c)
    (hpool : c.constantPool[index]? = some (.methodref method))
    (hstatic : method.isStatic = false)
    (hcount : method.methodType.parameterTypes.length + 1 = args.length) :
    invokeVitrualMethod env index s =
      match findOverride env s.heap method args with
      | .error e => .failed e (s.withStack (below ++ [f.afterPops args.length]))
      | .ok overridenMethod =>
        if method.isNative then
          bridgeAndPush env s (f.afterPops args.length) overridenMethod args
        else if args.length ≤ overridenMethod.maxLocals then
          if s.thread.vmStack.length < DEFAULT_VM_STACK_SIZE then
            .returned (s.withStack
              (below ++ [f.afterPops args.length, calleeFrame overridenMethod args]))
          else
            .failed
              (if s.thread.vmStack.length = DEFAULT_VM_STACK_SIZE then .stackOverflow
                else .sliceBounds)
              (s.withStack (below ++ [f.afterPops args.length]))
        else .failed .indexOutOfRange (s.withStack (below ++ [f.afterPops args.length])) := by
  obtain ⟨harr, hlen⟩ := Slice.arr_eq_of_toList _ _ hwf hops
  rw [List.length_append] at hlen
  unfold invokeVitrualMethod
  simp only [Thread.peekFrame_eq _ below f hstack, resolveMethod_eq env _ method index c hclass hpool,
    hcount, hstatic]
  rw [popParams_eq args f stack _ _ harr hlen (by simp)]
  simp only [List.length_replicate, List.drop_replicate, Nat.sub_self, List.replicate_zero,
    List.append_nil, Bool.false_eq_true, if_false]
  rw [← StackFrame.afterPops_eq f stack args _ harr hlen]
  cases findOverride env s.heap method args with
  | error e =>
    simp only
    rw [VMState.withTop_eq s below f _ hstack]
  | ok overridenMethod =>
    simp only
    by_cases hn : method.isNative = true
    · simp only [hn, if_true]
    · simp only [hn, if_false]
      rw [storeParamsUp_eq args args.length 0 _ (by omega) (Nat.zero_le _)]
      simp only [NewStackFrame, List.length_replicate, List.take_length, List.drop_replicate,
        Nat.zero_add, List.take_zero, List.drop_zero, List.nil_append]
      by_cases hl : args.length ≤ overridenMethod.maxLocals
      · simp only [hl, if_true]
        exact pushFrame_step s below f _ _ hstack
      · simp only [hl, if_false]
        rw [VMState.withTop_eq s below f _ hstack]

theorem invokeSpecialMethod_eq (env : Env) (index : Nat) (s : VMState)
    (below : List StackFrame) (f : StackFrame) (c : Class) (method : Method)
    (stack args : List j_any)
    (hstack : s.thread.vmStack = below ++ [f])
    (hwf : f.operandStack.wf)
    (hops : f.operandStack.toList = stack ++ args)
    (hclass : env.classes[f.method.classRef]? = some c)
    (hpool : c.constantPool[index]? = some (.methodref method))
    (hcount : method.methodType.parameterTypes.length + 1 = args.length) :
    invokeSpecialMethod env index s =
      if method.isNative then
        bridgeAndPush env s (f.afterPops args.length) method args
      else if args.length ≤ method.maxLocals then
        if s.thread.vmStack.length < DEFAULT_VM_STACK_SIZE then
          .returned (s.withStack (below ++ [f.afterPops args.length, calleeFrame method args]))
        else
          .failed
            (if s.thread.vmStack.length = DEFAULT_VM_STACK_SIZE then .stackOverflow
              else .sliceBounds)
            (s.withStack (below ++ [f.afterPops args.length]))
      else .failed .indexOutOfRange (s.withStack (below ++ [f.afterPops args.length])) := by
  obtain ⟨harr, hlen⟩ := Slice.arr_eq_of_toList _ _ hwf hops
  rw [List.length_append] at hlen
  unfold invokeSpecialMethod
  simp only [Thread.peekFrame_eq _ below f hstack, resolveMethod_eq env _ method index c hclass hpool,
    hcount]
  rw [popParams_eq args f stack _ _ harr hlen (by simp)]
  simp only [List.length_replicate, List.drop_replicate, Nat.sub_self, List.replicate_zero,
    List.append_nil]
  rw [← StackFrame.afterPops_eq f stack args _ harr hlen]
  by_cases hn : method.isNative = true
  · simp only [hn, if_true]
  · simp only [hn, if_false]
    rw [storeParamsUp_eq args args.length 0 _ (by omega) (Nat.zero_le _)]
    simp only [NewStackFrame, List.length_replicate, List.take_length, List.drop_replicate,
      Nat.zero_add, List.take_zero, List.drop_zero, List.nil_append]
    by_cases hl : args.length ≤ method.maxLocals
    · simp only [hl, if_true]
      exact pushFrame_step s below f _ _ hstack
    · simp only [hl, if_false]
      rw [VMState.withTop_eq s below f _ hstack]

theorem findOverride_eq (env : Env) (heap : Heap) (method overridenMethod : Method)
    (addr : Nat) (args : List j_any) (objectref : j_object) (rc : Class)
    (hobj : heap[addr]? = some objectref)
    (hrc : env.classes[objectref.classRef]? = some rc)
    (hfind : rc.findMethod (method.name ++ method.descriptor) = some overridenMethod) :
    findOverride env heap method (j_any.ref addr :: args) = .ok overridenMethod := by
  unfold findOverride
  simp [hobj, hrc, hfind]

/-! ## Static dispatch -/

/-- C1. Static dispatch passes the arguments in push order: when the thread has
fewer than 512 frames, the caller's operand stack is `stack ++ args`, the
constant-pool entry `index` resolves to a non-native method declaring
`args.length` parameters and having at least that many local slots,
`invokeStaticMethod` returns; the call stack is then the old one with the caller
replaced by the caller without its `args.length` topmost operands, followed by
a new frame of the method; the caller's operand stack is `stack`, and local
slot `j` of the new frame holds `args[j]` for every `j < args.length`. -/
theorem invokeStaticMethod_passes_arguments (env : Env) (index : Nat) (s : VMState)
    (below : List StackFrame) (f : StackFrame) (c : Class) (method : Method)
    (stack args : List j_any)
    (hstack : s.thread.vmStack = below ++ [f])
    (hdepth : s.thread.vmStack.length < DEFAULT_VM_STACK_SIZE)
    (hwf : f.operandStack.wf)
    (hops : f.operandStack.toList = stack ++ args)
    (hclass : env.classes[f.method.classRef]? = some c)
    (hpool : c.constantPool[index]? = some (.methodref method))
    (hnative : method.isNative = false)
    (hcount : method.methodType.parameterTypes.length = args.length)
    (hlocals : args.length ≤ method.maxLocals) :
    invokeStaticMethod env index s =
        .returned (s.withStack (below ++ [f.afterPops args.length, calleeFrame method args])) ∧
      (f.afterPops args.length).operandStack.toList = stack ∧
      (f.afterPops args.length).operandStack.len + args.length = f.operandStack.len ∧
      (calleeFrame method args).method = method ∧
      ∀ j a, args[j]? = some a → (calleeFrame method args).loadVar j = .ok a := by
  refine ⟨?_, StackFrame.afterPops_toList f stack args hwf hops, ?_, rfl,
    fun j a h => calleeFrame_loadVar method args j a h⟩
  · rw [invokeStaticMethod_eq env index s below f c method stack args hstack hwf hops hclass
      hpool hcount]
    simp only [hnative, Bool.false_eq_true, if_false, hlocals, if_true, hdepth]
  · obtain ⟨h1, h2⟩ := StackFrame.afterPops_len f stack args hwf hops
    omega

/-- C1 at a concrete call: `main` calls `add(8, 9)` with operands 7, 8, 9. -/
theorem invokeStaticMethod_passes_arguments_witness :
    invokeStaticMethod Demo.env 0 Demo.state =
        .returned (Demo.state.withStack
          ([] ++ [Demo.mainFrame.afterPops [j_any.prim 8, j_any.prim 9].length,
            calleeFrame Demo.addMethod [j_any.prim 8, j_any.prim 9]])) ∧
      (Demo.mainFrame.afterPops 2).operandStack.toList = [j_any.prim 7] ∧
      (calleeFrame Demo.addMethod [j_any.prim 8, j_any.prim 9]).loadVar 1 = .ok (j_any.prim 9) :=
  have h := invokeStaticMethod_passes_arguments Demo.env 0 Demo.state [] Demo.mainFrame
    Demo.classA Demo.addMethod [j_any.prim 7] [j_any.prim 8, j_any.prim 9]
    rfl (by decide) (by decide) rfl rfl rfl rfl rfl (by decide)
  ⟨h.1, h.2.1, h.2.2.2.2 1 (j_any.prim 9) rfl⟩

/-! ## Virtual and special dispatch -/

/-- C2. Virtual dispatch selects the override.  The statically resolved method
is an instance method, not native, declaring `args.length` parameters; the
caller's operand stack is `stack ++ [receiver] ++ args`; the receiver is the
object at `addr`, and looking up name+descriptor of the static method on the
receiver's runtime class gives `overridenMethod`.  Then a call that returns has
produced exactly this state: the caller without its `args.length + 1` topmost
operands, and on top of it a new frame whose method is `overridenMethod`; and
the call does return when the thread has fewer than 512 frames and the
override has at least `args.length + 1` local slots.  The caller's operand
stack is then `stack`, the new frame has the override's `maxLocals` locals and
an empty operand stack of capacity `maxStack`, local slot 0 holds the receiver
and slot `j + 1` holds `args[j]`. -/
theorem invokeVitrualMethod_selects_override (env : Env) (index : Nat) (s : VMState)
    (below : List StackFrame) (f : StackFrame) (c rc : Class)
    (method overridenMethod : Method) (addr : Nat) (objectref : j_object)
    (stack args : List j_any)
    (hstack : s.thread.vmStack = below ++ [f])
    (hwf : f.operandStack.wf)
    (hops : f.operandStack.toList = stack ++ j_any.ref addr :: args)
    (hclass : env.classes[f.method.classRef]? = some c)
    (hpool : c.constantPool[index]? = some (.methodref method))
    (hstatic : method.isStatic = false)
    (hnative : method.isNative = false)
    (hcount : method.methodType.parameterTypes.length = args.length)
    (hobj : s.heap[addr]? = some objectref)
    (hrc : env.classes[objectref.classRef]? = some rc)
    (hfind : rc.findMethod (method.name ++ method.descriptor) = some overridenMethod) :
    (∀ s1, invokeVitrualMethod env index s = .returned s1 →
        s1 = s.withStack (below ++ [f.afterPops (args.length + 1),
          calleeFrame overridenMethod (j_any.ref addr :: args)])) ∧
      (s.thread.vmStack.length < DEFAULT_VM_STACK_SIZE →
        args.length + 1 ≤ overridenMethod.maxLocals →
        invokeVitrualMethod env index s =
            .returned (s.withStack (below ++ [f.afterPops (args.length + 1),
              calleeFrame overridenMethod (j_any.ref addr :: args)])) ∧
          (calleeFrame overridenMethod (j_any.ref addr :: args)).localVariables.length =
            overridenMethod.maxLocals) ∧
      (f.afterPops (args.length + 1)).operandStack.toList = stack ∧
      (calleeFrame overridenMethod (j_any.ref addr :: args)).method = overridenMethod ∧
      (calleeFrame overridenMethod (j_any.ref addr :: args)).operandStack.toList = [] ∧
      (calleeFrame overridenMethod (j_any.ref addr :: args)).operandStack.cap =
        overridenMethod.maxStack ∧
      (calleeFrame overridenMethod (j_any.ref addr :: args)).loadVar 0 = .ok (j_any.ref addr) ∧
      ∀ j a, args[j]? = some a →
        (calleeFrame overridenMethod (j_any.ref addr :: args)).loadVar (j + 1) = .ok a := by
  have hcount1 : method.methodType.parameterTypes.length + 1 =
      (j_any.ref addr :: args).length := by simp [hcount]
  have heq := invokeVitrualMethod_eq env index s below f c method stack
    (j_any.ref addr :: args) hstack hwf hops hclass hpool hstatic hcount1
  simp only [findOverride_eq env s.heap method overridenMethod addr args objectref rc hobj hrc
    hfind, hnative, Bool.false_eq_true, if_false, List.length_cons] at heq
  refine ⟨?_, ?_, ?_, rfl, ?_, ?_, ?_, ?_⟩
  · intro s1 hs1
    rw [heq] at hs1
    by_cases hl : args.length + 1 ≤ overridenMethod.maxLocals
    · by_cases hd : s.thread.vmStack.length < DEFAULT_VM_STACK_SIZE
      · simp only [hl, if_true, hd] at hs1
        exact (Outcome.returned_inj _ _ hs1).symm
      · simp only [hl, if_true, hd, if_false] at hs1
        exact Outcome.noConfusion hs1
    · simp only [hl, if_false] at hs1
      exact Outcome.noConfusion hs1
  · intro hd hl
    refine ⟨?_, calleeFrame_length _ _ (by simpa using hl)⟩
    rw [heq]
    simp only [hl, if_true, hd]
  · simpa using StackFrame.afterPops_toList f stack (j_any.ref addr :: args) hwf hops
  · simp [calleeFrame, NewStackFrame, Slice.toList]
  · simp [calleeFrame, NewStackFrame, Slice.cap]
  · exact calleeFrame_loadVar _ _ 0 _ (by simp)
  · intro j a h
    exact calleeFrame_loadVar _ _ (j + 1) _ (by simpa using h)

/-- C2 at a concrete call: `foo(9)` is invoked through a reference to `A.foo` on an
instance of `B`; the frame pushed is a frame of `B.foo`, which is not `A.foo`. -/
theorem invokeVitrualMethod_selects_override_witness :
    invokeVitrualMethod Demo.env 1 Demo.callState =
        .returned (Demo.callState.withStack
          ([] ++ [Demo.callFrame.afterPops ([j_any.prim 9].length + 1),
            calleeFrame Demo.fooB (j_any.ref 0 :: [j_any.prim 9])])) ∧
      (calleeFrame Demo.fooB (j_any.ref 0 :: [j_any.prim 9])).method = Demo.fooB ∧
      Demo.fooB ≠ Demo.fooA :=
  have h := invokeVitrualMethod_selects_override Demo.env 1 Demo.callState [] Demo.callFrame
    Demo.classA Demo.classB Demo.fooA Demo.fooB 0 { classRef := 1, fields := [] }
    [j_any.prim 7] [j_any.prim 9]
    rfl (by decide) rfl rfl rfl rfl rfl rfl rfl rfl rfl
  ⟨(h.2.1 (by decide) (by decide)).1, h.2.2.2.1, by decide⟩

/-- C3. Special dispatch bypasses override resolution.  The statically resolved
method is not native and declares `args.length` parameters; the caller's operand
stack is `stack ++ [receiver] ++ args`, the receiver being any value.  Then a
call that returns has produced exactly this state: the caller without its
`args.length + 1` topmost operands, and on top of it a new frame whose method
is the statically resolved method, with the receiver in local slot 0 and
`args[j]` in slot `j + 1`; the call does return when the thread has fewer than
512 frames and the method has at least `args.length + 1` local slots.  The
resulting thread is the same for every heap and every class table in which the
caller's class resolves `index` to that method, whatever the receiver's runtime
class and its method table are. -/
theorem invokeSpecialMethod_bypasses_override (env : Env) (index : Nat) (s : VMState)
    (below : List StackFrame) (f : StackFrame) (c : Class) (method : Method)
    (receiver : j_any) (stack args : List j_any)
    (hstack : s.thread.vmStack = below ++ [f])
    (hwf : f.operandStack.wf)
    (hops : f.operandStack.toList = stack ++ receiver :: args)
    (hclass : env.classes[f.method.classRef]? = some c)
    (hpool : c.constantPool[index]? = some (.methodref method))
    (hnative : method.isNative = false)
    (hcount : method.methodType.parameterTypes.length = args.length) :
    (∀ s1, invokeSpecialMethod env index s = .returned s1 →
        s1 = s.withStack (below ++ [f.afterPops (args.length + 1),
          calleeFrame method (receiver :: args)])) ∧
      (s.thread.vmStack.length < DEFAULT_VM_STACK_SIZE →
        args.length + 1 ≤ method.maxLocals →
        invokeSpecialMethod env index s =
          .returned (s.withStack (below ++ [f.afterPops (args.length + 1),
            calleeFrame method (receiver :: args)]))) ∧
      (f.afterPops (args.length + 1)).operandStack.toList = stack ∧
      (calleeFrame method (receiver :: args)).method = method ∧
      (calleeFrame method (receiver :: args)).loadVar 0 = .ok receiver ∧
      (∀ j a, args[j]? = some a →
        (calleeFrame method (receiver :: args)).loadVar (j + 1) = .ok a) ∧
      ∀ (env1 : Env) (heap1 : Heap) (c1 : Class),
        env1.classes[f.method.classRef]? = some c1 →
        c1.constantPool[index]? = some (.methodref method) →
        (invokeSpecialMethod env1 index { s with heap := heap1 }).state.thread =
          (invokeSpecialMethod env index s).state.thread := by
  have hcount1 : method.methodType.parameterTypes.length + 1 =
      (receiver :: args).length := by simp [hcount]
  have heq := invokeSpecialMethod_eq env index s below f c method stack
    (receiver :: args) hstack hwf hops hclass hpool hcount1
  simp only [hnative, Bool.false_eq_true, if_false, List.length_cons] at heq
  refine ⟨?_, ?_, ?_, rfl, ?_, ?_, ?_⟩
  · intro s1 hs1
    rw [heq] at hs1
    by_cases hl : args.length + 1 ≤ method.maxLocals
    · by_cases hd : s.thread.vmStack.length < DEFAULT_VM_STACK_SIZE
      · simp only [hl, if_true, hd] at hs1
        exact (Outcome.returned_inj _ _ hs1).symm
      · simp only [hl, if_true, hd, if_false] at hs1
        exact Outcome.noConfusion hs1
    · simp only [hl, if_false] at hs1
      exact Outcome.noConfusion hs1
  · intro hd hl
    rw [heq]
    simp only [hl, if_true, hd]
  · simpa using StackFrame.afterPops_toList f stack (receiver :: args) hwf hops
  · exact calleeFrame_loadVar _ _ 0 _ (by simp)
  · intro j a h
    exact calleeFrame_loadVar _ _ (j + 1) _ (by simpa using h)
  · intro env1 heap1 c1 hclass1 hpool1
    have heq1 := invokeSpecialMethod_eq env1 index { s with heap := heap1 } below f c1 method
      stack (receiver :: args) hstack hwf hops hclass1 hpool1 hcount1
    simp only [hnative, Bool.false_eq_true, if_false, List.length_cons] at heq1
    rw [heq, heq1]
    by_cases hl : args.length + 1 ≤ method.maxLocals
    · by_cases hd : s.thread.vmStack.length < DEFAULT_VM_STACK_SIZE
      · simp only [hl, if_true, hd]
        rfl
      · simp only [hl, if_true, hd, if_false]
        rfl
    · simp only [hl, if_false]
      rfl

/-- C3 at a concrete call: `foo(9)` is invoked by special dispatch through a
reference to `A.foo` on an instance of `B`; the frame pushed is a frame of
`A.foo`, not of the override `B.foo`. -/
theorem invokeSpecialMethod_bypasses_override_witness :
    invokeSpecialMethod Demo.env 1 Demo.callState =
        .returned (Demo.callState.withStack
          ([] ++ [Demo.callFrame.afterPops ([j_any.prim 9].length + 1),
            calleeFrame Demo.fooA (j_any.ref 0 :: [j_any.prim 9])])) ∧
      (calleeFrame Demo.fooA (j_any.ref 0 :: [j_any.prim 9])).method = Demo.fooA ∧
      Demo.fooA ≠ Demo.fooB :=
  have h := invokeSpecialMethod_bypasses_override Demo.env 1 Demo.callState [] Demo.callFrame
    Demo.classA Demo.fooA (j_any.ref 0) [j_any.prim 7] [j_any.prim 9]
    rfl (by decide) rfl rfl rfl rfl rfl
  ⟨h.2.1 (by decide) (by decide), h.2.2.2.1, by decide⟩

/-- C4. In virtual dispatch the test for a native target is made on the
statically resolved method, not on the override.  Calling `hash()` through a
reference to the interpreted `A.hash` on an instance of `B`, whose override
`B.hash` is native, pushes a frame for the native method and makes no bridge
call; calling `id()` through a reference to the native `A.id` on the same
instance, whose override `B.id` is interpreted, ends with "Not a native method"
and pushes no frame. -/
theorem invokeVitrualMethod_tests_static_method_for_native :
    Demo.hashA.isNative = false ∧ Demo.hashB.isNative = true ∧
      Demo.findMethodB (Demo.hashA.name ++ Demo.hashA.descriptor) = some Demo.hashB ∧
      invokeVitrualMethod Demo.env 2 Demo.receiverState =
        .returned (Demo.receiverState.withStack
          [Demo.receiverFrame.afterPops 1, calleeFrame Demo.hashB [j_any.ref 0]]) ∧
      (invokeVitrualMethod Demo.env 2 Demo.receiverState).state.nativeCalls = [] ∧
      Demo.idA.isNative = true ∧ Demo.idB.isNative = false ∧
      Demo.findMethodB (Demo.idA.name ++ Demo.idA.descriptor) = some Demo.idB ∧
      invokeVitrualMethod Demo.env 3 Demo.receiverState =
        .failed .notNativeMethod
          (Demo.receiverState.withStack [Demo.receiverFrame.afterPops 1]) := by
  refine ⟨rfl, rfl, rfl, ?_, ?_, rfl, rfl, rfl, ?_⟩ <;> decide

/-! ## The native bridge seen from the dispatchers -/

theorem invokeNativeMethod_thread (env : Env) (s : VMState) (method : Method)
    (params : List j_any) : (invokeNativeMethod env s method params).2.thread = s.thread := by
  unfold invokeNativeMethod
  split
  · rfl
  · split
    · rfl
    · simp only
      split
      · rfl
      · split
        · rfl
        · split
          · rfl
          · split
            · rfl
            · rfl
            · split <;> rfl

theorem StackFrame.push_ok (f : StackFrame) (v : j_any)
    (h : f.operandStack.len < f.operandStack.arr.length) :
    f.push v = .ok { f with operandStack :=
      { arr := f.operandStack.arr.set f.operandStack.len v, len := f.operandStack.len + 1 } } := by
  unfold StackFrame.push
  have h1 : f.operandStack.len + 1 ≤ f.operandStack.arr.length := h
  simp only [h1, if_true]

theorem StackFrame.push_full (f : StackFrame) (v : j_any)
    (h : ¬ f.operandStack.len < f.operandStack.arr.length) :
    f.push v = .error .sliceBounds := by
  unfold StackFrame.push
  have h1 : ¬ (f.operandStack.len + 1 ≤ f.operandStack.arr.length) := h
  simp only [h1, if_false]

theorem Slice.toList_push (os : Slice) (v : j_any) (h : os.len < os.arr.length) :
    (Slice.mk (os.arr.set os.len v) (os.len + 1)).toList = os.toList ++ [v] := by
  unfold Slice.toList
  exact take_set_succ os.arr v os.len h

theorem VMState.withStack_self (s : VMState) (frames : List StackFrame)
    (h : s.thread.vmStack = frames) : s.withStack frames = s := by
  unfold VMState.withStack
  subst h
  rfl

theorem bridgeAndPush_returned (env : Env) (s : VMState) (below : List StackFrame)
    (f caller : StackFrame) (target : Method) (args : List j_any) (result : j_any)
    (s1 s2 : VMState)
    (hstack : s.thread.vmStack = below ++ [f])
    (hbridge : invokeNativeMethod env (s.withStack (below ++ [caller])) target args =
      (.ok result, s1))
    (hret : bridgeAndPush env s caller target args = .returned s2) :
    ∃ caller1, s2 = s1.withStack (below ++ [caller1]) ∧
      caller1.method = caller.method ∧ caller1.pc = caller.pc ∧
      caller1.localVariables = caller.localVariables ∧
      caller1.operandStack.toList =
        (if target.methodType.returnType = .VOID_TYPE then caller.operandStack.toList
          else caller.operandStack.toList ++ [result]) ∧
      caller1.operandStack.len =
        caller.operandStack.len +
          (if target.methodType.returnType = .VOID_TYPE then 0 else 1) := by
  have hthread := invokeNativeMethod_thread env (s.withStack (below ++ [caller])) target args
  rw [hbridge] at hthread
  have hs1 : s1.thread.vmStack = below ++ [caller] := by
    rw [hthread]
    rfl
  unfold bridgeAndPush at hret
  rw [VMState.withTop_eq s below f caller hstack, hbridge] at hret
  simp only at hret
  by_cases hv : target.methodType.returnType = .VOID_TYPE
  · simp only [hv, ne_eq, not_true_eq_false, if_false] at hret
    refine ⟨caller, ?_, rfl, rfl, rfl, by simp [hv], by simp [hv]⟩
    rw [VMState.withStack_self s1 _ hs1]
    exact (Outcome.returned_inj _ _ hret).symm
  · simp only [hv, ne_eq, not_false_eq_true, if_true] at hret
    by_cases hroom : caller.operandStack.len < caller.operandStack.arr.length
    · rw [StackFrame.push_ok caller result hroom] at hret
      simp only at hret
      rw [VMState.withTop_eq s1 below caller _ hs1] at hret
      refine ⟨_, (Outcome.returned_inj _ _ hret).symm, rfl, rfl, rfl, ?_, by simp [hv]⟩
      simp only [hv, if_false]
      exact Slice.toList_push caller.operandStack result hroom
    · rw [StackFrame.push_full caller result hroom] at hret
      exact Outcome.noConfusion hret

theorem bridgeAndPush_total (env : Env) (s : VMState) (below : List StackFrame)
    (f caller : StackFrame) (target : Method) (args : List j_any) (result : j_any)
    (s1 : VMState)
    (hstack : s.thread.vmStack = below ++ [f])
    (hbridge : invokeNativeMethod env (s.withStack (below ++ [caller])) target args =
      (.ok result, s1))
    (hroom : target.methodType.returnType = .VOID_TYPE ∨
      caller.operandStack.len < caller.operandStack.arr.length) :
    ∃ s2, bridgeAndPush env s caller target args = .returned s2 := by
  unfold bridgeAndPush
  rw [VMState.withTop_eq s below f caller hstack, hbridge]
  simp only
  by_cases hv : target.methodType.returnType = .VOID_TYPE
  · simp only [hv, ne_eq, not_true_eq_false, if_false]
    exact ⟨_, rfl⟩
  · simp only [hv, ne_eq, not_false_eq_true, if_true]
    have hlt : caller.operandStack.len < caller.operandStack.arr.length := by
      cases hroom with
      | inl h => exact absurd h hv
      | inr h => exact h
    rw [StackFrame.push_ok caller result hlt]
    exact ⟨_, rfl⟩

theorem StackFrame.afterPops_room (f : StackFrame) (stack args : List j_any)
    (hwf : f.operandStack.wf) (hops : f.operandStack.toList = stack ++ args) :
    (f.afterPops args.length).operandStack.arr.length = f.operandStack.arr.length ∧
      (f.afterPops args.length).operandStack.len = stack.length ∧
      stack.length + args.length ≤ f.operandStack.arr.length := by
  obtain ⟨harr, hlen⟩ := Slice.arr_eq_of_toList _ _ hwf hops
  rw [List.length_append] at hlen
  have hw : f.operandStack.len ≤ f.operandStack.arr.length := hwf
  rw [StackFrame.afterPops_eq f stack args _ harr hlen]
  refine ⟨?_, rfl, by omega⟩
  simp only [List.length_append, List.length_replicate, List.length_drop]
  omega

theorem nativeCallEffect_of_bridge (f caller1 : StackFrame) (stack args : List j_any)
    (returnType : JavaType) (result : j_any)
    (hwf : f.operandStack.wf) (hops : f.operandStack.toList = stack ++ args)
    (h1 : caller1.method = (f.afterPops args.length).method)
    (h2 : caller1.pc = (f.afterPops args.length).pc)
    (h3 : caller1.localVariables = (f.afterPops args.length).localVariables)
    (h4 : caller1.operandStack.toList =
      (if returnType = .VOID_TYPE then (f.afterPops args.length).operandStack.toList
        else (f.afterPops args.length).operandStack.toList ++ [result]))
    (h5 : caller1.operandStack.len =
      (f.afterPops args.length).operandStack.len +
        (if returnType = .VOID_TYPE then 0 else 1)) :
    NativeCallEffect f caller1 stack args returnType result := by
  obtain ⟨hl1, hl2⟩ := StackFrame.afterPops_len f stack args hwf hops
  rw [StackFrame.afterPops_toList f stack args hwf hops] at h4
  refine ⟨h1, h2, h3, h4, ?_⟩
  rw [h5, hl1, hl2]
  omega

/-- C5. Stack-depth effect of a native call, for the three dispatchers.  The
target is native and the bridge call succeeds with `result`, leaving state `s1`.
Static dispatch, `args.length` operands popped: a call that returns leaves the
call stack as it was except for the caller, which differs from the old caller
only in its operand stack: `stack` if the return type is void (depth minus
`args.length`), `stack ++ [result]` otherwise (depth minus `args.length` plus
one); and the call returns whenever the return type is void, or there is an
argument, or the operand stack was not full.  Virtual and special dispatch,
receiver and arguments popped (`args` holds both): the call returns, with the
same effect. -/
theorem native_call_stack_depth_effect :
    (∀ (env : Env) (index : Nat) (s s1 s2 : VMState) (below : List StackFrame)
        (f : StackFrame) (c : Class) (method : Method) (stack args : List j_any)
        (result : j_any),
        s.thread.vmStack = below ++ [f] → f.operandStack.wf →
        f.operandStack.toList = stack ++ args →
        env.classes[f.method.classRef]? = some c →
        c.constantPool[index]? = some (.methodref method) →
        method.isNative = true →
        method.methodType.parameterTypes.length = args.length →
        invokeNativeMethod env (s.withStack (below ++ [f.afterPops args.length])) method args =
          (.ok result, s1) →
        invokeStaticMethod env index s = .returned s2 →
        ∃ caller1, s2 = s1.withStack (below ++ [caller1]) ∧
          NativeCallEffect f caller1 stack args method.methodType.returnType result) ∧
    (∀ (env : Env) (index : Nat) (s s1 : VMState) (below : List StackFrame)
        (f : StackFrame) (c : Class) (method : Method) (stack args : List j_any)
        (result : j_any),
        s.thread.vmStack = below ++ [f] → f.operandStack.wf →
        f.operandStack.toList = stack ++ args →
        env.classes[f.method.classRef]? = some c →
        c.constantPool[index]? = some (.methodref method) →
        method.isNative = true →
        method.methodType.parameterTypes.length = args.length →
        invokeNativeMethod env (s.withStack (below ++ [f.afterPops args.length])) method args =
          (.ok result, s1) →
        (method.methodType.returnType = .VOID_TYPE ∨ args ≠ [] ∨
          stack.length < f.operandStack.cap) →
        ∃ s2, invokeStaticMethod env index s = .returned s2) ∧
    (∀ (env : Env) (index : Nat) (s s1 : VMState) (below : List StackFrame)
        (f : StackFrame) (c : Class) (method overridenMethod : Method)
        (stack args : List j_any) (result : j_any),
        s.thread.vmStack = below ++ [f] → f.operandStack.wf →
        f.operandStack.toList = stack ++ args →
        env.classes[f.method.classRef]? = some c →
        c.constantPool[index]? = some (.methodref method) →
        method.isStatic = false →
        method.isNative = true →
        method.methodType.parameterTypes.length + 1 = args.length →
        findOverride env s.heap method args = .ok overridenMethod →
        invokeNativeMethod env (s.withStack (below ++ [f.afterPops args.length]))
          overridenMethod args = (.ok result, s1) →
        ∃ caller1, invokeVitrualMethod env index s =
            .returned (s1.withStack (below ++ [caller1])) ∧
          NativeCallEffect f caller1 stack args overridenMethod.methodType.returnType
            result) ∧
    (∀ (env : Env) (index : Nat) (s s1 : VMState) (below : List StackFrame)
        (f : StackFrame) (c : Class) (method : Method) (stack args : List j_any)
        (result : j_any),
        s.thread.vmStack = below ++ [f] → f.operandStack.wf →
        f.operandStack.toList = stack ++ args →
        env.classes[f.method.classRef]? = some c →
        c.constantPool[index]? = some (.methodref method) →
        method.isNative = true →
        method.methodType.parameterTypes.length + 1 = args.length →
        invokeNativeMethod env (s.withStack (below ++ [f.afterPops args.length])) method args =
          (.ok result, s1) →
        ∃ caller1, invokeSpecialMethod env index s =
            .returned (s1.withStack (below ++ [caller1])) ∧
          NativeCallEffect f caller1 stack args method.methodType.returnType result) := by
  refine ⟨?_, ?_, ?_, ?_⟩
  · intro env index s s1 s2 below f c method stack args result hstack hwf hops hclass hpool
      hnative hcount hbridge hret
    rw [invokeStaticMethod_eq env index s below f c method stack args hstack hwf hops hclass
      hpool hcount] at hret
    simp only [hnative, if_true] at hret
    obtain ⟨caller1, hs2, h1, h2, h3, h4, h5⟩ :=
      bridgeAndPush_returned env s below f _ method args result s1 s2 hstack hbridge hret
    exact ⟨caller1, hs2, nativeCallEffect_of_bridge f caller1 stack args _ result hwf hops
      h1 h2 h3 h4 h5⟩
  · intro env index s s1 below f c method stack args result hstack hwf hops hclass hpool
      hnative hcount hbridge hroom
    rw [invokeStaticMethod_eq env index s below f c method stack args hstack hwf hops hclass
      hpool hcount]
    simp only [hnative, if_true]
    obtain ⟨ha, hb, hc⟩ := StackFrame.afterPops_room f stack args hwf hops
    refine bridgeAndPush_total env s below f _ method args result s1 hstack hbridge ?_
    rcases hroom with h | h | h
    · exact Or.inl h
    · right
      have : 0 < args.length := List.length_pos.mpr h
      rw [ha, hb]
      omega
    · right
      rw [ha, hb]
      exact h
  · intro env index s s1 below f c method overridenMethod stack args result hstack hwf hops
      hclass hpool hstatic hnative hcount hfind hbridge
    have heq := invokeVitrualMethod_eq env index s below f c method stack args hstack hwf hops
      hclass hpool hstatic hcount
    simp only [hfind, hnative, if_true] at heq
    obtain ⟨ha, hb, hc⟩ := StackFrame.afterPops_room f stack args hwf hops
    obtain ⟨s2, hs2⟩ := bridgeAndPush_total env s below f _ overridenMethod args result s1
      hstack hbridge (Or.inr (by rw [ha, hb]; omega))
    obtain ⟨caller1, hs2eq, h1, h2, h3, h4, h5⟩ :=
      bridgeAndPush_returned env s below f _ overridenMethod args result s1 s2 hstack hbridge hs2
    refine ⟨caller1, ?_, nativeCallEffect_of_bridge f caller1 stack args _ result hwf hops
      h1 h2 h3 h4 h5⟩
    rw [heq, hs2, hs2eq]
  · intro env index s s1 below f c method stack args result hstack hwf hops hclass hpool
      hnative hcount hbridge
    have heq := invokeSpecialMethod_eq env index s below f c method stack args hstack hwf hops
      hclass hpool hcount
    simp only [hnative, if_true] at heq
    obtain ⟨ha, hb, hc⟩ := StackFrame.afterPops_room f stack args hwf hops
    obtain ⟨s2, hs2⟩ := bridgeAndPush_total env s below f _ method args result s1
      hstack hbridge (Or.inr (by rw [ha, hb]; omega))
    obtain ⟨caller1, hs2eq, h1, h2, h3, h4, h5⟩ :=
      bridgeAndPush_returned env s below f _ method args result s1 s2 hstack hbridge hs2
    refine ⟨caller1, ?_, nativeCallEffect_of_bridge f caller1 stack args _ result hwf hops
      h1 h2 h3 h4 h5⟩
    rw [heq, hs2, hs2eq]

/-- C5 at concrete calls: the static void native `log(9)` called with operands
7, 8, 9, and the native `size()` called by virtual dispatch on the instance of
`B`, whose result is 3. -/
theorem native_call_stack_depth_effect_witness :
    (∃ caller1, Demo.loggedState = Demo.loggedState.withStack ([] ++ [caller1]) ∧
        NativeCallEffect Demo.mainFrame caller1 [j_any.prim 7, j_any.prim 8] [j_any.prim 9]
          Demo.logMethod.methodType.returnType j_any.null) ∧
      (∃ caller1, invokeVitrualMethod Demo.env 6 Demo.receiverState =
          .returned (Demo.sizedState.withStack ([] ++ [caller1])) ∧
        NativeCallEffect Demo.receiverFrame caller1 [] [j_any.ref 0]
          Demo.sizeMethod.methodType.returnType (j_any.prim 3)) :=
  ⟨native_call_stack_depth_effect.1 Demo.env 4 Demo.state Demo.loggedState Demo.loggedState []
      Demo.mainFrame Demo.classA Demo.logMethod [j_any.prim 7, j_any.prim 8] [j_any.prim 9]
      j_any.null rfl (by decide) rfl rfl rfl rfl rfl rfl (by decide),
    native_call_stack_depth_effect.2.2.1 Demo.env 6 Demo.receiverState Demo.sizedState []
      Demo.receiverFrame Demo.classA Demo.sizeMethod Demo.sizeMethod [] [j_any.ref 0]
      (j_any.prim 3) rfl (by decide) rfl rfl rfl rfl rfl rfl rfl rfl⟩

/-- The static native `time()`, without arguments and with a result, called on a
full operand stack: the bridge call is made, and the push of its result is a
slice-bounds panic. -/
theorem invokeStaticMethod_native_on_full_stack :
    invokeStaticMethod Demo.env 5 Demo.fullState =
      .failed .sliceBounds
        { Demo.fullState with nativeCalls := [("Java_A_time", [])] } := by
  decide

/-! ## Call-stack management -/

theorem pushFrames_eq (fs : List StackFrame) :
    ∀ t : Thread, t.vmStack.length + fs.length ≤ DEFAULT_VM_STACK_SIZE →
      pushFrames t fs = .ok { t with vmStack := t.vmStack ++ fs } := by
  induction fs with
  | nil => intro t _; simp [pushFrames]
  | cons f fs ih =>
    intro t h
    simp only [List.length_cons] at h
    have hlt : t.vmStack.length < DEFAULT_VM_STACK_SIZE := by omega
    simp only [pushFrames, Thread.pushFrame_eq, hlt, if_true]
    rw [ih _ (by simp only [List.length_append, List.length_singleton]; omega)]
    simp

/-- C6. `pushFrame` fails exactly at capacity.  It ends with "Stack Overflow" if
and only if the call stack holds exactly 512 frames; for a call stack within
its capacity it fails in no other case, and below 512 frames the result is the
old call stack with the frame appended as last element.  Hence, starting from
`newThread`, 512 pushes succeed and the 513th is the first to fail. -/
theorem pushFrame_fails_exactly_at_capacity (t : Thread) (f : StackFrame) :
    DEFAULT_VM_STACK_SIZE = 512 ∧
      (t.pushFrame f = .error .stackOverflow ↔ t.vmStack.length = 512) ∧
      (t.vmStack.length ≤ 512 → ((∃ e, t.pushFrame f = .error e) ↔ t.vmStack.length = 512)) ∧
      (t.vmStack.length < 512 → t.pushFrame f = .ok { t with vmStack := t.vmStack ++ [f] }) ∧
      (∀ (name : String) (fs : List StackFrame), fs.length ≤ 512 →
        pushFrames (newThread name) fs = .ok { newThread name with vmStack := fs }) ∧
      (∀ (name : String) (fs : List StackFrame), fs.length = 512 →
        pushFrames (newThread name) (fs ++ [f]) = .error .stackOverflow) := by
  have hcap : DEFAULT_VM_STACK_SIZE = 512 := rfl
  refine ⟨hcap, ?_, ?_, ?_, ?_, ?_⟩
  · rw [Thread.pushFrame_eq, hcap]
    by_cases h1 : t.vmStack.length < 512
    · simp only [h1, if_true]
      constructor
      · intro h; exact Except.noConfusion h
      · intro h; omega
    · by_cases h2 : t.vmStack.length = 512
      · simp [h2]
      · simp [h1, h2]
  · intro hle
    rw [Thread.pushFrame_eq, hcap]
    by_cases h1 : t.vmStack.length < 512
    · simp only [h1, if_true]
      constructor
      · rintro ⟨e, h⟩; exact Except.noConfusion h
      · intro h; omega
    · have h2 : t.vmStack.length = 512 := by omega
      simp [h2]
  · intro h1
    rw [Thread.pushFrame_eq, hcap]
    simp only [h1, if_true]
  · intro name fs hfs
    rw [pushFrames_eq fs (newThread name) (by simp [newThread, hcap]; exact hfs)]
    simp [newThread]
  · intro name fs hfs
    have hsplit : ∀ (gs : List StackFrame) (u : Thread),
        u.vmStack.length + gs.length = 512 →
        pushFrames u (gs ++ [f]) = .error .stackOverflow := by
      intro gs
      induction gs with
      | nil =>
        intro u hu
        simp only [List.length_nil, Nat.add_zero] at hu
        simp [pushFrames, Thread.pushFrame_eq, hcap, hu]
      | cons g gs ih =>
        intro u hu
        simp only [List.length_cons] at hu
        have hlt : u.vmStack.length < 512 := by omega
        simp only [List.cons_append, pushFrames, Thread.pushFrame_eq, hcap, hlt, if_true]
        exact ih _ (by simp only [List.length_append, List.length_singleton]; omega)
    exact hsplit fs (newThread name) (by simp [newThread, hfs])

/-- C6 at concrete threads: a push on the one-frame thread of `Demo.state`
appends the frame, and a push on a thread of 512 frames is a stack overflow. -/
theorem pushFrame_fails_exactly_at_capacity_witness :
    Demo.state.thread.pushFrame Demo.fullFrame =
        .ok { Demo.state.thread with
          vmStack := Demo.state.thread.vmStack ++ [Demo.fullFrame] } ∧
      pushFrames (newThread "t") (List.replicate 512 Demo.mainFrame ++ [Demo.fullFrame]) =
        .error .stackOverflow :=
  ⟨(pushFrame_fails_exactly_at_capacity Demo.state.thread Demo.fullFrame).2.2.2.1 (by decide),
    (pushFrame_fails_exactly_at_capacity Demo.state.thread Demo.fullFrame).2.2.2.2.2 "t"
      (List.replicate 512 Demo.mainFrame) (List.length_replicate _ _)⟩

/-- C7. `popFrame` is a tolerant pop.  It has no failing path: it is a total
function on threads.  On an empty call stack it changes nothing; on a call
stack `below ++ [f]` it leaves exactly `below`; in both cases the thread's other
fields are kept and the call stack is the old one without its last element. -/
theorem popFrame_tolerant (t : Thread) :
    (∃ t1, t.popFrame = t1 ∧ t1.id = t.id ∧ t1.name = t.name ∧
        t1.vmStack = t.vmStack.dropLast) ∧
      (t.vmStack = [] → t.popFrame = t ∧ t.popFrame.vmStack = []) ∧
      (∀ below f, t.vmStack = below ++ [f] →
        t.popFrame = { t with vmStack := below } ∧
          ∀ i, i < below.length → t.popFrame.vmStack[i]? = t.vmStack[i]?) := by
  refine ⟨⟨t.popFrame, rfl, ?_, ?_, ?_⟩, ?_, ?_⟩
  · unfold Thread.popFrame
    simp only
    split <;> rfl
  · unfold Thread.popFrame
    simp only
    split <;> rfl
  · unfold Thread.popFrame
    simp only
    split
    · rename_i h
      rw [List.length_eq_zero] at h
      simp [h]
    · simp [List.dropLast_eq_take]
  · intro h
    unfold Thread.popFrame
    simp [h]
  · intro below f h
    have hp : t.popFrame = { t with vmStack := below } := by
      unfold Thread.popFrame
      simp [h]
    refine ⟨hp, ?_⟩
    intro i hi
    rw [hp, h]
    simp only
    rw [List.getElem?_append_left hi]

/-- C7 at concrete threads: popping the two-frame stack leaves its first frame,
and popping the empty stack of a new thread leaves it empty. -/
theorem popFrame_tolerant_witness :
    (Thread.mk 0 "main" [Demo.mainFrame, Demo.fullFrame]).popFrame =
        { Thread.mk 0 "main" [Demo.mainFrame, Demo.fullFrame] with
          vmStack := [Demo.mainFrame] } ∧
      (newThread "t").popFrame = newThread "t" :=
  ⟨((popFrame_tolerant (Thread.mk 0 "main" [Demo.mainFrame, Demo.fullFrame])).2.2
      [Demo.mainFrame] Demo.fullFrame rfl).1,
    ((popFrame_tolerant (newThread "t")).2.1 rfl).1⟩

/-- C8. Frame push/pop round trip.  For a thread with between 1 and 511 frames
and any frame `f`, `pushFrame(f)` succeeds, and after the following `popFrame()`
the thread, hence its whole call stack, is as before the push, and `peekFrame()`
returns the frame that was on top before the push. -/
theorem pushFrame_popFrame_round_trip (t : Thread) (f : StackFrame)
    (hlow : 1 ≤ t.vmStack.length) (hhigh : t.vmStack.length ≤ 511) :
    ∃ t1 top, t.pushFrame f = .ok t1 ∧ t.peekFrame = .ok top ∧
      t.vmStack.getLast? = some top ∧
      t1.popFrame.peekFrame = .ok top ∧
      t1.popFrame.vmStack = t.vmStack ∧ t1.popFrame = t := by
  have hcap : DEFAULT_VM_STACK_SIZE = 512 := rfl
  have hne : t.vmStack ≠ [] := by
    intro h
    rw [h] at hlow
    simp at hlow
  obtain ⟨below, top, hbt⟩ : ∃ below top, t.vmStack = below ++ [top] :=
    ⟨t.vmStack.dropLast, t.vmStack.getLast hne, (List.dropLast_append_getLast hne).symm⟩
  have hpush : t.pushFrame f = .ok { t with vmStack := t.vmStack ++ [f] } := by
    rw [Thread.pushFrame_eq, hcap]
    have : t.vmStack.length < 512 := by omega
    simp only [this, if_true]
  have hpop : ({ t with vmStack := t.vmStack ++ [f] } : Thread).popFrame = t := by
    unfold Thread.popFrame
    simp
  refine ⟨_, top, hpush, Thread.peekFrame_eq t below top hbt, ?_, ?_, ?_, hpop⟩
  · rw [hbt]
    simp
  · rw [hpop]
    exact Thread.peekFrame_eq t below top hbt
  · rw [hpop]

/-- C8 at a concrete thread: the one-frame thread of `Demo.state`. -/
theorem pushFrame_popFrame_round_trip_witness :
    ∃ t1 top, Demo.state.thread.pushFrame Demo.fullFrame = .ok t1 ∧
      Demo.state.thread.peekFrame = .ok top ∧
      Demo.state.thread.vmStack.getLast? = some top ∧
      t1.popFrame.peekFrame = .ok top ∧
      t1.popFrame.vmStack = Demo.state.thread.vmStack ∧ t1.popFrame = Demo.state.thread :=
  pushFrame_popFrame_round_trip Demo.state.thread Demo.fullFrame (by decide) (by decide)

/-! ## The call-stack depth invariant -/

theorem Thread.setTop_length (t : Thread) (f : StackFrame) :
    (t.setTop f).vmStack.length = t.vmStack.length := by
  unfold Thread.setTop
  simp

theorem bridgeAndPush_length (env : Env) (s s1 : VMState) (f : StackFrame) (target : Method)
    (params : List j_any) (h : bridgeAndPush env s f target params = .returned s1) :
    s1.thread.vmStack.length = s.thread.vmStack.length := by
  have hthread := invokeNativeMethod_thread env (s.withTop f) target params
  unfold bridgeAndPush at h
  split at h
  · exact Outcome.noConfusion h
  · rename_i result s2 hb
    rw [hb] at hthread
    simp only at hthread
    have hlen : s2.thread.vmStack.length = s.thread.vmStack.length := by
      rw [hthread]
      exact Thread.setTop_length _ _
    split at h
    · split at h
      · exact Outcome.noConfusion h
      · rw [← Outcome.returned_inj _ _ h]
        simp only [VMState.withTop, Thread.setTop_length, hlen]
    · rw [← Outcome.returned_inj _ _ h]
      exact hlen

theorem pushFrame_step_length (s s1 : VMState) (f1 frame : StackFrame)
    (h : (match (s.thread.setTop f1).pushFrame frame with
      | .error e => Outcome.failed e (s.withTop f1)
      | .ok t => Outcome.returned { s with thread := t }) = .returned s1) :
    s1.thread.vmStack.length = s.thread.vmStack.length + 1 ∧
      s.thread.vmStack.length < DEFAULT_VM_STACK_SIZE := by
  rw [Thread.pushFrame_eq] at h
  simp only [Thread.setTop_length] at h
  by_cases hd : s.thread.vmStack.length < DEFAULT_VM_STACK_SIZE
  · simp only [hd, if_true] at h
    rw [← Outcome.returned_inj _ _ h]
    simp [Thread.setTop_length, hd]
  · simp only [hd, if_false] at h
    split at h
    · exact Outcome.noConfusion h
    · rename_i t ht
      split at ht <;> exact Except.noConfusion ht

theorem invokeStaticMethod_length (env : Env) (index : Nat) (s s1 : VMState)
    (h : invokeStaticMethod env index s = .returned s1) :
    s1.thread.vmStack.length = s.thread.vmStack.length ∨
      (s1.thread.vmStack.length = s.thread.vmStack.length + 1 ∧
        s.thread.vmStack.length < DEFAULT_VM_STACK_SIZE) := by
  unfold invokeStaticMethod at h
  split at h
  · exact Outcome.noConfusion h
  · split at h
    · exact Outcome.noConfusion h
    · simp only at h
      split at h
      · exact Outcome.noConfusion h
      · split at h
        · exact Or.inl (bridgeAndPush_length env s s1 _ _ _ h)
        · split at h
          · exact Outcome.noConfusion h
          · exact Or.inr (pushFrame_step_length s s1 _ _ h)

theorem invokeVitrualMethod_length (env : Env) (index : Nat) (s s1 : VMState)
    (h : invokeVitrualMethod env index s = .returned s1) :
    s1.thread.vmStack.length = s.thread.vmStack.length ∨
      (s1.thread.vmStack.length = s.thread.vmStack.length + 1 ∧
        s.thread.vmStack.length < DEFAULT_VM_STACK_SIZE) := by
  unfold invokeVitrualMethod at h
  split at h
  · exact Outcome.noConfusion h
  · split at h
    · exact Outcome.noConfusion h
    · split at h
      · exact Outcome.noConfusion h
      · simp only at h
        split at h
        · exact Outcome.noConfusion h
        · split at h
          · exact Outcome.noConfusion h
          · split at h
            · exact Or.inl (bridgeAndPush_length env s s1 _ _ _ h)
            · split at h
              · exact Outcome.noConfusion h
              · exact Or.inr (pushFrame_step_length s s1 _ _ h)

theorem invokeSpecialMethod_length (env : Env) (index : Nat) (s s1 : VMState)
    (h : invokeSpecialMethod env index s = .returned s1) :
    s1.thread.vmStack.length = s.thread.vmStack.length ∨
      (s1.thread.vmStack.length = s.thread.vmStack.length + 1 ∧
        s.thread.vmStack.length < DEFAULT_VM_STACK_SIZE) := by
  unfold invokeSpecialMethod at h
  split at h
  · exact Outcome.noConfusion h
  · split at h
    · exact Outcome.noConfusion h
    · simp only at h
      split at h
      · exact Outcome.noConfusion h
      · split at h
        · exact Or.inl (bridgeAndPush_length env s s1 _ _ _ h)
        · split at h
          · exact Outcome.noConfusion h
          · exact Or.inr (pushFrame_step_length s s1 _ _ h)

theorem Thread.popFrame_length (t : Thread) :
    t.popFrame.vmStack.length ≤ t.vmStack.length := by
  unfold Thread.popFrame
  simp only
  split
  · exact Nat.le_refl _
  · simp only [List.length_take]
    omega

theorem Reachable.depth_le (env : Env) (s : VMState) (h : Reachable env s) :
    s.thread.vmStack.length ≤ DEFAULT_VM_STACK_SIZE := by
  induction h with
  | init name heap => simp [newThread]
  | pushFrame s f t1 _ hpush ih =>
    rw [Thread.pushFrame_eq] at hpush
    by_cases hd : s.thread.vmStack.length < DEFAULT_VM_STACK_SIZE
    · simp only [hd, if_true] at hpush
      injection hpush with hpush
      rw [← hpush]
      simp only [List.length_append, List.length_singleton]
      omega
    · simp only [hd, if_false] at hpush
      split at hpush <;> exact Except.noConfusion hpush
  | popFrame s _ ih =>
    exact Nat.le_trans (Thread.popFrame_length s.thread) ih
  | invokeStatic s s1 index _ hcall ih =>
    rcases invokeStaticMethod_length env index s s1 hcall with h | ⟨h, hlt⟩ <;> omega
  | invokeVirtual s s1 index _ hcall ih =>
    rcases invokeVitrualMethod_length env index s s1 hcall with h | ⟨h, hlt⟩ <;> omega
  | invokeSpecial s s1 index _ hcall ih =>
    rcases invokeSpecialMethod_length env index s s1 hcall with h | ⟨h, hlt⟩ <;> omega

/-- The call-stack depth invariant.  Every state reached from `newThread` by
non-failing `pushFrame`, `popFrame` and dispatch operations has at most 512
frames.  At depth 512 no dispatch produces a 513-frame stack: a dispatch that
returns there has left the depth at 512 (it went through the native bridge).
A dispatch which reaches the creation of a frame (the method tested by the
dispatcher, which in virtual dispatch is the statically resolved one, is not
native, the arguments are on the caller's operand stack and fit the callee's
locals) ends at depth 512 with "Stack Overflow", the arguments already
popped. -/
theorem call_stack_depth_invariant (env : Env) :
    (∀ s, Reachable env s → s.thread.vmStack.length ≤ 512) ∧
    (∀ (index : Nat) (s s1 : VMState), s.thread.vmStack.length = 512 →
      (invokeStaticMethod env index s = .returned s1 ∨
        invokeVitrualMethod env index s = .returned s1 ∨
        invokeSpecialMethod env index s = .returned s1) →
      s1.thread.vmStack.length = 512) ∧
    (∀ (index : Nat) (s : VMState) (below : List StackFrame) (f : StackFrame) (c : Class)
      (method : Method) (stack args : List j_any),
      s.thread.vmStack = below ++ [f] → s.thread.vmStack.length = 512 →
      f.operandStack.wf → f.operandStack.toList = stack ++ args →
      env.classes[f.method.classRef]? = some c →
      c.constantPool[index]? = some (.methodref method) →
      method.isNative = false →
      method.methodType.parameterTypes.length = args.length →
      args.length ≤ method.maxLocals →
      invokeStaticMethod env index s =
        .failed .stackOverflow (s.withStack (below ++ [f.afterPops args.length]))) ∧
    (∀ (index : Nat) (s : VMState) (below : List StackFrame) (f : StackFrame) (c : Class)
      (method overridenMethod : Method) (stack args : List j_any),
      s.thread.vmStack = below ++ [f] → s.thread.vmStack.length = 512 →
      f.operandStack.wf → f.operandStack.toList = stack ++ args →
      env.classes[f.method.classRef]? = some c →
      c.constantPool[index]? = some (.methodref method) →
      method.isStatic = false →
      method.isNative = false →
      method.methodType.parameterTypes.length + 1 = args.length →
      findOverride env s.heap method args = .ok overridenMethod →
      args.length ≤ overridenMethod.maxLocals →
      invokeVitrualMethod env index s =
        .failed .stackOverflow (s.withStack (below ++ [f.afterPops args.length]))) ∧
    (∀ (index : Nat) (s : VMState) (below : List StackFrame) (f : StackFrame) (c : Class)
      (method : Method) (stack args : List j_any),
      s.thread.vmStack = below ++ [f] → s.thread.vmStack.length = 512 →
      f.operandStack.wf → f.operandStack.toList = stack ++ args →
      env.classes[f.method.classRef]? = some c →
      c.constantPool[index]? = some (.methodref method) →
      method.isNative = false →
      method.methodType.parameterTypes.length + 1 = args.length →
      args.length ≤ method.maxLocals →
      invokeSpecialMethod env index s =
        .failed .stackOverflow (s.withStack (below ++ [f.afterPops args.length]))) := by
  have hcap : DEFAULT_VM_STACK_SIZE = 512 := rfl
  refine ⟨?_, ?_, ?_, ?_, ?_⟩
  · intro s hs
    exact Reachable.depth_le env s hs
  · intro index s s1 hd hret
    rcases hret with h | h | h
    · rcases invokeStaticMethod_length env index s s1 h with h1 | ⟨_, hlt⟩
      · rw [h1, hd]
      · rw [hcap] at hlt
        omega
    · rcases invokeVitrualMethod_length env index s s1 h with h1 | ⟨_, hlt⟩
      · rw [h1, hd]
      · rw [hcap] at hlt
        omega
    · rcases invokeSpecialMethod_length env index s s1 h with h1 | ⟨_, hlt⟩
      · rw [h1, hd]
      · rw [hcap] at hlt
        omega
  · intro index s below f c method stack args hstack hd hwf hops hclass hpool hnative hcount
      hlocals
    rw [invokeStaticMethod_eq env index s below f c method stack args hstack hwf hops hclass
      hpool hcount]
    simp [hnative, hlocals, hd, hcap]
  · intro index s below f c method overridenMethod stack args hstack hd hwf hops hclass hpool
      hstatic hnative hcount hfind hlocals
    rw [invokeVitrualMethod_eq env index s below f c method stack args hstack hwf hops hclass
      hpool hstatic hcount]
    simp [hfind, hnative, hlocals, hd, hcap]
  · intro index s below f c method stack args hstack hd hwf hops hclass hpool hnative hcount
      hlocals
    rw [invokeSpecialMethod_eq env index s below f c method stack args hstack hwf hops hclass
      hpool hcount]
    simp [hnative, hlocals, hd, hcap]

/-- The depth invariant at concrete states: the state reached from a new thread by
one push has at most 512 frames, and `add(8, 9)` called at depth 512 ends with
"Stack Overflow". -/
theorem call_stack_depth_invariant_witness :
    (VMState.mk { newThread "main" with vmStack := [] ++ [Demo.mainFrame] } Demo.heapB
        []).thread.vmStack.length ≤ 512 ∧
      invokeStaticMethod Demo.env 0 Demo.deepState =
        .failed .stackOverflow
          (Demo.deepState.withStack
            (List.replicate 511 Demo.fullFrame ++
              [Demo.mainFrame.afterPops [j_any.prim 8, j_any.prim 9].length])) :=
  ⟨(call_stack_depth_invariant Demo.env).1 _
      (Reachable.pushFrame _ Demo.mainFrame _ (Reachable.init "main" Demo.heapB) rfl),
    (call_stack_depth_invariant Demo.env).2.2.1 0 Demo.deepState
      (List.replicate 511 Demo.fullFrame) Demo.mainFrame Demo.classA Demo.addMethod
      [j_any.prim 7] [j_any.prim 8, j_any.prim 9]
      rfl
      (by
        show (List.replicate 511 Demo.fullFrame ++ [Demo.mainFrame]).length = 512
        rw [List.length_append, List.length_replicate]
        rfl)
      (by decide) rfl rfl rfl rfl rfl (by decide)⟩

/-! ## The operand-stack capacity invariant -/

theorem StackFrame.push_inv (f f1 : StackFrame) (v : j_any) (h : f.push v = .ok f1) :
    f1.operandStack.arr.length = f.operandStack.arr.length ∧
      f1.operandStack.len = f.operandStack.len + 1 ∧
      f1.operandStack.len ≤ f1.operandStack.arr.length := by
  unfold StackFrame.push at h
  simp only at h
  split at h
  · rename_i hle
    injection h with h
    rw [← h]
    refine ⟨by simp, rfl, ?_⟩
    simpa using hle
  · exact Except.noConfusion h

theorem StackFrame.pop_inv (f f1 : StackFrame) (v : j_any) (h : f.pop = .ok (v, f1)) :
    f1.operandStack.arr.length = f.operandStack.arr.length ∧
      f1.operandStack.len + 1 = f.operandStack.len := by
  unfold StackFrame.pop at h
  simp only at h
  split at h
  · exact Except.noConfusion h
  · rename_i hne
    split at h
    · exact Except.noConfusion h
    · injection h with h
      injection h with _ h
      rw [← h]
      refine ⟨by simp, ?_⟩
      show f.operandStack.len - 1 + 1 = f.operandStack.len
      omega

theorem StackFrame.passReturn_inv (callee caller callee1 caller1 : StackFrame)
    (h : callee.passReturn caller = .ok (callee1, caller1)) :
    ∃ v, callee.pop = .ok (v, callee1) ∧ caller.push v = .ok caller1 := by
  unfold StackFrame.passReturn at h
  split at h
  · exact Except.noConfusion h
  · rename_i v this1 hpop
    split at h
    · exact Except.noConfusion h
    · rename_i c1 hpush
      injection h with h
      injection h with h1 h2
      subst h1 h2
      exact ⟨v, hpop, hpush⟩

theorem StackFrame.passReturnSelf_inv (f f1 : StackFrame) (h : f.passReturnSelf = .ok f1) :
    ∃ v f0, f.pop = .ok (v, f0) ∧ f0.push v = .ok f1 := by
  unfold StackFrame.passReturnSelf at h
  split at h
  · exact Except.noConfusion h
  · rename_i v this1 hpop
    exact ⟨v, this1, hpop, h⟩

theorem FrameReachable.inv (method : Method) (f : StackFrame) (h : FrameReachable method f) :
    f.operandStack.arr.length = method.maxStack ∧
      f.operandStack.len ≤ f.operandStack.arr.length := by
  induction h with
  | init => simp [NewStackFrame]
  | push f f1 v _ hpush ih =>
    obtain ⟨h1, _, h3⟩ := StackFrame.push_inv f f1 v hpush
    exact ⟨h1.trans ih.1, h3⟩
  | pop f f1 v _ hpop ih =>
    obtain ⟨h1, h2⟩ := StackFrame.pop_inv f f1 v hpop
    exact ⟨h1.trans ih.1, by omega⟩
  | peek f v _ _ ih => exact ih
  | passReturnCallee f f1 caller caller1 _ hpass ih =>
    obtain ⟨v, hpop, _⟩ := StackFrame.passReturn_inv f caller f1 caller1 hpass
    obtain ⟨h1, h2⟩ := StackFrame.pop_inv f f1 v hpop
    exact ⟨h1.trans ih.1, by omega⟩
  | passReturnCaller f f1 callee callee1 _ hpass ih =>
    obtain ⟨v, _, hpush⟩ := StackFrame.passReturn_inv callee f callee1 f1 hpass
    obtain ⟨h1, _, h3⟩ := StackFrame.push_inv f f1 v hpush
    exact ⟨h1.trans ih.1, h3⟩
  | passReturnSelf f f1 _ hpass ih =>
    obtain ⟨v, f0, hpop, hpush⟩ := StackFrame.passReturnSelf_inv f f1 hpass
    obtain ⟨h1, _⟩ := StackFrame.pop_inv f f0 v hpop
    obtain ⟨h3, _, h5⟩ := StackFrame.push_inv f0 f1 v hpush
    exact ⟨h3.trans (h1.trans ih.1), h5⟩

/-- C10. Operand-stack capacity invariant.  A new frame has an empty operand
stack of capacity `method.maxStack`.  Every frame obtained from it by
non-failing `push`, `pop`, `peek` and `passReturn` operations keeps that
capacity, and its operand stack holds at most `method.maxStack` values.  A
`push` on such a frame whose operand stack holds exactly `method.maxStack`
values fails (a slice-bounds panic) and yields no frame. -/
theorem operand_stack_capacity_invariant (method : Method) :
    ((NewStackFrame method).operandStack.toList = [] ∧
      (NewStackFrame method).operandStack.cap = method.maxStack) ∧
    (∀ f, FrameReachable method f →
      f.operandStack.cap = method.maxStack ∧
        f.operandStack.len ≤ method.maxStack ∧
        f.operandStack.toList.length = f.operandStack.len ∧
        f.operandStack.toList.length ≤ method.maxStack) ∧
    (∀ f v, FrameReachable method f → f.operandStack.len = method.maxStack →
      f.push v = .error .sliceBounds) ∧
    (∀ f v, FrameReachable method f → f.operandStack.len < method.maxStack →
      ∃ f1, f.push v = .ok f1 ∧ f1.operandStack.toList = f.operandStack.toList ++ [v]) := by
  refine ⟨⟨by simp [NewStackFrame, Slice.toList], by simp [NewStackFrame, Slice.cap]⟩,
    ?_, ?_, ?_⟩
  · intro f hf
    obtain ⟨h1, h2⟩ := FrameReachable.inv method f hf
    have hl : f.operandStack.toList.length = f.operandStack.len := by
      simp only [Slice.toList, List.length_take]
      omega
    refine ⟨h1, by omega, hl, by omega⟩
  · intro f v hf hfull
    obtain ⟨h1, _⟩ := FrameReachable.inv method f hf
    exact StackFrame.push_full f v (by omega)
  · intro f v hf hroom
    obtain ⟨h1, _⟩ := FrameReachable.inv method f hf
    have hlt : f.operandStack.len < f.operandStack.arr.length := by omega
    exact ⟨_, StackFrame.push_ok f v hlt, Slice.toList_push f.operandStack v hlt⟩

/-- C10 at a concrete frame: after two pushes the frame of `add`, whose `maxStack`
is 2, is full, and a third push fails. -/
theorem operand_stack_capacity_invariant_witness :
    (StackFrame.mk Demo.addMethod 0 [.null, .null, .null]
        (Slice.mk [j_any.prim 1, j_any.prim 2] 2)).operandStack.len ≤ Demo.addMethod.maxStack ∧
      (StackFrame.mk Demo.addMethod 0 [.null, .null, .null]
        (Slice.mk [j_any.prim 1, j_any.prim 2] 2)).push (j_any.prim 3) = .error .sliceBounds :=
  have hr : FrameReachable Demo.addMethod
      (StackFrame.mk Demo.addMethod 0 [.null, .null, .null]
        (Slice.mk [j_any.prim 1, j_any.prim 2] 2)) :=
    FrameReachable.push _ _ (j_any.prim 2)
      (FrameReachable.push _ (StackFrame.mk Demo.addMethod 0 [.null, .null, .null]
        (Slice.mk [j_any.prim 1, j_any.null] 1)) (j_any.prim 1) FrameReachable.init rfl) rfl
  ⟨((operand_stack_capacity_invariant Demo.addMethod).2.1 _ hr).2.1,
    (operand_stack_capacity_invariant Demo.addMethod).2.2.1 _ (j_any.prim 3) hr rfl⟩

/-! ## The native bridge -/

theorem invokeNativeMethod_not_native (env : Env) (s : VMState) (method : Method)
    (params : List j_any) (h : method.isNative = false) :
    invokeNativeMethod env s method params = (.error .notNativeMethod, s) := by
  unfold invokeNativeMethod
  simp [h]

theorem invokeNativeMethod_eq (env : Env) (s : VMState) (method : Method)
    (params : List j_any) (c : Class)
    (hclass : env.classes[method.classRef]? = some c) (h : method.isNative = true) :
    invokeNativeMethod env s method params =
      match env.NativeFunctions (nativeSymbol c.thisClassName method.name) with
      | none => (.error (.nativeMissing (nativeSymbol c.thisClassName method.name)), s)
      | some fn =>
        if params.length ≠ fn.numIn then (.error .arityMismatch, s)
        else if callAccepts fn 0 params = false then (.error .reflectCall, s)
        else
          match fn.call s.heap params with
          | none =>
            (.error .nativeFailed,
              { s with nativeCalls :=
                s.nativeCalls ++ [(nativeSymbol c.thisClassName method.name, params)] })
          | some ([], heap1) =>
            (.ok j_any.null,
              { s with
                heap := heap1
                nativeCalls :=
                  s.nativeCalls ++ [(nativeSymbol c.thisClassName method.name, params)] })
          | some (r :: _, heap1) =>
            if r = j_any.null then
              (.error .typeAssertion,
                { s with
                  heap := heap1
                  nativeCalls :=
                    s.nativeCalls ++ [(nativeSymbol c.thisClassName method.name, params)] })
            else
              (.ok r,
                { s with
                  heap := heap1
                  nativeCalls :=
                    s.nativeCalls ++ [(nativeSymbol c.thisClassName method.name, params)] }) := by
  unfold invokeNativeMethod
  simp only [h, Bool.not_true, Bool.false_eq_true, if_false, hclass]

theorem callAccepts_iff (fn : NativeFunction) (params : List j_any) :
    ∀ k0, callAccepts fn k0 params = true ↔
      ∀ k v, params[k]? = some v → v ≠ j_any.null ∧ fn.assignable (k0 + k) v = true := by
  induction params with
  | nil =>
    intro k0
    simp [callAccepts]
  | cons x xs ih =>
    intro k0
    simp only [callAccepts]
    constructor
    · intro h k v hv
      by_cases hx : x = j_any.null
      · simp only [hx, if_true] at h
        exact Bool.noConfusion h
      · simp only [hx, if_false, Bool.and_eq_true] at h
        cases k with
        | zero =>
          simp only [List.getElem?_cons_zero, Option.some.injEq] at hv
          subst hv
          exact ⟨hx, h.1⟩
        | succ k1 =>
          simp only [List.getElem?_cons_succ] at hv
          have := (ih (k0 + 1)).mp h.2 k1 v hv
          refine ⟨this.1, ?_⟩
          have e : k0 + (k1 + 1) = k0 + 1 + k1 := by omega
          rw [e]
          exact this.2
    · intro h
      have h0 := h 0 x (by simp)
      simp only [h0.1, if_false, Bool.and_eq_true]
      refine ⟨h0.2, (ih (k0 + 1)).mpr ?_⟩
      intro k v hv
      have := h (k + 1) v (by simpa using hv)
      refine ⟨this.1, ?_⟩
      have e : k0 + 1 + k = k0 + (k + 1) := by omega
      rw [e]
      exact this.2

theorem callAccepts_null (fn : NativeFunction) (params : List j_any)
    (h : j_any.null ∈ params) : ∀ k0, callAccepts fn k0 params = false := by
  induction params with
  | nil => simp at h
  | cons x xs ih =>
    intro k0
    simp only [callAccepts]
    by_cases hx : x = j_any.null
    · simp only [hx, if_true]
    · simp only [hx, if_false]
      have hmem : j_any.null ∈ xs := by
        rcases List.mem_cons.mp h with h1 | h1
        · exact absurd h1.symm hx
        · exact h1
      rw [ih hmem (k0 + 1)]
      simp

/-- C11. Validation in the native bridge, for a method whose owning class is in
the class table.  If the method is not flagged native, or the computed symbol
is absent from the registry, or the number of arguments differs from the
arity of the registered callable, `invokeNativeMethod` ends through `fatal`
("Not a native method", "... does not exist.", "The number of params is not
adapted.") without having invoked anything: the state is unchanged.  In every
other case the outcome depends on whether `Call` accepts the arguments, that
is, whether none of them is nil and each is assignable to the type of its
parameter.  If it does not, in particular if an argument is nil, `Call` panics
before the callable is entered: nothing is invoked and the state is unchanged.
If it does, exactly one invocation is recorded, of the callable registered
under the computed symbol, with the arguments as supplied and in their order;
the outcome is that of the callable (its first result, null if it has none),
and the failures left are one inside the callable and the assertion on a nil
first result, neither of which is a `fatal`. -/
theorem invokeNativeMethod_validation (env : Env) (s : VMState) (method : Method)
    (params : List j_any) (c : Class)
    (hclass : env.classes[method.classRef]? = some c) :
    (method.isNative = false →
      invokeNativeMethod env s method params = (.error .notNativeMethod, s)) ∧
    (method.isNative = true →
      env.NativeFunctions (nativeSymbol c.thisClassName method.name) = none →
      invokeNativeMethod env s method params =
        (.error (.nativeMissing (nativeSymbol c.thisClassName method.name)), s)) ∧
    (∀ fn, method.isNative = true →
      env.NativeFunctions (nativeSymbol c.thisClassName method.name) = some fn →
      params.length ≠ fn.numIn →
      invokeNativeMethod env s method params = (.error .arityMismatch, s)) ∧
    ((method.isNative = false ∨
        env.NativeFunctions (nativeSymbol c.thisClassName method.name) = none ∨
        ∃ fn, env.NativeFunctions (nativeSymbol c.thisClassName method.name) = some fn ∧
          params.length ≠ fn.numIn) →
      ∃ e, invokeNativeMethod env s method params = (.error e, s) ∧ e.isFatal = true) ∧
    (∀ fn : NativeFunction,
      (callAccepts fn 0 params = true ↔
        ∀ k v, params[k]? = some v → v ≠ j_any.null ∧ fn.assignable k v = true) ∧
      (j_any.null ∈ params → callAccepts fn 0 params = false)) ∧
    (∀ fn, method.isNative = true →
      env.NativeFunctions (nativeSymbol c.thisClassName method.name) = some fn →
      params.length = fn.numIn →
      callAccepts fn 0 params = false →
      invokeNativeMethod env s method params = (.error .reflectCall, s) ∧
        Failure.reflectCall.isFatal = false) ∧
    (∀ fn, method.isNative = true →
      env.NativeFunctions (nativeSymbol c.thisClassName method.name) = some fn →
      params.length = fn.numIn →
      callAccepts fn 0 params = true →
      (invokeNativeMethod env s method params).2.nativeCalls =
          s.nativeCalls ++ [(nativeSymbol c.thisClassName method.name, params)] ∧
        (invokeNativeMethod env s method params).2.thread = s.thread ∧
        (invokeNativeMethod env s method params).1 =
          (match fn.call s.heap params with
            | none => .error .nativeFailed
            | some ([], _) => .ok j_any.null
            | some (r :: _, _) => if r = j_any.null then .error .typeAssertion else .ok r) ∧
        ∀ e, (invokeNativeMethod env s method params).1 = .error e →
          (e = .nativeFailed ∨ e = .typeAssertion) ∧ e.isFatal = false) := by
  have hnot := invokeNativeMethod_not_native env s method params
  have hmissing : method.isNative = true →
      env.NativeFunctions (nativeSymbol c.thisClassName method.name) = none →
      invokeNativeMethod env s method params =
        (.error (.nativeMissing (nativeSymbol c.thisClassName method.name)), s) := by
    intro hn hreg
    rw [invokeNativeMethod_eq env s method params c hclass hn, hreg]
  have harity : ∀ fn, method.isNative = true →
      env.NativeFunctions (nativeSymbol c.thisClassName method.name) = some fn →
      params.length ≠ fn.numIn →
      invokeNativeMethod env s method params = (.error .arityMismatch, s) := by
    intro fn hn hreg hlen
    rw [invokeNativeMethod_eq env s method params c hclass hn, hreg]
    simp only [hlen, ne_eq, not_false_eq_true, if_true]
  refine ⟨hnot, hmissing, harity, ?_, ?_, ?_, ?_⟩
  · intro h
    by_cases hn : method.isNative = true
    · rcases h with h | h | ⟨fn, hreg, hlen⟩
      · rw [hn] at h
        exact Bool.noConfusion h
      · exact ⟨_, hmissing hn h, rfl⟩
      · exact ⟨_, harity fn hn hreg hlen, rfl⟩
    · have hf : method.isNative = false := by simpa using hn
      exact ⟨_, hnot hf, rfl⟩
  · intro fn
    refine ⟨?_, fun h => callAccepts_null fn params h 0⟩
    have := callAccepts_iff fn params 0
    simpa using this
  · intro fn hn hreg hlen hacc
    refine ⟨?_, rfl⟩
    rw [invokeNativeMethod_eq env s method params c hclass hn, hreg]
    simp only [hlen, ne_eq, not_true_eq_false, if_false, hacc, if_true]
  · intro fn hn hreg hlen hacc
    rw [invokeNativeMethod_eq env s method params c hclass hn, hreg]
    simp only [hlen, ne_eq, not_true_eq_false, if_false, hacc, Bool.true_eq_false]
    cases hcall : fn.call s.heap params with
    | none =>
      refine ⟨rfl, rfl, rfl, ?_⟩
      intro e he
      injection he with he
      rw [← he]
      exact ⟨Or.inl rfl, rfl⟩
    | some res =>
      obtain ⟨results, heap1⟩ := res
      cases results with
      | nil =>
        refine ⟨rfl, rfl, rfl, ?_⟩
        intro e he
        exact Except.noConfusion he
      | cons r rest =>
        cases r with
        | null =>
          refine ⟨rfl, rfl, rfl, ?_⟩
          intro e he
          injection he with he
          rw [← he]
          exact ⟨Or.inr rfl, rfl⟩
        | prim v =>
          refine ⟨rfl, rfl, rfl, ?_⟩
          intro e he
          exact Except.noConfusion he
        | ref addr =>
          refine ⟨rfl, rfl, rfl, ?_⟩
          intro e he
          exact Except.noConfusion he

/-- C11 at concrete calls: `log` called with the argument 9 is invoked once with
that argument; called without arguments it ends with an arity mismatch before
any invocation. -/
theorem invokeNativeMethod_validation_witness :
    ((invokeNativeMethod Demo.env Demo.state Demo.logMethod [j_any.prim 9]).2.nativeCalls =
        Demo.state.nativeCalls ++
          [(nativeSymbol Demo.classA.thisClassName Demo.logMethod.name, [j_any.prim 9])] ∧
      (invokeNativeMethod Demo.env Demo.state Demo.logMethod [j_any.prim 9]).1 =
        .ok j_any.null) ∧
      invokeNativeMethod Demo.env Demo.state Demo.logMethod [] =
        (.error .arityMismatch, Demo.state) :=
  ⟨⟨((invokeNativeMethod_validation Demo.env Demo.state Demo.logMethod [j_any.prim 9]
      Demo.classA rfl).2.2.2.2.2.2 (Demo.constantNative 1 []) rfl rfl rfl rfl).1,
      ((invokeNativeMethod_validation Demo.env Demo.state Demo.logMethod [j_any.prim 9]
        Demo.classA rfl).2.2.2.2.2.2 (Demo.constantNative 1 []) rfl rfl rfl rfl).2.2.1⟩,
    (invokeNativeMethod_validation Demo.env Demo.state Demo.logMethod []
      Demo.classA rfl).2.2.1 (Demo.constantNative 1 []) rfl rfl (by decide)⟩

/-- C11, a call on which the claim as stated fails: `log` is native, its symbol `Java_A_log`
is registered with arity 1 and one argument is supplied, so none of the three
validation failures applies; but the argument is nil, `Call` panics on the zero
`Value` before the callable is entered, and no invocation takes place.  The
same happens for a callable whose parameter is of a primitive type when the
argument is an object reference. -/
theorem invokeNativeMethod_nil_argument_not_invoked :
    Demo.logMethod.isNative = true ∧
      Demo.env.NativeFunctions (nativeSymbol Demo.classA.thisClassName Demo.logMethod.name) =
        some (Demo.constantNative 1 []) ∧
      [j_any.null].length = (Demo.constantNative 1 []).numIn ∧
      invokeNativeMethod Demo.env Demo.state Demo.logMethod [j_any.null] =
        (.error .reflectCall, Demo.state) ∧
      (invokeNativeMethod Demo.env Demo.state Demo.logMethod [j_any.null]).2.nativeCalls = [] ∧
      Demo.typedEnv.NativeFunctions
          (nativeSymbol Demo.classA.thisClassName Demo.logMethod.name) =
        some (Demo.primitiveNative 1 []) ∧
      invokeNativeMethod Demo.typedEnv Demo.state Demo.logMethod [j_any.ref 0] =
        (.error .reflectCall, Demo.state) := by
  refine ⟨rfl, rfl, rfl, ?_, ?_, rfl, ?_⟩
  · rw [invokeNativeMethod_eq Demo.env Demo.state Demo.logMethod [j_any.null] Demo.classA
      rfl rfl]
    rfl
  · rw [invokeNativeMethod_eq Demo.env Demo.state Demo.logMethod [j_any.null] Demo.classA
      rfl rfl]
    rfl
  · rw [invokeNativeMethod_eq Demo.typedEnv Demo.state Demo.logMethod [j_any.ref 0] Demo.classA
      rfl rfl]
    rfl

/-! ## The canonical native symbol -/

theorem nativeSymbol_data (c m : String) :
    (nativeSymbol c m).data =
      ['J', 'a', 'v', 'a', '_'] ++
        (c.data ++ '_' :: m.data).map (fun ch => if ch = '/' then '_' else ch) := by
  unfold nativeSymbol replaceSlash
  simp only [String.data_append]
  simp [List.append_assoc]

theorem utf8Len_map_slash (l : List Char) :
    String.utf8Len (l.map (fun ch => if ch = '/' then '_' else ch)) = String.utf8Len l := by
  induction l with
  | nil => rfl
  | cons x xs ih =>
    simp only [List.map_cons, String.utf8Len_cons, ih]
    by_cases h : x = '/'
    · subst h
      rfl
    · simp [h]

theorem String.utf8ByteSize_eq_utf8Len (s : String) : s.utf8ByteSize = String.utf8Len s.data := by
  cases s
  simp [String.utf8ByteSize_mk]

theorem invokeNativeMethod_congr (env env1 : Env) (s : VMState) (m1 m2 : Method)
    (params : List j_any) (c1 c2 : Class)
    (hnative : m1.isNative = m2.isNative)
    (hc1 : env.classes[m1.classRef]? = some c1)
    (hc2 : env1.classes[m2.classRef]? = some c2)
    (hsym : nativeSymbol c1.thisClassName m1.name = nativeSymbol c2.thisClassName m2.name)
    (hreg : env1.NativeFunctions (nativeSymbol c2.thisClassName m2.name) =
      env.NativeFunctions (nativeSymbol c1.thisClassName m1.name)) :
    invokeNativeMethod env1 s m2 params = invokeNativeMethod env s m1 params := by
  by_cases hn : m1.isNative = true
  · rw [invokeNativeMethod_eq env s m1 params c1 hc1 hn,
      invokeNativeMethod_eq env1 s m2 params c2 hc2 (hnative ▸ hn), hreg, hsym]
  · have hf : m1.isNative = false := by simpa using hn
    rw [invokeNativeMethod_not_native env s m1 params hf,
      invokeNativeMethod_not_native env1 s m2 params (hnative ▸ hf)]

/-- C12. The canonical native symbol.  For a class name `c` and a method name `m`
the symbol is `Java_` followed by `c ++ "_" ++ m` with every `/` replaced by `_`.
It starts with `Java_`, contains no `/`, and has length `5 + |c| + 1 + |m|`, in
characters and in bytes.  It is the symbol `invokeNativeMethod` looks up: the
outcome depends on the registry only through the entry at this symbol, and a
missing entry is reported under this symbol.  The method's descriptor plays no
part: replacing it changes nothing. -/
theorem nativeSymbol_canonical (c m : String) :
    nativeSymbol c m = "Java_" ++ replaceSlash (c ++ "_" ++ m) ∧
    (nativeSymbol c m).data =
      ['J', 'a', 'v', 'a', '_'] ++
        (c.data ++ '_' :: m.data).map (fun ch => if ch = '/' then '_' else ch) ∧
    (∃ rest, nativeSymbol c m = "Java_" ++ rest) ∧
    (nativeSymbol c m).data.take 5 = ['J', 'a', 'v', 'a', '_'] ∧
    '/' ∉ (nativeSymbol c m).data ∧
    (nativeSymbol c m).length = 5 + c.length + 1 + m.length ∧
    (nativeSymbol c m).utf8ByteSize = 5 + c.utf8ByteSize + 1 + m.utf8ByteSize ∧
    (∀ (env : Env) (s : VMState) (method : Method) (params : List j_any) (cls : Class),
      env.classes[method.classRef]? = some cls → cls.thisClassName = c → method.name = m →
      method.isNative = true → env.NativeFunctions (nativeSymbol c m) = none →
      invokeNativeMethod env s method params =
        (.error (.nativeMissing (nativeSymbol c m)), s)) ∧
    (∀ (env env1 : Env) (s : VMState) (method : Method) (params : List j_any) (cls : Class),
      env1.classes = env.classes →
      env.classes[method.classRef]? = some cls → cls.thisClassName = c → method.name = m →
      env1.NativeFunctions (nativeSymbol c m) = env.NativeFunctions (nativeSymbol c m) →
      invokeNativeMethod env1 s method params = invokeNativeMethod env s method params) ∧
    (∀ (env : Env) (s : VMState) (method : Method) (params : List j_any)
      (descriptor : String),
      invokeNativeMethod env s { method with descriptor := descriptor } params =
        invokeNativeMethod env s method params) := by
  have hdata := nativeSymbol_data c m
  refine ⟨rfl, hdata, ⟨_, rfl⟩, ?_, ?_, ?_, ?_, ?_, ?_, ?_⟩
  · rw [hdata]
    rfl
  · rw [hdata]
    intro hmem
    rcases List.mem_append.mp hmem with h | h
    · revert h
      decide
    · obtain ⟨ch, _, hch⟩ := List.mem_map.mp h
      by_cases hs : ch = '/'
      · simp only [hs, if_true] at hch
        revert hch
        decide
      · rw [if_neg hs] at hch
        exact hs hch
  · simp only [String.length, hdata, List.length_append, List.length_map, List.length_cons,
      List.length_nil]
    omega
  · have h5 : String.utf8Len ['J', 'a', 'v', 'a', '_'] = 5 := by decide
    have h1 : Char.utf8Size '_' = 1 := by decide
    rw [String.utf8ByteSize_eq_utf8Len, hdata, String.utf8Len_append, h5, utf8Len_map_slash,
      String.utf8Len_append, String.utf8Len_cons, h1, String.utf8ByteSize_eq_utf8Len c,
      String.utf8ByteSize_eq_utf8Len m]
    omega
  · intro env s method params cls hcls hc hm hn hreg
    subst hc hm
    rw [invokeNativeMethod_eq env s method params cls hcls hn, hreg]
  · intro env env1 s method params cls hclasses hcls hc hm hreg
    subst hc hm
    exact invokeNativeMethod_congr env env1 s method method params cls cls rfl hcls
      (by rw [hclasses]; exact hcls) rfl hreg
  · intro env s method params descriptor
    unfold invokeNativeMethod
    rfl

/-- C12 at a concrete name: `java/lang/Object` and `hashCode`. -/
theorem nativeSymbol_canonical_witness :
    nativeSymbol "java/lang/Object" "hashCode" = "Java_java_lang_Object_hashCode" ∧
      '/' ∉ (nativeSymbol "java/lang/Object" "hashCode").data ∧
      (nativeSymbol "java/lang/Object" "hashCode").length =
        5 + "java/lang/Object".length + 1 + "hashCode".length :=
  ⟨by decide, (nativeSymbol_canonical "java/lang/Object" "hashCode").2.2.2.2.1,
    (nativeSymbol_canonical "java/lang/Object" "hashCode").2.2.2.2.2.1⟩

/-- C20. The canonical native symbol is not injective.  Class `a/b` with method
`c` and class `a` with method `b_c` are distinct pairs with the one symbol
`Java_a_b_c`, and in a registry holding that symbol both methods are bridged to
the same callable; more generally a `/` in the class name cannot be told from
the `_` which joins class and method name.  Two methods of one class with the
same name are bridged alike, whatever their descriptors. -/
theorem nativeSymbol_not_injective :
    nativeSymbol "a/b" "c" = "Java_a_b_c" ∧ nativeSymbol "a" "b_c" = "Java_a_b_c" ∧
    (("a/b", "c") : String × String) ≠ ("a", "b_c") ∧
    (∀ c d m : String, nativeSymbol (c ++ "/" ++ d) m = nativeSymbol c (d ++ "_" ++ m)) ∧
    (∀ s : VMState,
      invokeNativeMethod Demo.slashEnv s Demo.slashMethod [] =
          (.ok (j_any.prim 5), { s with nativeCalls := s.nativeCalls ++ [("Java_a_b_c", [])] }) ∧
        invokeNativeMethod Demo.slashEnv s Demo.underscoreMethod [] =
          (.ok (j_any.prim 5),
            { s with nativeCalls := s.nativeCalls ++ [("Java_a_b_c", [])] })) ∧
    (∀ (env : Env) (s : VMState) (m1 m2 : Method) (params : List j_any),
      m1.classRef = m2.classRef → m1.name = m2.name → m1.isNative = m2.isNative →
      invokeNativeMethod env s m1 params = invokeNativeMethod env s m2 params) := by
  refine ⟨by decide, by decide, by decide, ?_, ?_, ?_⟩
  · intro c d m
    apply String.ext
    rw [nativeSymbol_data, nativeSymbol_data]
    simp [String.data_append]
  · intro s
    constructor
    · rw [invokeNativeMethod_eq Demo.slashEnv s Demo.slashMethod [] _ rfl rfl]
      rfl
    · rw [invokeNativeMethod_eq Demo.slashEnv s Demo.underscoreMethod [] _ rfl rfl]
      rfl
  · intro env s m1 m2 params hc hm hn
    unfold invokeNativeMethod
    rw [hc, hm, hn]

/-- C20 at concrete methods: `log(I)V` and an overload `log(J)V` of the same class
are bridged alike. -/
theorem nativeSymbol_not_injective_witness :
    invokeNativeMethod Demo.env Demo.state Demo.logMethod [j_any.prim 9] =
      invokeNativeMethod Demo.env Demo.state
        { Demo.logMethod with descriptor := "(J)V" } [j_any.prim 9] :=
  nativeSymbol_not_injective.2.2.2.2.2 Demo.env Demo.state Demo.logMethod
    { Demo.logMethod with descriptor := "(J)V" } [j_any.prim 9] rfl rfl rfl

/-! ## Static targets in virtual and special dispatch -/

/-- C13. Virtual dispatch rejects static targets.  When the constant-pool entry
resolves to a static method, `invokeVitrualMethod` ends through
`fatal("Not an instance method")`, and the state in which it ends is the state
before the call: nothing was popped from the caller and no frame was pushed. -/
theorem invokeVitrualMethod_rejects_static (env : Env) (index : Nat) (s : VMState)
    (below : List StackFrame) (f : StackFrame) (c : Class) (method : Method)
    (hstack : s.thread.vmStack = below ++ [f])
    (hclass : env.classes[f.method.classRef]? = some c)
    (hpool : c.constantPool[index]? = some (.methodref method))
    (hstatic : method.isStatic = true) :
    invokeVitrualMethod env index s = .failed .notInstanceMethod s ∧
      Failure.notInstanceMethod.isFatal = true ∧
      (invokeVitrualMethod env index s).state = s ∧
      (invokeVitrualMethod env index s).state.thread.vmStack = below ++ [f] := by
  have h : invokeVitrualMethod env index s = .failed .notInstanceMethod s := by
    unfold invokeVitrualMethod
    simp only [Thread.peekFrame_eq _ below f hstack,
      resolveMethod_eq env _ method index c hclass hpool, hstatic, if_true]
  refine ⟨h, rfl, ?_, ?_⟩
  · rw [h]
    rfl
  · rw [h]
    exact hstack

/-- C13 at a concrete call: virtual dispatch on the static `add`. -/
theorem invokeVitrualMethod_rejects_static_witness :
    invokeVitrualMethod Demo.env 0 Demo.state = .failed .notInstanceMethod Demo.state :=
  (invokeVitrualMethod_rejects_static Demo.env 0 Demo.state [] Demo.mainFrame Demo.classA
    Demo.addMethod rfl rfl rfl rfl).1

/-- C14. Special dispatch does not reject static targets.  Called on the static
method `add(II)I` with operands 7, 8, 9, `invokeSpecialMethod` returns: it has
popped three values and pushed a frame of `add` holding them, where virtual
dispatch on the same input ends with "Not an instance method" and leaves the
state as it was. -/
theorem invokeSpecialMethod_accepts_static :
    Demo.addMethod.isStatic = true ∧
      resolveMethod Demo.env Demo.mainFrame.method 0 = .ok Demo.addMethod ∧
      invokeSpecialMethod Demo.env 0 Demo.state =
        .returned (Demo.state.withStack
          [Demo.mainFrame.afterPops 3,
            calleeFrame Demo.addMethod [j_any.prim 7, j_any.prim 8, j_any.prim 9]]) ∧
      (invokeSpecialMethod Demo.env 0 Demo.state).state.thread.vmStack.length = 2 ∧
      invokeVitrualMethod Demo.env 0 Demo.state = .failed .notInstanceMethod Demo.state := by
  refine ⟨rfl, rfl, ?_, ?_, ?_⟩ <;> decide

/-! ## Operand-stack operations -/

theorem getElem?_set_length (arr : List j_any) (v : j_any) (n : Nat) (h : n < arr.length) :
    (arr.set n v)[n]? = some v := by
  simp [List.getElem?_set, h]

theorem take_set_same (arr : List j_any) (v : j_any) :
    ∀ n, (arr.set n v).take n = arr.take n := by
  induction arr with
  | nil => intro n; simp
  | cons x xs ih =>
    intro n
    cases n with
    | zero => simp
    | succ k => simp [ih k]

theorem StackFrame.pop_ok (f : StackFrame) (v : j_any)
    (hpos : f.operandStack.len ≠ 0)
    (hv : f.operandStack.arr[f.operandStack.len - 1]? = some v) :
    f.pop = .ok (v, { f with operandStack :=
      { arr := f.operandStack.arr.set (f.operandStack.len - 1) j_any.null
        len := f.operandStack.len - 1 } }) := by
  unfold StackFrame.pop
  simp only [hpos, if_false, hv]

theorem StackFrame.pop_of_toList (f : StackFrame) (s : List j_any) (v : j_any)
    (hwf : f.operandStack.wf) (hops : f.operandStack.toList = s ++ [v]) :
    f.pop = .ok (v, { f with operandStack :=
      { arr := f.operandStack.arr.set s.length j_any.null, len := s.length } }) ∧
      s.length < f.operandStack.arr.length ∧ f.operandStack.len = s.length + 1 ∧
      (f.operandStack.arr.set s.length j_any.null).take s.length = s := by
  obtain ⟨harr, hlen⟩ := Slice.arr_eq_of_toList _ _ hwf hops
  simp only [List.length_append, List.length_singleton] at hlen
  have hw : f.operandStack.len ≤ f.operandStack.arr.length := hwf
  have hv : f.operandStack.arr[f.operandStack.len - 1]? = some v := by
    rw [hlen, Nat.add_sub_cancel, harr, List.append_assoc]
    exact getElem?_append_cons_length s _ v
  have hpop := StackFrame.pop_ok f v (by omega) hv
  rw [hlen, Nat.add_sub_cancel] at hpop
  refine ⟨hpop, by omega, hlen, ?_⟩
  rw [take_set_same]
  have : f.operandStack.arr.take s.length = (f.operandStack.toList).take s.length := by
    unfold Slice.toList
    rw [List.take_take, Nat.min_eq_left (by omega)]
  rw [this, hops, List.take_left]

/-- C15. The pop/push contract of the operand stack.  On a frame whose operand
stack is `s ++ [v]`, `pop()` returns `v` and leaves the operand stack `s`; the
backing slot which held `v` now holds null, the other slots and the rest of the
frame are as before.  On a frame whose operand stack is shorter than its
capacity, `push(v)` succeeds and appends `v`, and the following `pop()` returns
`v` and leaves the operand stack, its length and capacity, and the rest of the
frame as before the push. -/
theorem operandStack_pop_push_contract :
    (∀ (f : StackFrame) (s : List j_any) (v : j_any),
      f.operandStack.wf → f.operandStack.toList = s ++ [v] →
      ∃ f1, f.pop = .ok (v, f1) ∧ f1.operandStack.toList = s ∧
        f1.operandStack.len = s.length ∧
        f1.operandStack.arr[s.length]? = some j_any.null ∧
        f1.operandStack.arr = f.operandStack.arr.set s.length j_any.null ∧
        f1.method = f.method ∧ f1.pc = f.pc ∧ f1.localVariables = f.localVariables) ∧
    (∀ (f : StackFrame) (v : j_any),
      f.operandStack.len < f.operandStack.cap →
      ∃ f1 f2, f.push v = .ok f1 ∧
        f1.operandStack.toList = f.operandStack.toList ++ [v] ∧
        f1.pop = .ok (v, f2) ∧
        f2.operandStack.toList = f.operandStack.toList ∧
        f2.operandStack.len = f.operandStack.len ∧
        f2.operandStack.cap = f.operandStack.cap ∧
        f2.method = f.method ∧ f2.pc = f.pc ∧ f2.localVariables = f.localVariables) := by
  constructor
  · intro f s v hwf hops
    obtain ⟨hpop, hlt, _, htake⟩ := StackFrame.pop_of_toList f s v hwf hops
    exact ⟨_, hpop, htake, rfl, getElem?_set_length _ _ _ hlt, rfl, rfl, rfl, rfl⟩
  · intro f v hroom
    have hlt : f.operandStack.len < f.operandStack.arr.length := hroom
    have hpush := StackFrame.push_ok f v hlt
    have hpop := StackFrame.pop_ok
      { f with operandStack :=
        { arr := f.operandStack.arr.set f.operandStack.len v, len := f.operandStack.len + 1 } }
      v (Nat.succ_ne_zero _)
      (by simpa using getElem?_set_length f.operandStack.arr v f.operandStack.len hlt)
    refine ⟨_, _, hpush, Slice.toList_push f.operandStack v hlt, hpop, ?_, ?_, ?_, rfl, rfl, rfl⟩
    · simp only [Slice.toList, Nat.add_sub_cancel]
      rw [take_set_same, take_set_same]
    · simp
    · simp [Slice.cap]

/-- C15 at a concrete frame: popping the frame with operands 7, 8, 9 returns 9 and
clears its slot; pushing 5 and popping again gives 5 and the operands 7, 8, 9. -/
theorem operandStack_pop_push_contract_witness :
    (∃ f1, Demo.mainFrame.pop = .ok (j_any.prim 9, f1) ∧
      f1.operandStack.toList = [j_any.prim 7, j_any.prim 8] ∧
      f1.operandStack.len = [j_any.prim 7, j_any.prim 8].length ∧
      f1.operandStack.arr[[j_any.prim 7, j_any.prim 8].length]? = some j_any.null ∧
      f1.operandStack.arr =
        Demo.mainFrame.operandStack.arr.set [j_any.prim 7, j_any.prim 8].length j_any.null ∧
      f1.method = Demo.mainFrame.method ∧ f1.pc = Demo.mainFrame.pc ∧
      f1.localVariables = Demo.mainFrame.localVariables) ∧
    (∃ f1 f2, Demo.mainFrame.push (j_any.prim 5) = .ok f1 ∧
      f1.operandStack.toList = Demo.mainFrame.operandStack.toList ++ [j_any.prim 5] ∧
      f1.pop = .ok (j_any.prim 5, f2) ∧
      f2.operandStack.toList = Demo.mainFrame.operandStack.toList ∧
      f2.operandStack.len = Demo.mainFrame.operandStack.len ∧
      f2.operandStack.cap = Demo.mainFrame.operandStack.cap ∧
      f2.method = Demo.mainFrame.method ∧ f2.pc = Demo.mainFrame.pc ∧
      f2.localVariables = Demo.mainFrame.localVariables) :=
  ⟨operandStack_pop_push_contract.1 Demo.mainFrame [j_any.prim 7, j_any.prim 8] (j_any.prim 9)
      (by decide) rfl,
    operandStack_pop_push_contract.2 Demo.mainFrame (j_any.prim 5) (by decide)⟩

/-- C18. Return-value transfer between two distinct frames.  The callee's operand
stack is `s ++ [v]`, the caller's is `c` and shorter than its capacity.  Then
`callee.passReturn(caller)` succeeds; afterwards the caller's operand stack is
`c ++ [v]` and the callee's is `s`, and method, pc and locals of both frames are
as before. -/
theorem passReturn_transfers_one_value (callee caller : StackFrame) (s c : List j_any)
    (v : j_any)
    (hwf : callee.operandStack.wf)
    (hcallee : callee.operandStack.toList = s ++ [v])
    (hcaller : caller.operandStack.toList = c)
    (hroom : caller.operandStack.len < caller.operandStack.cap) :
    ∃ callee1 caller1, callee.passReturn caller = .ok (callee1, caller1) ∧
      caller1.operandStack.toList = c ++ [v] ∧
      callee1.operandStack.toList = s ∧
      caller1.operandStack.len = caller.operandStack.len + 1 ∧
      callee1.operandStack.len + 1 = callee.operandStack.len ∧
      callee1.method = callee.method ∧ callee1.pc = callee.pc ∧
      callee1.localVariables = callee.localVariables ∧
      caller1.method = caller.method ∧ caller1.pc = caller.pc ∧
      caller1.localVariables = caller.localVariables := by
  obtain ⟨hpop, _, hlen, htake⟩ := StackFrame.pop_of_toList callee s v hwf hcallee
  have hlt : caller.operandStack.len < caller.operandStack.arr.length := hroom
  have hpush := StackFrame.push_ok caller v hlt
  refine ⟨{ callee with operandStack :=
      { arr := callee.operandStack.arr.set s.length j_any.null, len := s.length } },
    { caller with operandStack :=
      { arr := caller.operandStack.arr.set caller.operandStack.len v
        len := caller.operandStack.len + 1 } },
    ?_, ?_, htake, rfl, ?_, rfl, rfl, rfl, rfl, rfl, rfl⟩
  · unfold StackFrame.passReturn
    rw [hpop]
    simp only
    rw [hpush]
  · rw [← hcaller]
    exact Slice.toList_push caller.operandStack v hlt
  · rw [hlen]

/-- C18 at concrete frames: the callee holds 7, 8, 9, the caller holds a reference
and has room; 9 is transferred. -/
theorem passReturn_transfers_one_value_witness :
    ∃ callee1 caller1, Demo.mainFrame.passReturn Demo.receiverFrame = .ok (callee1, caller1) ∧
      caller1.operandStack.toList = [j_any.ref 0] ++ [j_any.prim 9] ∧
      callee1.operandStack.toList = [j_any.prim 7, j_any.prim 8] ∧
      caller1.operandStack.len = Demo.receiverFrame.operandStack.len + 1 ∧
      callee1.operandStack.len + 1 = Demo.mainFrame.operandStack.len ∧
      callee1.method = Demo.mainFrame.method ∧ callee1.pc = Demo.mainFrame.pc ∧
      callee1.localVariables = Demo.mainFrame.localVariables ∧
      caller1.method = Demo.receiverFrame.method ∧ caller1.pc = Demo.receiverFrame.pc ∧
      caller1.localVariables = Demo.receiverFrame.localVariables :=
  passReturn_transfers_one_value Demo.mainFrame Demo.receiverFrame
    [j_any.prim 7, j_any.prim 8] [j_any.ref 0] (j_any.prim 9) (by decide) rfl rfl (by decide)

/-! ## Field access -/

theorem resolveFieldIndex_eq (env : Env) (m : Method) (index : Nat) (c : Class) (i : Nat)
    (hclass : env.classes[m.classRef]? = some c)
    (hpool : c.constantPool[index]? = some (.fieldref i)) :
    resolveFieldIndex env m index = .ok i := by
  unfold resolveFieldIndex
  simp [hclass, hpool]

theorem getElem?_set_object (heap : Heap) (a : Nat) (o1 : j_object) (h : a < heap.length) :
    (heap.set a o1)[a]? = some o1 := by
  simp [List.getElem?_set, h]

/-- C17. Field access round trip.  The constant-pool entry `index` of the frame's
class resolves to field slot `i`, and `i` lies within the field storage of the
object `o` at address `objectref`.  Then `putField(objectref, index, v)`
succeeds, and a following `getField(objectref, index)` returns `v`.  `putField`
leaves the frame as it is and changes the heap only in slot `i` of that object:
its class, the number of its fields and its other slots are kept, and so is
every other object.  `getField` leaves frame and heap as they are. -/
theorem field_access_round_trip (this : StackFrame) (env : Env) (heap : Heap)
    (objectref index i : Nat) (c : Class) (o : j_object) (v : j_any)
    (hclass : env.classes[this.method.classRef]? = some c)
    (hpool : c.constantPool[index]? = some (.fieldref i))
    (hobj : heap[objectref]? = some o)
    (hslot : i < o.fields.length) :
    ∃ heap1 o1,
      this.putField env heap objectref index v = .ok (this, heap1) ∧
      this.getField env heap1 objectref index = .ok (v, this, heap1) ∧
      heap1[objectref]? = some o1 ∧
      o1.fields[i]? = some v ∧
      o1.classRef = o.classRef ∧ o1.fields.length = o.fields.length ∧
      (∀ k, k ≠ i → o1.fields[k]? = o.fields[k]?) ∧
      (∀ a, a ≠ objectref → heap1[a]? = heap[a]?) ∧
      heap1.length = heap.length ∧
      ∃ old, this.getField env heap objectref index = .ok (old, this, heap) ∧
        o.fields[i]? = some old := by
  have hres := resolveFieldIndex_eq env this.method index c i hclass hpool
  have haddr : objectref < heap.length := by
    by_contra hc
    rw [List.getElem?_eq_none (by omega)] at hobj
    exact Option.noConfusion hobj
  refine ⟨heap.set objectref { o with fields := o.fields.set i v },
    { o with fields := o.fields.set i v }, ?_, ?_, getElem?_set_object _ _ _ haddr,
    getElem?_set_length _ _ _ hslot, rfl, by simp, ?_, ?_, by simp, ?_⟩
  · unfold StackFrame.putField
    simp only [hres, hobj, hslot, if_true]
  · unfold StackFrame.getField
    simp only [hres, getElem?_set_object _ _ _ haddr, getElem?_set_length _ _ _ hslot]
  · intro k hk
    simp only
    rw [List.getElem?_set_ne (Ne.symm hk)]
  · intro a ha
    rw [List.getElem?_set_ne (Ne.symm ha)]
  · refine ⟨o.fields[i], ?_, List.getElem?_eq_getElem hslot⟩
    unfold StackFrame.getField
    simp only [hres, hobj, List.getElem?_eq_getElem hslot]

/-- C17 at a concrete object: the constant-pool entry 7 of `A` is field slot 1; the
object holds 10, 20, 30, and 99 is written. -/
theorem field_access_round_trip_witness :
    ∃ heap1 o1,
      Demo.mainFrame.putField Demo.env Demo.heapFields 0 7 (j_any.prim 99) =
        .ok (Demo.mainFrame, heap1) ∧
      Demo.mainFrame.getField Demo.env heap1 0 7 = .ok (j_any.prim 99, Demo.mainFrame, heap1) ∧
      heap1[0]? = some o1 ∧
      o1.fields[1]? = some (j_any.prim 99) ∧
      o1.classRef = (j_object.mk 1 [j_any.prim 10, j_any.prim 20, j_any.prim 30]).classRef ∧
      o1.fields.length =
        (j_object.mk 1 [j_any.prim 10, j_any.prim 20, j_any.prim 30]).fields.length ∧
      (∀ k, k ≠ 1 → o1.fields[k]? =
        (j_object.mk 1 [j_any.prim 10, j_any.prim 20, j_any.prim 30]).fields[k]?) ∧
      (∀ a, a ≠ 0 → heap1[a]? = Demo.heapFields[a]?) ∧
      heap1.length = Demo.heapFields.length ∧
      ∃ old, Demo.mainFrame.getField Demo.env Demo.heapFields 0 7 =
          .ok (old, Demo.mainFrame, Demo.heapFields) ∧
        (j_object.mk 1 [j_any.prim 10, j_any.prim 20, j_any.prim 30]).fields[1]? = some old :=
  field_access_round_trip Demo.mainFrame Demo.env Demo.heapFields 0 7 1 Demo.classA
    (j_object.mk 1 [j_any.prim 10, j_any.prim 20, j_any.prim 30]) (j_any.prim 99)
    rfl rfl rfl (by decide)

/-! ## What a dispatcher has done when it created a frame -/

theorem Thread.peekFrame_inv (t : Thread) (f : StackFrame) (h : t.peekFrame = .ok f) :
    ∃ below, t.vmStack = below ++ [f] := by
  unfold Thread.peekFrame at h
  simp only at h
  split at h
  · exact Except.noConfusion h
  · rename_i g hg
    injection h with h
    subst h
    have hne : t.vmStack ≠ [] := by
      intro hnil
      rw [hnil] at hg
      simp at hg
    refine ⟨t.vmStack.dropLast, ?_⟩
    have hlast : t.vmStack.getLast? = some g := by
      rw [List.getLast?_eq_getElem?]
      exact hg
    have hl : t.vmStack.getLast hne = g := by
      rw [List.getLast?_eq_getLast _ hne] at hlast
      injection hlast
    rw [← hl]
    exact (List.dropLast_append_getLast hne).symm

theorem StackFrame.pop_toList (f f1 : StackFrame) (v : j_any) (h : f.pop = .ok (v, f1)) :
    f1.method = f.method ∧ f1.pc = f.pc ∧ f1.localVariables = f.localVariables ∧
      f1.operandStack.len + 1 = f.operandStack.len ∧
      f1.operandStack.toList = f.operandStack.toList.take f1.operandStack.len := by
  unfold StackFrame.pop at h
  simp only at h
  split at h
  · exact Except.noConfusion h
  · rename_i hne
    split at h
    · exact Except.noConfusion h
    · injection h with h
      injection h with _ h
      rw [← h]
      refine ⟨rfl, rfl, rfl, ?_, ?_⟩
      · show f.operandStack.len - 1 + 1 = f.operandStack.len
        omega
      · show (f.operandStack.arr.set (f.operandStack.len - 1) j_any.null).take
            (f.operandStack.len - 1) =
          (f.operandStack.arr.take f.operandStack.len).take (f.operandStack.len - 1)
        rw [take_set_same, List.take_take, Nat.min_eq_left (Nat.sub_le _ _)]

theorem popParams_inv : ∀ (n : Nat) (f f1 : StackFrame) (params params1 : List j_any),
    popParams n f params = .done f1 params1 →
    f1.method = f.method ∧ f1.pc = f.pc ∧ f1.localVariables = f.localVariables ∧
      f1.operandStack.len + n = f.operandStack.len ∧
      f1.operandStack.toList = f.operandStack.toList.take f1.operandStack.len := by
  intro n
  induction n with
  | zero =>
    intro f f1 params params1 h
    simp only [popParams] at h
    injection h with h1 _
    subst h1
    refine ⟨rfl, rfl, rfl, rfl, ?_⟩
    simp [Slice.toList]
  | succ n ih =>
    intro f f1 params params1 h
    simp only [popParams] at h
    split at h
    · exact PopResult.noConfusion h
    · rename_i v f0 hpop
      obtain ⟨a1, a2, a3, a4, a5⟩ := StackFrame.pop_toList f f0 v hpop
      obtain ⟨b1, b2, b3, b4, b5⟩ := ih f0 f1 _ params1 h
      refine ⟨b1.trans a1, b2.trans a2, b3.trans a3, by omega, ?_⟩
      rw [b5, a5, List.take_take, Nat.min_eq_left (by omega)]

theorem StackFrame.storeVar_inv (frame frame1 : StackFrame) (j : Nat) (v : j_any)
    (h : frame.storeVar j v = .ok frame1) :
    frame1.method = frame.method ∧ frame1.pc = frame.pc ∧
      frame1.operandStack = frame.operandStack := by
  unfold StackFrame.storeVar at h
  split at h
  · injection h with h
    rw [← h]
    exact ⟨rfl, rfl, rfl⟩
  · exact Except.noConfusion h

theorem storeParamsDown_inv (params : List j_any) : ∀ (n : Nat) (frame frame1 : StackFrame),
    storeParamsDown n frame params = .ok frame1 →
    frame1.method = frame.method ∧ frame1.pc = frame.pc ∧
      frame1.operandStack = frame.operandStack := by
  intro n
  induction n with
  | zero =>
    intro frame frame1 h
    simp only [storeParamsDown] at h
    injection h with h
    rw [← h]
    exact ⟨rfl, rfl, rfl⟩
  | succ n ih =>
    intro frame frame1 h
    simp only [storeParamsDown] at h
    split at h
    · exact Except.noConfusion h
    · split at h
      · exact Except.noConfusion h
      · rename_i fr hs
        obtain ⟨a1, a2, a3⟩ := StackFrame.storeVar_inv _ _ _ _ hs
        obtain ⟨b1, b2, b3⟩ := ih fr frame1 h
        exact ⟨b1.trans a1, b2.trans a2, b3.trans a3⟩

theorem storeParamsUp_inv (params : List j_any) : ∀ (n j : Nat) (frame frame1 : StackFrame),
    storeParamsUp n j frame params = .ok frame1 →
    frame1.method = frame.method ∧ frame1.pc = frame.pc ∧
      frame1.operandStack = frame.operandStack := by
  intro n
  induction n with
  | zero =>
    intro j frame frame1 h
    simp only [storeParamsUp] at h
    injection h with h
    rw [← h]
    exact ⟨rfl, rfl, rfl⟩
  | succ n ih =>
    intro j frame frame1 h
    simp only [storeParamsUp] at h
    split at h
    · exact Except.noConfusion h
    · split at h
      · exact Except.noConfusion h
      · rename_i fr hs
        obtain ⟨a1, a2, a3⟩ := StackFrame.storeVar_inv _ _ _ _ hs
        obtain ⟨b1, b2, b3⟩ := ih (j + 1) fr frame1 h
        exact ⟨b1.trans a1, b2.trans a2, b3.trans a3⟩

theorem pushFrame_step_inv (s s1 : VMState) (below : List StackFrame)
    (f f1 frame : StackFrame) (hstack : s.thread.vmStack = below ++ [f])
    (h : (match (s.thread.setTop f1).pushFrame frame with
      | .error e => Outcome.failed e (s.withTop f1)
      | .ok t => Outcome.returned { s with thread := t }) = .returned s1) :
    s1 = s.withStack (below ++ [f1, frame]) := by
  rw [pushFrame_step s below f f1 frame hstack] at h
  split at h
  · exact (Outcome.returned_inj _ _ h).symm
  · exact Outcome.noConfusion h

theorem invokeStaticMethod_created (env : Env) (index : Nat) (s s1 : VMState)
    (h : invokeStaticMethod env index s = .returned s1)
    (hgrow : s1.thread.vmStack.length = s.thread.vmStack.length + 1) :
    ∃ below f method f1 params frame,
      s.thread.vmStack = below ++ [f] ∧
      resolveMethod env f.method index = .ok method ∧
      popParams method.methodType.parameterTypes.length f
        (List.replicate method.methodType.parameterTypes.length j_any.null) =
        .done f1 params ∧
      storeParamsDown method.methodType.parameterTypes.length (NewStackFrame method) params =
        .ok frame ∧
      s1 = s.withStack (below ++ [f1, frame]) := by
  unfold invokeStaticMethod at h
  split at h
  · exact Outcome.noConfusion h
  · rename_i f hpeek
    obtain ⟨below, hstack⟩ := Thread.peekFrame_inv _ f hpeek
    split at h
    · exact Outcome.noConfusion h
    · rename_i method hres
      simp only at h
      split at h
      · exact Outcome.noConfusion h
      · rename_i f1 params hpop
        split at h
        · have := bridgeAndPush_length env s s1 _ _ _ h
          omega
        · split at h
          · exact Outcome.noConfusion h
          · rename_i frame hstore
            exact ⟨below, f, method, f1, params, frame, hstack, hres, hpop, hstore,
              pushFrame_step_inv s s1 below f f1 frame hstack h⟩

theorem invokeSpecialMethod_created (env : Env) (index : Nat) (s s1 : VMState)
    (h : invokeSpecialMethod env index s = .returned s1)
    (hgrow : s1.thread.vmStack.length = s.thread.vmStack.length + 1) :
    ∃ below f method f1 params frame,
      s.thread.vmStack = below ++ [f] ∧
      resolveMethod env f.method index = .ok method ∧
      popParams (method.methodType.parameterTypes.length + 1) f
        (List.replicate (method.methodType.parameterTypes.length + 1) j_any.null) =
        .done f1 params ∧
      storeParamsUp (method.methodType.parameterTypes.length + 1) 0 (NewStackFrame method)
        params = .ok frame ∧
      s1 = s.withStack (below ++ [f1, frame]) := by
  unfold invokeSpecialMethod at h
  split at h
  · exact Outcome.noConfusion h
  · rename_i f hpeek
    obtain ⟨below, hstack⟩ := Thread.peekFrame_inv _ f hpeek
    split at h
    · exact Outcome.noConfusion h
    · rename_i method hres
      simp only at h
      split at h
      · exact Outcome.noConfusion h
      · rename_i f1 params hpop
        split at h
        · have := bridgeAndPush_length env s s1 _ _ _ h
          omega
        · split at h
          · exact Outcome.noConfusion h
          · rename_i frame hstore
            exact ⟨below, f, method, f1, params, frame, hstack, hres, hpop, hstore,
              pushFrame_step_inv s s1 below f f1 frame hstack h⟩

theorem invokeVitrualMethod_created (env : Env) (index : Nat) (s s1 : VMState)
    (h : invokeVitrualMethod env index s = .returned s1)
    (hgrow : s1.thread.vmStack.length = s.thread.vmStack.length + 1) :
    ∃ below f method overridenMethod f1 params frame,
      s.thread.vmStack = below ++ [f] ∧
      resolveMethod env f.method index = .ok method ∧
      popParams (method.methodType.parameterTypes.length + 1) f
        (List.replicate (method.methodType.parameterTypes.length + 1) j_any.null) =
        .done f1 params ∧
      findOverride env s.heap method params = .ok overridenMethod ∧
      storeParamsUp (method.methodType.parameterTypes.length + 1) 0
        (NewStackFrame overridenMethod) params = .ok frame ∧
      s1 = s.withStack (below ++ [f1, frame]) := by
  unfold invokeVitrualMethod at h
  split at h
  · exact Outcome.noConfusion h
  · rename_i f hpeek
    obtain ⟨below, hstack⟩ := Thread.peekFrame_inv _ f hpeek
    split at h
    · exact Outcome.noConfusion h
    · rename_i method hres
      split at h
      · exact Outcome.noConfusion h
      · simp only at h
        split at h
        · exact Outcome.noConfusion h
        · rename_i f1 params hpop
          split at h
          · exact Outcome.noConfusion h
          · rename_i overridenMethod hfind
            split at h
            · have := bridgeAndPush_length env s s1 _ _ _ h
              omega
            · split at h
              · exact Outcome.noConfusion h
              · rename_i frame hstore
                exact ⟨below, f, method, overridenMethod, f1, params, frame, hstack, hres,
                  hpop, hfind, hstore, pushFrame_step_inv s s1 below f f1 frame hstack h⟩

theorem created_frame_effect (s s1 : VMState) (below : List StackFrame)
    (f f1 frame frame0 : StackFrame) (n : Nat) (params params1 : List j_any)
    (hstack : s.thread.vmStack = below ++ [f])
    (hpop : popParams n f params = .done f1 params1)
    (hframe : frame.method = frame0.method ∧ frame.pc = frame0.pc ∧
      frame.operandStack = frame0.operandStack)
    (hnew : frame0.pc = 0 ∧ frame0.operandStack.len = 0)
    (hs1 : s1 = s.withStack (below ++ [f1, frame])) :
    ∃ below f caller callee,
      s.thread.vmStack = below ++ [f] ∧
      s1 = s.withStack (below ++ [caller, callee]) ∧
      s1.thread.vmStack = below ++ [caller, callee] ∧
      callee.pc = 0 ∧ callee.operandStack.len = 0 ∧ callee.operandStack.toList = [] ∧
      caller.pc = f.pc ∧ caller.method = f.method ∧
      caller.localVariables = f.localVariables ∧
      caller.operandStack.len ≤ f.operandStack.len ∧
      caller.operandStack.toList = f.operandStack.toList.take caller.operandStack.len := by
  obtain ⟨a1, a2, a3, a4, a5⟩ := popParams_inv n f f1 params params1 hpop
  obtain ⟨_, b2, b3⟩ := hframe
  refine ⟨below, f, f1, frame, hstack, hs1, by rw [hs1]; rfl, b2.trans hnew.1, ?_, ?_,
    a2, a1, a3, by omega, a5⟩
  · rw [b3]
    exact hnew.2
  · rw [b3]
    simp [Slice.toList, hnew.2]

/-- C16. Frame effect of a dispatch.  A returning call of `invokeStaticMethod`,
`invokeVitrualMethod` or `invokeSpecialMethod` leaves the number of frames as it
was (the native bridge was taken) or makes it one more (a frame was created).
When a frame was created, the call stack is the previous one with the caller
replaced and one new frame on top; heap and thread are otherwise as before.
The new frame has pc 0 and an empty operand stack.  The frame below it has
the caller's pc, method and local variables, and its operand stack is an initial
part of the caller's former operand stack; the frames below the caller are as
they were. -/
theorem dispatch_frame_effect (env : Env) (index : Nat) (s s1 : VMState)
    (hcall : invokeStaticMethod env index s = .returned s1 ∨
      invokeVitrualMethod env index s = .returned s1 ∨
      invokeSpecialMethod env index s = .returned s1) :
    (s1.thread.vmStack.length = s.thread.vmStack.length ∨
      s1.thread.vmStack.length = s.thread.vmStack.length + 1) ∧
    (s1.thread.vmStack.length = s.thread.vmStack.length + 1 →
      ∃ below f caller callee,
        s.thread.vmStack = below ++ [f] ∧
        s1 = s.withStack (below ++ [caller, callee]) ∧
        s1.thread.vmStack = below ++ [caller, callee] ∧
        callee.pc = 0 ∧ callee.operandStack.len = 0 ∧ callee.operandStack.toList = [] ∧
        caller.pc = f.pc ∧ caller.method = f.method ∧
        caller.localVariables = f.localVariables ∧
        caller.operandStack.len ≤ f.operandStack.len ∧
        caller.operandStack.toList =
          f.operandStack.toList.take caller.operandStack.len) := by
  have hnew : ∀ m : Method, (NewStackFrame m).pc = 0 ∧ (NewStackFrame m).operandStack.len = 0 :=
    fun m => ⟨rfl, rfl⟩
  constructor
  · rcases hcall with h | h | h
    · rcases invokeStaticMethod_length env index s s1 h with h1 | ⟨h1, _⟩
      · exact Or.inl h1
      · exact Or.inr h1
    · rcases invokeVitrualMethod_length env index s s1 h with h1 | ⟨h1, _⟩
      · exact Or.inl h1
      · exact Or.inr h1
    · rcases invokeSpecialMethod_length env index s s1 h with h1 | ⟨h1, _⟩
      · exact Or.inl h1
      · exact Or.inr h1
  · intro hgrow
    rcases hcall with h | h | h
    · obtain ⟨below, f, method, f1, params, frame, hstack, _, hpop, hstore, hs1⟩ :=
        invokeStaticMethod_created env index s s1 h hgrow
      exact created_frame_effect s s1 below f f1 frame (NewStackFrame method) _ _ params hstack
        hpop (storeParamsDown_inv params _ _ _ hstore) (hnew method) hs1
    · obtain ⟨below, f, method, overridenMethod, f1, params, frame, hstack, _, hpop, _, hstore,
        hs1⟩ := invokeVitrualMethod_created env index s s1 h hgrow
      exact created_frame_effect s s1 below f f1 frame (NewStackFrame overridenMethod) _ _ params
        hstack hpop (storeParamsUp_inv params _ _ _ _ hstore) (hnew overridenMethod) hs1
    · obtain ⟨below, f, method, f1, params, frame, hstack, _, hpop, hstore, hs1⟩ :=
        invokeSpecialMethod_created env index s s1 h hgrow
      exact created_frame_effect s s1 below f f1 frame (NewStackFrame method) _ _ params hstack
        hpop (storeParamsUp_inv params _ _ _ _ hstore) (hnew method) hs1

/-- C16 at a concrete call: `main` calls `add(8, 9)`; the stack grows from one frame
to two. -/
theorem dispatch_frame_effect_witness :
    ∃ below f caller callee,
      Demo.state.thread.vmStack = below ++ [f] ∧
      Demo.state.withStack [Demo.mainFrame.afterPops 2,
          calleeFrame Demo.addMethod [j_any.prim 8, j_any.prim 9]] =
        Demo.state.withStack (below ++ [caller, callee]) ∧
      (Demo.state.withStack [Demo.mainFrame.afterPops 2,
          calleeFrame Demo.addMethod [j_any.prim 8, j_any.prim 9]]).thread.vmStack =
        below ++ [caller, callee] ∧
      callee.pc = 0 ∧ callee.operandStack.len = 0 ∧ callee.operandStack.toList = [] ∧
      caller.pc = f.pc ∧ caller.method = f.method ∧
      caller.localVariables = f.localVariables ∧
      caller.operandStack.len ≤ f.operandStack.len ∧
      caller.operandStack.toList = f.operandStack.toList.take caller.operandStack.len :=
  (dispatch_frame_effect Demo.env 0 Demo.state
    (Demo.state.withStack [Demo.mainFrame.afterPops 2,
      calleeFrame Demo.addMethod [j_any.prim 8, j_any.prim 9]])
    (Or.inl (by decide))).2 (by decide)

/-! ## `passParameters` and the buffer of the dispatchers -/

theorem StackFrame.pop_error_kind (f : StackFrame) (e : Failure) (h : f.pop = .error e) :
    e = .indexOutOfRange := by
  unfold StackFrame.pop at h
  simp only at h
  split at h
  · injection h with h
    exact h.symm
  · split at h
    · injection h with h
      exact h.symm
    · exact Except.noConfusion h

theorem popParams_failed_kind : ∀ (n : Nat) (f f1 : StackFrame) (params : List j_any)
    (e : Failure), popParams n f params = .failed e f1 → e = .indexOutOfRange := by
  intro n
  induction n with
  | zero =>
    intro f f1 params e h
    simp only [popParams] at h
    exact PopResult.noConfusion h
  | succ n ih =>
    intro f f1 params e h
    simp only [popParams] at h
    split at h
    · rename_i e0 hpop
      injection h with h _
      rw [← h]
      exact StackFrame.pop_error_kind f e0 hpop
    · exact ih _ _ _ _ h

theorem take_set_below (l : List j_any) (v : j_any) :
    ∀ j k, k ≤ j → (l.set j v).take k = l.take k := by
  induction l with
  | nil => intro j k _; simp
  | cons x xs ih =>
    intro j k h
    cases k with
    | zero => simp
    | succ k1 =>
      cases j with
      | zero => omega
      | succ j1 => simp [ih j1 k1 (by omega)]

theorem popParams_done_params : ∀ (n : Nat) (f f1 : StackFrame) (params params1 : List j_any),
    n ≤ params.length → popParams n f params = .done f1 params1 →
    params1.length = params.length ∧ params1.drop n = params.drop n := by
  intro n
  induction n with
  | zero =>
    intro f f1 params params1 _ h
    simp only [popParams] at h
    injection h with _ h2
    subst h2
    exact ⟨rfl, rfl⟩
  | succ n ih =>
    intro f f1 params params1 hn h
    simp only [popParams] at h
    split at h
    · exact PopResult.noConfusion h
    · rename_i v f0 _
      obtain ⟨h1, h2⟩ := ih f0 f1 (params.set n v) params1
        (by simp only [List.length_set]; omega) h
      rw [List.length_set] at h1
      refine ⟨h1, ?_⟩
      rw [drop_set_same params v n (by omega)] at h2
      have : params1.drop (n + 1) = (params1.drop n).drop 1 := by
        rw [List.drop_drop, Nat.add_comm]
      rw [this, h2]
      rfl

theorem passLoop_of_done : ∀ (n last : Nat) (this callee f1 : StackFrame)
    (params params1 : List j_any),
    last + n ≤ callee.localVariables.length → n ≤ params.length →
    popParams n this params = .done f1 params1 →
    passLoop n last this callee =
      .ok (f1, { callee with
        localVariables :=
          callee.localVariables.take last ++ params1.take n ++
            callee.localVariables.drop (last + n) }) := by
  intro n
  induction n with
  | zero =>
    intro last this callee f1 params params1 _ _ h
    simp only [popParams] at h
    injection h with h1 _
    subst h1
    simp [passLoop]
  | succ n ih =>
    intro last this callee f1 params params1 hb hn h
    simp only [popParams] at h
    split at h
    · exact PopResult.noConfusion h
    · rename_i v f0 hpop
      have hlt : last + n < callee.localVariables.length := by omega
      obtain ⟨hlen1, hdrop⟩ := popParams_done_params n f0 f1 (params.set n v) params1
        (by simp only [List.length_set]; omega) h
      rw [drop_set_same params v n (by omega)] at hdrop
      have hv : params1[n]? = some v := by
        have := congrArg (fun l => l[0]?) hdrop
        simpa using this
      simp only [passLoop, hpop, StackFrame.storeVar, hlt, if_true]
      rw [ih last f0 _ f1 (params.set n v) params1
        (by simp only [List.length_set]; omega) (by simp only [List.length_set]; omega) h]
      simp only [take_set_below _ v (last + n) last (by omega), drop_set_same _ v (last + n) hlt]
      rw [List.take_succ, hv]
      simp [Nat.add_assoc]

theorem passLoop_of_failed : ∀ (n last : Nat) (this callee f1 : StackFrame)
    (params : List j_any) (e : Failure),
    last + n ≤ callee.localVariables.length →
    popParams n this params = .failed e f1 →
    passLoop n last this callee = .error e := by
  intro n
  induction n with
  | zero =>
    intro last this callee f1 params e _ h
    simp only [popParams] at h
    exact PopResult.noConfusion h
  | succ n ih =>
    intro last this callee f1 params e hb h
    simp only [popParams] at h
    split at h
    · rename_i e0 hpop
      injection h with h _
      simp only [passLoop, hpop, h]
    · rename_i v f0 hpop
      have hlt : last + n < callee.localVariables.length := by omega
      simp only [passLoop, hpop, StackFrame.storeVar, hlt, if_true]
      exact ih last f0 _ f1 _ e (by simp only [List.length_set]; omega) h

theorem passLoop_overflow (n last : Nat) (this callee : StackFrame)
    (hb : callee.localVariables.length < last + n) (hn : 0 < n) :
    passLoop n last this callee = .error .indexOutOfRange := by
  cases n with
  | zero => omega
  | succ k =>
    simp only [passLoop]
    cases hpop : this.pop with
    | error e =>
      simp only
      rw [StackFrame.pop_error_kind this e hpop]
    | ok r =>
      obtain ⟨v, f0⟩ := r
      have hlt : ¬ (last + k < callee.localVariables.length) := by omega
      simp only [StackFrame.storeVar, hlt, if_false]

theorem passLoop_shift : ∀ (n : Nat) (this callee : StackFrame),
    (match passLoop n 1 this callee with
      | .error e => Except.error e
      | .ok (this1, callee1) =>
        match this1.pop with
        | .error e => .error e
        | .ok (v, this2) =>
          match callee1.storeVar 0 v with
          | .error e => .error e
          | .ok callee2 => .ok (this2, callee2)) = passLoop (n + 1) 0 this callee := by
  intro n
  induction n with
  | zero =>
    intro this callee
    simp only [passLoop]
  | succ n ih =>
    intro this callee
    rw [passLoop, passLoop]
    cases this.pop with
    | error e => rfl
    | ok r =>
      obtain ⟨v, f0⟩ := r
      simp only
      have hidx : 1 + n = 0 + (n + 1) := by omega
      rw [hidx]
      cases callee.storeVar (0 + (n + 1)) v with
      | error e => rfl
      | ok c1 =>
        simp only
        exact ih f0 c1

theorem passLoop_eq_bufferPassStatic (this : StackFrame) (method : Method) :
    passLoop method.methodType.parameterTypes.length 0 this (NewStackFrame method) =
      bufferPassStatic this method := by
  unfold bufferPassStatic
  simp only
  have hlocals : (NewStackFrame method).localVariables.length = method.maxLocals := by
    simp [NewStackFrame]
  by_cases hl : method.methodType.parameterTypes.length ≤ method.maxLocals
  · cases hp : popParams method.methodType.parameterTypes.length this
        (List.replicate method.methodType.parameterTypes.length j_any.null) with
    | failed e f1 =>
      simp only
      exact passLoop_of_failed _ 0 this _ f1 _ e (by rw [hlocals]; omega) hp
    | done f1 params1 =>
      obtain ⟨hlen, _⟩ := popParams_done_params _ this f1 _ params1 (by simp) hp
      rw [List.length_replicate] at hlen
      simp only
      rw [storeParamsDown_eq params1 _ _ (by omega), hlocals]
      simp only [hl, if_true]
      rw [passLoop_of_done _ 0 this _ f1 _ params1 (by rw [hlocals]; omega) (by simp) hp]
      simp
  · have hover := passLoop_overflow method.methodType.parameterTypes.length 0 this
      (NewStackFrame method) (by rw [hlocals]; omega) (by omega)
    rw [hover]
    cases hp : popParams method.methodType.parameterTypes.length this
        (List.replicate method.methodType.parameterTypes.length j_any.null) with
    | failed e f1 =>
      simp only
      rw [popParams_failed_kind _ _ _ _ e hp]
    | done f1 params1 =>
      obtain ⟨hlen, _⟩ := popParams_done_params _ this f1 _ params1 (by simp) hp
      rw [List.length_replicate] at hlen
      simp only
      rw [storeParamsDown_eq params1 _ _ (by omega), hlocals]
      simp only [hl, if_false]

theorem passLoop_eq_bufferPassSpecial (this : StackFrame) (method : Method) :
    passLoop (method.methodType.parameterTypes.length + 1) 0 this (NewStackFrame method) =
      bufferPassSpecial this method := by
  unfold bufferPassSpecial
  simp only
  have hlocals : (NewStackFrame method).localVariables.length = method.maxLocals := by
    simp [NewStackFrame]
  by_cases hl : method.methodType.parameterTypes.length + 1 ≤ method.maxLocals
  · cases hp : popParams (method.methodType.parameterTypes.length + 1) this
        (List.replicate (method.methodType.parameterTypes.length + 1) j_any.null) with
    | failed e f1 =>
      simp only
      exact passLoop_of_failed _ 0 this _ f1 _ e (by rw [hlocals]; omega) hp
    | done f1 params1 =>
      obtain ⟨hlen, _⟩ := popParams_done_params _ this f1 _ params1 (by simp) hp
      rw [List.length_replicate] at hlen
      simp only
      rw [storeParamsUp_eq params1 _ 0 _ (by omega) (Nat.zero_le _), hlocals]
      simp only [Nat.zero_add, hl, if_true]
      rw [passLoop_of_done _ 0 this _ f1 _ params1 (by rw [hlocals]; omega) (by simp) hp]
      simp
  · have hover := passLoop_overflow (method.methodType.parameterTypes.length + 1) 0 this
      (NewStackFrame method) (by rw [hlocals]; omega) (by omega)
    rw [hover]
    cases hp : popParams (method.methodType.parameterTypes.length + 1) this
        (List.replicate (method.methodType.parameterTypes.length + 1) j_any.null) with
    | failed e f1 =>
      simp only
      rw [popParams_failed_kind _ _ _ _ e hp]
    | done f1 params1 =>
      obtain ⟨hlen, _⟩ := popParams_done_params _ this f1 _ params1 (by simp) hp
      rw [List.length_replicate] at hlen
      simp only
      rw [storeParamsUp_eq params1 _ 0 _ (by omega) (Nat.zero_le _), hlocals]
      simp only [Nat.zero_add, hl, if_false]

theorem passParameters_static (this : StackFrame) (method : Method)
    (h : method.isStatic = true) :
    this.passParameters (NewStackFrame method) = bufferPassStatic this method := by
  rw [← passLoop_eq_bufferPassStatic]
  unfold StackFrame.passParameters
  have hm : (NewStackFrame method).method = method := rfl
  simp only [hm, h, if_true]

theorem passParameters_instance (this : StackFrame) (method : Method)
    (h : method.isStatic = false) :
    this.passParameters (NewStackFrame method) = bufferPassSpecial this method := by
  rw [← passLoop_eq_bufferPassSpecial, ← passLoop_shift]
  unfold StackFrame.passParameters
  have hm : (NewStackFrame method).method = method := rfl
  simp only [hm, h, Bool.false_eq_true, if_false]

theorem bufferPassStatic_eq (f : StackFrame) (method : Method) (stack args : List j_any)
    (hwf : f.operandStack.wf) (hops : f.operandStack.toList = stack ++ args)
    (hcount : method.methodType.parameterTypes.length = args.length)
    (hlocals : args.length ≤ method.maxLocals) :
    bufferPassStatic f method = .ok (f.afterPops args.length, calleeFrame method args) := by
  obtain ⟨harr, hlen⟩ := Slice.arr_eq_of_toList _ _ hwf hops
  rw [List.length_append] at hlen
  unfold bufferPassStatic
  simp only [hcount]
  rw [popParams_eq args f stack _ _ harr hlen (by simp)]
  simp only [List.length_replicate, List.drop_replicate, Nat.sub_self, List.replicate_zero,
    List.append_nil]
  rw [storeParamsDown_eq args args.length _ (Nat.le_refl _),
    ← StackFrame.afterPops_eq f stack args _ harr hlen]
  simp [NewStackFrame, hlocals, calleeFrame]

theorem bufferPassSpecial_eq (f : StackFrame) (method : Method) (stack args : List j_any)
    (hwf : f.operandStack.wf) (hops : f.operandStack.toList = stack ++ args)
    (hcount : method.methodType.parameterTypes.length + 1 = args.length)
    (hlocals : args.length ≤ method.maxLocals) :
    bufferPassSpecial f method = .ok (f.afterPops args.length, calleeFrame method args) := by
  obtain ⟨harr, hlen⟩ := Slice.arr_eq_of_toList _ _ hwf hops
  rw [List.length_append] at hlen
  unfold bufferPassSpecial
  simp only [hcount]
  rw [popParams_eq args f stack _ _ harr hlen (by simp)]
  simp only [List.length_replicate, List.drop_replicate, Nat.sub_self, List.replicate_zero,
    List.append_nil]
  rw [storeParamsUp_eq args args.length 0 _ (by omega) (Nat.zero_le _),
    ← StackFrame.afterPops_eq f stack args _ harr hlen]
  simp [NewStackFrame, hlocals, calleeFrame]

/-- C19. `passParameters` agrees with the argument passing of the dispatchers.
For a new frame of a static method it yields exactly what the buffer sequence
of `invokeStaticMethod` yields, and for a new frame of an instance method
exactly what the buffer sequence of `invokeSpecialMethod` yields: the same
caller, the same callee, and failure in the same cases.  With the caller's
operand stack `stack ++ args` (receiver first for an instance method) and
enough local slots, the caller is left with `stack` and the callee's local
slot `j` holds `args[j]`: push order, receiver in slot 0.  Whenever
`invokeStaticMethod` (`invokeSpecialMethod`) has created a frame for a static
(instance) method, caller and new frame on the call stack are the two frames
`passParameters` yields for the old caller and a new frame of that method. -/
theorem passParameters_agrees_with_dispatchers :
    (∀ (caller : StackFrame) (method : Method), method.isStatic = true →
      caller.passParameters (NewStackFrame method) = bufferPassStatic caller method) ∧
    (∀ (caller : StackFrame) (method : Method), method.isStatic = false →
      caller.passParameters (NewStackFrame method) = bufferPassSpecial caller method) ∧
    (∀ (caller : StackFrame) (method : Method) (stack args : List j_any),
      method.isStatic = true → caller.operandStack.wf →
      caller.operandStack.toList = stack ++ args →
      method.methodType.parameterTypes.length = args.length →
      args.length ≤ method.maxLocals →
      caller.passParameters (NewStackFrame method) =
          .ok (caller.afterPops args.length, calleeFrame method args) ∧
        (caller.afterPops args.length).operandStack.toList = stack ∧
        ∀ j a, args[j]? = some a → (calleeFrame method args).loadVar j = .ok a) ∧
    (∀ (caller : StackFrame) (method : Method) (stack args : List j_any) (receiver : j_any),
      method.isStatic = false → caller.operandStack.wf →
      caller.operandStack.toList = stack ++ receiver :: args →
      method.methodType.parameterTypes.length = args.length →
      args.length + 1 ≤ method.maxLocals →
      caller.passParameters (NewStackFrame method) =
          .ok (caller.afterPops (args.length + 1), calleeFrame method (receiver :: args)) ∧
        (caller.afterPops (args.length + 1)).operandStack.toList = stack ∧
        (calleeFrame method (receiver :: args)).loadVar 0 = .ok receiver ∧
        ∀ j a, args[j]? = some a →
          (calleeFrame method (receiver :: args)).loadVar (j + 1) = .ok a) ∧
    (∀ (env : Env) (index : Nat) (s s1 : VMState),
      invokeStaticMethod env index s = .returned s1 →
      s1.thread.vmStack.length = s.thread.vmStack.length + 1 →
      ∃ below f method f1 frame,
        s.thread.vmStack = below ++ [f] ∧
        resolveMethod env f.method index = .ok method ∧
        bufferPassStatic f method = .ok (f1, frame) ∧
        s1 = s.withStack (below ++ [f1, frame]) ∧
        (method.isStatic = true →
          f.passParameters (NewStackFrame method) = .ok (f1, frame))) ∧
    (∀ (env : Env) (index : Nat) (s s1 : VMState),
      invokeSpecialMethod env index s = .returned s1 →
      s1.thread.vmStack.length = s.thread.vmStack.length + 1 →
      ∃ below f method f1 frame,
        s.thread.vmStack = below ++ [f] ∧
        resolveMethod env f.method index = .ok method ∧
        bufferPassSpecial f method = .ok (f1, frame) ∧
        s1 = s.withStack (below ++ [f1, frame]) ∧
        (method.isStatic = false →
          f.passParameters (NewStackFrame method) = .ok (f1, frame))) := by
  refine ⟨passParameters_static, passParameters_instance, ?_, ?_, ?_, ?_⟩
  · intro caller method stack args hs hwf hops hcount hlocals
    refine ⟨?_, StackFrame.afterPops_toList caller stack args hwf hops,
      fun j a h => calleeFrame_loadVar method args j a h⟩
    rw [passParameters_static caller method hs]
    exact bufferPassStatic_eq caller method stack args hwf hops hcount hlocals
  · intro caller method stack args receiver hs hwf hops hcount hlocals
    refine ⟨?_, ?_, calleeFrame_loadVar _ _ 0 _ (by simp),
      fun j a h => calleeFrame_loadVar _ _ (j + 1) _ (by simpa using h)⟩
    · rw [passParameters_instance caller method hs]
      exact bufferPassSpecial_eq caller method stack (receiver :: args) hwf hops
        (by simp [hcount]) (by simpa using hlocals)
    · simpa using StackFrame.afterPops_toList caller stack (receiver :: args) hwf hops
  · intro env index s s1 h hgrow
    obtain ⟨below, f, method, f1, params, frame, hstack, hres, hpop, hstore, hs1⟩ :=
      invokeStaticMethod_created env index s s1 h hgrow
    have hbuf : bufferPassStatic f method = .ok (f1, frame) := by
      unfold bufferPassStatic
      simp only [hpop, hstore]
    exact ⟨below, f, method, f1, frame, hstack, hres, hbuf, hs1,
      fun hs => by rw [passParameters_static f method hs, hbuf]⟩
  · intro env index s s1 h hgrow
    obtain ⟨below, f, method, f1, params, frame, hstack, hres, hpop, hstore, hs1⟩ :=
      invokeSpecialMethod_created env index s s1 h hgrow
    have hbuf : bufferPassSpecial f method = .ok (f1, frame) := by
      unfold bufferPassSpecial
      simp only [hpop, hstore]
    exact ⟨below, f, method, f1, frame, hstack, hres, hbuf, hs1,
      fun hs => by rw [passParameters_instance f method hs, hbuf]⟩

/-- C19 at concrete frames: `passParameters` from the frame with operands 7, 8, 9
into a new frame of the static `add(II)I`, and into a new frame of the instance
method `foo(I)V` from the frame with operands 7, a reference, 9. -/
theorem passParameters_agrees_with_dispatchers_witness :
    (Demo.mainFrame.passParameters (NewStackFrame Demo.addMethod) =
        .ok (Demo.mainFrame.afterPops [j_any.prim 8, j_any.prim 9].length,
          calleeFrame Demo.addMethod [j_any.prim 8, j_any.prim 9]) ∧
      (Demo.mainFrame.afterPops [j_any.prim 8, j_any.prim 9].length).operandStack.toList =
        [j_any.prim 7] ∧
      ∀ j a, [j_any.prim 8, j_any.prim 9][j]? = some a →
        (calleeFrame Demo.addMethod [j_any.prim 8, j_any.prim 9]).loadVar j = .ok a) ∧
    Demo.callFrame.passParameters (NewStackFrame Demo.fooA) =
      bufferPassSpecial Demo.callFrame Demo.fooA :=
  ⟨passParameters_agrees_with_dispatchers.2.2.1 Demo.mainFrame Demo.addMethod [j_any.prim 7]
      [j_any.prim 8, j_any.prim 9] rfl (by decide) rfl rfl (by decide),
    passParameters_agrees_with_dispatchers.2.1 Demo.callFrame Demo.fooA rfl⟩

/-! ## Virtual dispatch at full depth -/

theorem invokeVitrualMethod_native_with_interpreted_override (env : Env) (index : Nat)
    (s : VMState) (below : List StackFrame) (f : StackFrame) (c : Class)
    (method overridenMethod : Method) (stack args : List j_any)
    (hstack : s.thread.vmStack = below ++ [f])
    (hwf : f.operandStack.wf)
    (hops : f.operandStack.toList = stack ++ args)
    (hclass : env.classes[f.method.classRef]? = some c)
    (hpool : c.constantPool[index]? = some (.methodref method))
    (hstatic : method.isStatic = false)
    (hnative : method.isNative = true)
    (hcount : method.methodType.parameterTypes.length + 1 = args.length)
    (hfind : findOverride env s.heap method args = .ok overridenMethod)
    (hoverride : overridenMethod.isNative = false) :
    invokeVitrualMethod env index s =
      .failed .notNativeMethod (s.withStack (below ++ [f.afterPops args.length])) := by
  rw [invokeVitrualMethod_eq env index s below f c method stack args hstack hwf hops hclass
    hpool hstatic hcount]
  simp only [hfind, hnative, if_true]
  unfold bridgeAndPush
  rw [VMState.withTop_eq s below f _ hstack,
    invokeNativeMethod_not_native env _ overridenMethod args hoverride]

/-- C9. At depth 512 a virtual dispatch to a non-native target does not end with
"Stack Overflow" when the statically resolved method is native.  The thread has
512 frames; the constant-pool entry resolves to the native `A.id()I`; the
receiver is an instance of `B`, whose override `B.id()I` is interpreted, so the
target of the dispatch is not native.  `invokeVitrualMethod` tests the
statically resolved method, bridges to the override and ends with "Not a native
method"; `pushFrame` is not reached.  On the same thread a virtual dispatch of
`foo(9)`, where the statically resolved `A.foo` and the target `B.foo` are both
interpreted, ends with "Stack Overflow". -/
theorem invokeVitrualMethod_at_capacity_not_stack_overflow :
    Demo.deepReceiverState.thread.vmStack.length = 512 ∧
      resolveMethod Demo.env Demo.receiverFrame.method 3 = .ok Demo.idA ∧
      Demo.idA.isNative = true ∧
      findOverride Demo.env Demo.deepReceiverState.heap Demo.idA [j_any.ref 0] =
        .ok Demo.idB ∧
      Demo.idB.isNative = false ∧
      invokeVitrualMethod Demo.env 3 Demo.deepReceiverState =
        .failed .notNativeMethod
          (Demo.deepReceiverState.withStack
            (List.replicate 511 Demo.fullFrame ++ [Demo.receiverFrame.afterPops 1])) ∧
      Failure.notNativeMethod ≠ Failure.stackOverflow ∧
      Demo.deepCallState.thread.vmStack.length = 512 ∧
      invokeVitrualMethod Demo.env 1 Demo.deepCallState =
        .failed .stackOverflow
          (Demo.deepCallState.withStack
            (List.replicate 511 Demo.fullFrame ++ [Demo.callFrame.afterPops 2])) := by
  have hlen : ∀ g : StackFrame, (List.replicate 511 Demo.fullFrame ++ [g]).length = 512 := by
    intro g
    rw [List.length_append, List.length_replicate]
    rfl
  refine ⟨hlen _, rfl, rfl, rfl, rfl, ?_, by decide, hlen _, ?_⟩
  · exact invokeVitrualMethod_native_with_interpreted_override Demo.env 3
      Demo.deepReceiverState (List.replicate 511 Demo.fullFrame) Demo.receiverFrame Demo.classA
      Demo.idA Demo.idB [] [j_any.ref 0] rfl (by decide) rfl rfl rfl rfl rfl rfl rfl rfl
  · have h := invokeVitrualMethod_eq Demo.env 1 Demo.deepCallState
      (List.replicate 511 Demo.fullFrame) Demo.callFrame Demo.classA Demo.fooA
      [j_any.prim 7] [j_any.ref 0, j_any.prim 9] rfl (by decide) rfl rfl rfl rfl rfl
    rw [h]
    have hfind : findOverride Demo.env Demo.deepCallState.heap Demo.fooA
        [j_any.ref 0, j_any.prim 9] = .ok Demo.fooB := rfl
    have hd : Demo.deepCallState.thread.vmStack.length = 512 := hlen _
    have hcap : DEFAULT_VM_STACK_SIZE = 512 := rfl
    have hn : Demo.fooA.isNative = false := rfl
    have hl : [j_any.ref 0, j_any.prim 9].length ≤ Demo.fooB.maxLocals := by decide
    simp only [hfind, hn, Bool.false_eq_true, if_false, hl, if_true, hd, hcap,
      Nat.lt_irrefl]
    rfl

end gvm
